import Mathlib

/-!
FeaMeshMgr: finite-element mesh assembly, node tagging and mass report.

A shallow embedding of `src/cfd_mesh/FeaMeshMgr.cpp` (OpenVSP), with the label
container of `src/geom_core/Labels.cpp`.  Every definition follows one member
function of `FeaMeshMgrSingleton` (of `Labels` for the label container); member
variables keep their names (`m_SurfVec`, `m_FeaElementVec`, ...).

Conventions of the embedding.

* `double` values are rationals.  The arithmetic of `BuildSubSurfIntChains`,
  whose computed points and tolerance test are the subject of statements, is
  rounded to `double` after every operation (`roundDouble`: IEEE 754 binary64,
  to nearest, ties to even; no fused multiply-add, no extended precision);
  elsewhere the arithmetic of the source is read as exact arithmetic.
* C++ `int` is `Int`.  Where the source compares an `int` with an
  `unsigned int` loop counter the conversion to unsigned is made explicit by
  `toUnsigned` (reduction modulo `2 ^ 32`).
* Objects held through pointers are values.  A chain carries copies of its two
  adjoining surfaces; the node list `m_FeaNodeVec` is a list of node records in
  the order `LoadNodes` collects them.
* Collaborators whose code is not part of this file (the surface kernel, the
  point index of `CfdMeshMgrSingleton`, the sub-surface manager) are explicit
  parameters, gathered in `Kernel`, `PntIndex` and `Stages`.
-/

namespace FeaMesh

/-! ## Geometry -/

/-- Parametric point `(u, w)` of a surface. -/
structure vec2d where
  u : ℚ
  w : ℚ
deriving DecidableEq

/-- Cartesian point or vector. -/
structure vec3d where
  x : ℚ
  y : ℚ
  z : ℚ
deriving DecidableEq

/-- Default-constructed `vec3d`: all coordinates zero. -/
def vec3d.zero : vec3d := ⟨0, 0, 0⟩

/-- Difference of two vectors, `a - b`. -/
def vec3d.sub (a b : vec3d) : vec3d := ⟨a.x - b.x, a.y - b.y, a.z - b.z⟩

/-- Scaling by minus one, `-1 * v`. -/
def vec3d.neg (v : vec3d) : vec3d := ⟨-v.x, -v.y, -v.z⟩

/-- Sum of two parametric points. -/
def vec2d.add (a b : vec2d) : vec2d := ⟨a.u + b.u, a.w + b.w⟩

/-- Division of a parametric point by a scalar. -/
def vec2d.div (a : vec2d) (d : ℚ) : vec2d := ⟨a.u / d, a.w / d⟩

/-- Product of a parametric point and a scalar. -/
def vec2d.mul (a : vec2d) (k : ℚ) : vec2d := ⟨a.u * k, a.w * k⟩

/-! ## Data model -/

/-- Simplified triangle of a surface mesh: three point indices and its tags. -/
structure SimpTri where
  ind0 : Nat := 0
  ind1 : Nat := 0
  ind2 : Nat := 0
  m_Tags : List Int := []
deriving DecidableEq

/-- Working surface (`Surf`) with the part of its mesh that this file reads.
`m_Geo` identifies the transferred geometry the surface was built from. -/
structure Surf where
  m_Geo : Nat := 0
  m_CompID : Int := 0
  m_FeaPartIndex : Int := -1
  m_FlipFlag : Bool := false
  /-- Value of `GetBBox().GetCenter()`. -/
  m_BBoxCenter : vec3d := vec3d.zero
  /-- Parametric domain of the surface core. -/
  m_MinU : ℚ := 0
  m_MaxU : ℚ := 1
  m_MinW : ℚ := 0
  m_MaxW : ℚ := 1
  m_GeomID : String := ""
  m_UnmergedCompID : Int := 0
  m_BaseTag : Int := 0
  m_SimpUWPntVec : List vec2d := []
  m_SimpPntVec : List vec3d := []
  m_SimpTriVec : List SimpTri := []
deriving DecidableEq

/-- Intersection point of a chain: its Cartesian point and its parametric
coordinates on the two adjoining surfaces of the chain. -/
structure IPnt where
  m_Pnt : vec3d := vec3d.zero
  m_UWA : vec2d := ⟨0, 0⟩
  m_UWB : vec2d := ⟨0, 0⟩
deriving DecidableEq

/-- Intersection segment between two points given in the parametric domain. -/
structure ISeg where
  m_UW0 : vec2d
  m_UW1 : vec2d
deriving DecidableEq

/-- Intersection chain. -/
structure ISegChain where
  m_BorderFlag : Bool := false
  m_SurfA : Surf := {}
  m_SurfB : Surf := {}
  m_SSIntersectIndex : Int := -1
  m_ISegDeque : List ISeg := []
  m_TessVec : List IPnt := []
deriving DecidableEq

/-- Kind of a finite element. -/
inductive ElementType where
  | FEA_TRI_6
  | FEA_BEAM
deriving DecidableEq

/-- Finite element: its corner points, its orientation vector (triangle) or
normal vector (beam), the owning part index and the sub-surface index. -/
structure FeaElement where
  m_ElementType : ElementType
  m_Corners : List vec3d
  m_Vec : vec3d
  m_FeaPartIndex : Int := -1
  m_FeaSSIndex : Int := -1
deriving DecidableEq

/-- Node record: point, export index and structural-part tags. -/
structure FeaNode where
  m_Pnt : vec3d
  m_Index : Int := 0
  m_Tags : List Int := []
deriving DecidableEq

/-- Structural part (skin, rib, spar, ...). `m_Surfs` lists the geometry the
part transfers to the mesher. -/
structure FeaPart where
  m_Name : String := ""
  m_IsSkin : Bool := false
  m_IntersectionCapFlag : Bool := false
  m_PropertyIndex : Int := 0
  m_CapPropertyIndex : Int := 0
  m_Surfs : List Nat := []
deriving DecidableEq

/-- Line segment of a sub-surface boundary in the parametric domain. -/
structure SSLineSeg where
  m_P0 : vec2d
  m_P1 : vec2d
deriving DecidableEq

/-- Sub-surface of the structure.  `m_SplitSegs s` is the value of
`GetSplitSegs()` after the boundary was split at the domain edges of the
`s`-th surface of the working surface list. -/
structure SubSurface where
  m_Name : String := ""
  m_PolyFlag : Bool := true
  m_IntersectionCapFlag : Bool := false
  m_Tag : Int := 0
  m_SplitSegs : Nat → List SSLineSeg := fun _ => []
  /-- Value of `Subtag( center )`: whether the region of the sub-surface
  contains the point. -/
  m_Subtag : vec3d → Bool := fun _ => false

/-- Structure (assembly of parts and sub-surfaces) selected for meshing. -/
structure FeaStructure where
  m_FeaStructName : String := ""
  m_FeaPartVec : List FeaPart := []
  m_FeaSubSurfVec : List SubSurface := []

/-- Surface kernel and vector utilities used by element assembly.
`CompTanU s uw` is the normalised tangent of `s` at `uw`; `CompNorm s p` is the
normalised normal of `s` at the parametric coordinates of `p` on `s`;
`signed_angle a b ref` is the signed angle from `a` to `b` about `ref`. -/
structure Kernel where
  CompTanU : Surf → vec2d → vec3d
  CompNorm : Surf → IPnt → vec3d
  signed_angle : vec3d → vec3d → vec3d → ℚ
  /-- `SubSurfaceMgr.GetTag`: the single tag number of a tag combination. -/
  GetTag : List Int → Int

/-- Conversion of an `int` to `unsigned int`. -/
def toUnsigned (i : Int) : Nat := (i % (2 ^ 32 : Int)).toNat

/-- Conversion of an `unsigned int` to `int`. -/
def toSigned (n : Nat) : Int := if n % 2 ^ 32 < 2 ^ 31 then (n % 2 ^ 32 : Nat) else (n % 2 ^ 32 : Nat) - 2 ^ 32

/-! ## Accessors of the structure -/

/-- Modelled from the spec: `FeaStructure::GetFeaPart` is not in this file; it
yields the part at a valid index and no part (`NULL`) otherwise. -/
def FeaStructure.GetFeaPart (st : FeaStructure) (ind : Int) : Option FeaPart :=
  if 0 ≤ ind then st.m_FeaPartVec.get? ind.toNat else none

/-- Modelled from the spec: `NumFeaParts` is not in this file; it is the number
of parts of the structure. -/
def FeaStructure.NumFeaParts (st : FeaStructure) : Int := st.m_FeaPartVec.length

/-- Modelled from the spec: `NumFeaSubSurfs` is not in this file; it is the
number of sub-surfaces of the structure. -/
def FeaStructure.NumFeaSubSurfs (st : FeaStructure) : Int := st.m_FeaSubSurfVec.length

/-- Modelled from the spec: `GetFeaSkin` followed by `GetFeaPartIndex` is not
in this file; it yields the index of the skin part when the structure has one. -/
def FeaStructure.GetFeaSkinIndex (st : FeaStructure) : Option Nat :=
  let i := st.m_FeaPartVec.findIdx (fun p => p.m_IsSkin)
  if i < st.m_FeaPartVec.length then some i else none

/-- Modelled from the spec: `GetFeaPropertyIndex` is not in this file; it is
the property id of part `i`, and -1 when there is no such part. -/
def FeaStructure.GetFeaPropertyIndex (st : FeaStructure) (i : Nat) : Int :=
  match st.m_FeaPartVec.get? i with
  | some p => p.m_PropertyIndex
  | none => -1

/-- Modelled from the spec: `GetFeaPartName` is not in this file; it is the
name of part `i`. -/
def FeaStructure.GetFeaPartName (st : FeaStructure) (i : Nat) : String :=
  match st.m_FeaPartVec.get? i with
  | some p => p.m_Name
  | none => "NONE"

/-! ## BuildFeaMesh -/

/-- `FeaTri::Create` with the part index and, when the triangle carries more
than one tag, the sub-surface index (source lines 229-239). -/
def buildTri (K : Kernel) (m_NumFeaParts : Int) (s : Surf) (t : SimpTri) : FeaElement :=
  let uw0 := s.m_SimpUWPntVec.getD t.ind0 ⟨0, 0⟩
  let uw1 := s.m_SimpUWPntVec.getD t.ind1 ⟨0, 0⟩
  let uw2 := s.m_SimpUWPntVec.getD t.ind2 ⟨0, 0⟩
  let avg_uw := ((uw0.add uw1).add uw2).div 3
  let orient_vec := K.CompTanU s avg_uw
  let tri : FeaElement :=
    { m_ElementType := ElementType.FEA_TRI_6
      m_Corners := [s.m_SimpPntVec.getD t.ind0 vec3d.zero,
                    s.m_SimpPntVec.getD t.ind1 vec3d.zero,
                    s.m_SimpPntVec.getD t.ind2 vec3d.zero]
      m_Vec := orient_vec
      m_FeaPartIndex := s.m_FeaPartIndex }
  if t.m_Tags.length > 1 then
    { tri with m_FeaSSIndex := K.GetTag t.m_Tags - m_NumFeaParts - 1 }
  else tri

/-- Triangle loop of `BuildFeaMesh` (source lines 211-243): the elements
appended for the surfaces of `m_SurfVec`, in surface order then triangle
order. -/
def buildFeaTris (K : Kernel) (m_NumFeaParts : Int) (m_SurfVec : List Surf)
    (m_FeaElementVec : List FeaElement) : List FeaElement :=
  m_SurfVec.foldl
    (fun acc s => s.m_SimpTriVec.foldl (fun acc2 t => acc2 ++ [buildTri K m_NumFeaParts s t]) acc)
    m_FeaElementVec

/-- Intersection-cap flag of the part at an index, `false` when `GetFeaPart`
returns no part (source lines 252-263). -/
def FeaPartCap (st : FeaStructure) (ind : Int) : Bool :=
  match st.GetFeaPart ind with
  | some p => p.m_IntersectionCapFlag
  | none => false

/-- Normal of `NormSurf` at a chain point, flipped with the surface
(source lines 300-307 and 333-340). -/
def chainNorm (K : Kernel) (NormSurf : Surf) (p : IPnt) : vec3d :=
  let norm := K.CompNorm NormSurf p
  if NormSurf.m_FlipFlag then norm.neg else norm

/-- Beam loop at the end of the chain body (source lines 349-356): beam `j`,
`1 ≤ j < ipntVec.size()`, joins points `j - 1` and `j`. -/
def defineBeams (FeaPartIndex : Int) (ipntVec inormVec : List vec3d) (ssindexVec : List Int) :
    List FeaElement :=
  (List.range' 1 (ipntVec.length - 1)).map fun j =>
    { m_ElementType := ElementType.FEA_BEAM
      m_Corners := [ipntVec.getD (j - 1) vec3d.zero, ipntVec.getD j vec3d.zero]
      m_Vec := inormVec.getD (j - 1) vec3d.zero
      m_FeaPartIndex := FeaPartIndex
      m_FeaSSIndex := ssindexVec.getD j 0 }

/-- Body of the chain loop of `BuildFeaMesh` (source lines 250-357): the beams
appended for one chain.  In the junction branch the source reads
`ipntVec[0]` and `ipntVec.back()` also when the chain has no point (undefined
there); the embedding reads the zero vector, and no beam results either way. -/
def chainBeams (K : Kernel) (st : FeaStructure) (c : ISegChain) : List FeaElement :=
  if !c.m_BorderFlag then
    let FeaPartCapA := FeaPartCap st c.m_SurfA.m_FeaPartIndex
    let FeaPartCapB := FeaPartCap st c.m_SurfB.m_FeaPartIndex
    if (FeaPartCapA || FeaPartCapB) &&
        ((decide (c.m_SurfA.m_CompID < 0) && decide (c.m_SurfB.m_CompID ≥ 0)) ||
         (decide (c.m_SurfB.m_CompID < 0) && decide (c.m_SurfA.m_CompID ≥ 0))) then
      let pc : Int × vec3d :=
        if decide (c.m_SurfA.m_CompID < 0) && FeaPartCapA then
          (c.m_SurfA.m_FeaPartIndex, c.m_SurfA.m_BBoxCenter)
        else if decide (c.m_SurfB.m_CompID < 0) && FeaPartCapB then
          (c.m_SurfB.m_FeaPartIndex, c.m_SurfB.m_BBoxCenter)
        else (-1, vec3d.zero)
      let FeaPartIndex := pc.1
      let center := pc.2
      let NormSurf := if c.m_SurfA.m_CompID ≥ 0 then c.m_SurfA else c.m_SurfB
      let inormVec := c.m_TessVec.map (chainNorm K NormSurf)
      let ipntVec := c.m_TessVec.map (fun p => p.m_Pnt)
      let ssindexVec : List Int := c.m_TessVec.map (fun _ => -1)
      let theta := K.signed_angle ((ipntVec.getD 0 vec3d.zero).sub center)
        ((ipntVec.getLastD vec3d.zero).sub center) center
      if theta < 0 then
        defineBeams FeaPartIndex ipntVec.reverse inormVec.reverse ssindexVec
      else
        defineBeams FeaPartIndex ipntVec inormVec ssindexVec
    else if c.m_SurfA.m_CompID = c.m_SurfB.m_CompID ∧ c.m_SurfA.m_CompID ≥ 0 then
      if c.m_SSIntersectIndex ≥ 0 then
        let NormSurf := c.m_SurfA
        defineBeams c.m_SurfA.m_FeaPartIndex (c.m_TessVec.map (fun p => p.m_Pnt))
          (c.m_TessVec.map (chainNorm K NormSurf))
          (c.m_TessVec.map (fun _ => c.m_SSIntersectIndex))
      else []
    else []
  else []

/-- Chain loop of `BuildFeaMesh` (source lines 246-358): the beams of every
chain of `m_ISegChainList` are appended to the element list, in chain order. -/
def buildFeaBeams (K : Kernel) (st : FeaStructure) (m_ISegChainList : List ISegChain)
    (m_FeaElementVec : List FeaElement) : List FeaElement :=
  m_ISegChainList.foldl (fun acc c => acc ++ chainBeams K st c) m_FeaElementVec

/-- Body of `BuildFeaMesh` (source lines 208-359) on the element list: the
triangle loop, then the chain loop. -/
def buildFeaMesh (K : Kernel) (st : FeaStructure) (m_NumFeaParts : Int)
    (m_SurfVec : List Surf) (m_ISegChainList : List ISegChain)
    (m_FeaElementVec : List FeaElement) : List FeaElement :=
  buildFeaBeams K st m_ISegChainList (buildFeaTris K m_NumFeaParts m_SurfVec m_FeaElementVec)

/-! ## TagFeaNodes -/

/-- Index map of `CfdMeshMgrSingleton` (`map< int, vector< int > >`). -/
abbrev IndMap := List (Int × List Nat)

/-- Point index of `CfdMeshMgrSingleton`, whose code is not part of this file.
`BuildIndMap pnts` yields the index map, the shift table and the number of
unique points; `FindPntIndex p pnts map` yields the index in `pnts` of the
canonical point coincident with `p`. -/
structure PntIndex where
  BuildIndMap : List vec3d → IndMap × List Int × Int
  FindPntIndex : vec3d → List vec3d → IndMap → Nat

/-- Modelled from the spec: `FeaElement::LoadNodes` is not in this file; it
appends the node of every corner point of the element to the pool. -/
def LoadNodes (e : FeaElement) (node_vec : List FeaNode) : List FeaNode :=
  node_vec ++ e.m_Corners.map (fun p => { m_Pnt := p })

/-- Modelled from the spec: `FeaNode::AddTag` is not in this file; the tags of
a node form a set, so a tag already present is not added again. -/
def FeaNode.AddTag (n : FeaNode) (ind : Int) : FeaNode :=
  if ind ∈ n.m_Tags then n else { n with m_Tags := n.m_Tags ++ [ind] }

/-- The statement `m_FeaNodeVec[ind]->AddTag( i )`.  An index outside the node
list (undefined in the source) leaves the list unchanged. -/
def tagNodeAt (m_FeaNodeVec : List FeaNode) (ind : Nat) (i : Int) : List FeaNode :=
  match m_FeaNodeVec.get? ind with
  | some n => m_FeaNodeVec.set ind (n.AddTag i)
  | none => m_FeaNodeVec

/-- Result of `TagFeaNodes`: node list, index map and shift table. -/
structure NodeTables where
  m_FeaNodeVec : List FeaNode
  m_IndMap : IndMap
  m_PntShift : List Int

/-- Nodes of the elements owned by part `i`, in element order: the inner
element loop of `TagFeaNodes` (source lines 707-715).  The part index of the
element is compared with the unsigned counter `i`. -/
def partNodes (m_FeaElementVec : List FeaElement) (i : Nat) : List FeaNode :=
  m_FeaElementVec.foldl
    (fun temp_nVec e => if toUnsigned e.m_FeaPartIndex = i then LoadNodes e temp_nVec else temp_nVec)
    []

/-- Body of `TagFeaNodes` (source lines 677-723). -/
def tagFeaNodes (X : PntIndex) (m_NumFeaParts : Int) (m_FeaElementVec : List FeaElement) :
    NodeTables :=
  let nodeVec0 := m_FeaElementVec.foldl (fun nv e => LoadNodes e nv) []
  let m_AllPntVec := nodeVec0.map (fun n => n.m_Pnt)
  let built := X.BuildIndMap m_AllPntVec
  let m_IndMap := built.1
  let m_PntShift := built.2.1
  let nodeVec1 := nodeVec0.map fun n =>
    let ind := X.FindPntIndex n.m_Pnt m_AllPntVec m_IndMap
    { n with m_Tags := [], m_Index := m_PntShift.getD ind 0 + 1 }
  let nodeVec2 := (List.range (toUnsigned m_NumFeaParts)).foldl
    (fun nv i =>
      (partNodes m_FeaElementVec i).foldl
        (fun nv2 n => tagNodeAt nv2 (X.FindPntIndex n.m_Pnt m_AllPntVec m_IndMap) (toSigned i))
        nv)
    nodeVec1
  { m_FeaNodeVec := nodeVec2, m_IndMap := m_IndMap, m_PntShift := m_PntShift }

/-- Coincidence-map index of a point, relative to the pool of all corner
points of the element list, as `TagFeaNodes` computes it. -/
def coincidentIndex (X : PntIndex) (m_FeaElementVec : List FeaElement) (p : vec3d) : Nat :=
  let m_AllPntVec := (m_FeaElementVec.foldl (fun nv e => LoadNodes e nv) []).map (fun n => n.m_Pnt)
  X.FindPntIndex p m_AllPntVec (X.BuildIndMap m_AllPntVec).1

/-! ## ComputeWriteMass -/

/-- Mass report file: structure name, one line per part, total. -/
structure MassReport where
  m_StructName : String
  m_PartLines : List (String × ℚ)
  m_Total : ℚ
deriving DecidableEq

/-- Mass of part `i`: the inner element loop of `ComputeWriteMass`
(source lines 373-382). -/
def partMass (ComputeMass : FeaElement → Int → ℚ) (st : FeaStructure)
    (m_FeaElementVec : List FeaElement) (i : Nat) : ℚ :=
  let property_id := st.GetFeaPropertyIndex i
  m_FeaElementVec.foldl
    (fun mass e => if toUnsigned e.m_FeaPartIndex = i then mass + ComputeMass e property_id else mass)
    0

/-- Body of `ComputeWriteMass` (source lines 363-393): the new total mass and
the report written, if the report file opens; `fp` tells whether `fopen`
succeeds. -/
def computeWriteMass (ComputeMass : FeaElement → Int → ℚ) (st : FeaStructure)
    (m_NumFeaParts : Int) (m_FeaElementVec : List FeaElement) (fp : Bool) :
    ℚ × Option MassReport :=
  let m_TotalMass : ℚ := 0
  if fp then
    let r := (List.range (toUnsigned m_NumFeaParts)).foldl
      (fun (acc : List (String × ℚ) × ℚ) i =>
        let mass := partMass ComputeMass st m_FeaElementVec i
        let name := st.GetFeaPartName i
        (acc.1 ++ [(name, mass)], acc.2 + mass))
      ([], m_TotalMass)
    (r.2, some { m_StructName := st.m_FeaStructName, m_PartLines := r.1, m_Total := r.2 })
  else (m_TotalMass, none)

/-! ## Arithmetic of `double` -/

/-- Rounding of a rational to the nearest integer, a tie going to the even
integer. -/
def roundEven (x : ℚ) : Int :=
  let f := ⌊x⌋
  if x - (f : ℚ) < 1 / 2 then f
  else if 1 / 2 < x - (f : ℚ) then f + 1
  else if f % 2 = 0 then f else f + 1

/-- Exponent of the last place of the `double` nearest to a non-zero `x`: 52
below the binary exponent of `x`, and -1074 in the subnormal range. -/
def ulpExp (x : ℚ) : Int := max (Int.log 2 |x| - 52) (-1074)

/-- Rounding to `double` (IEEE 754 binary64, to nearest, ties to even): the
value a `double` operation stores for the exact result `x`.  Overflow to
infinity is not modelled. -/
def roundDouble (x : ℚ) : ℚ :=
  if x = 0 then 0 else (roundEven (x / (2 : ℚ) ^ ulpExp x) : ℚ) * (2 : ℚ) ^ ulpExp x

/-! ## BuildSubSurfIntChains -/

/-- Modelled from the spec: the constructor of `ISegChain` is not in this
file; a new chain has no segment, is not a border curve and carries no
sub-surface-intersection index.  Both surfaces are set to `surf`
(source lines 453-455). -/
def newChain (surf : Surf) : ISegChain :=
  { m_BorderFlag := false, m_SurfA := surf, m_SurfB := surf, m_SSIntersectIndex := -1 }

/-- Modelled from the spec: `ISegChain::Valid` is not in this file; a chain
is retained when it holds at least one segment. -/
def ISegChain.Valid (c : ISegChain) : Bool := decide (1 ≤ c.m_ISegDeque.length)

/-- State of the segment loop of `BuildSubSurfIntChains`: the chain under
construction (`NULL` is `none`), the `new_chain` flag and the chain list. -/
structure ChainLoop where
  chain : Option ISegChain
  new_chain : Bool
  m_ISegChainList : List ISegChain

/-- Retain or discard the chain under construction (source lines 435-448 and
538-551): a valid chain is marked with the sub-surface index, if the
sub-surface is capped, and appended; an invalid one is deleted. -/
def finishChain (cap : Bool) (ss : Nat) (st : ChainLoop) : ChainLoop :=
  match st.chain with
  | some c =>
    if c.Valid then
      let c1 := if cap then { c with m_SSIntersectIndex := (ss : Int) } else c
      { st with chain := some c1, m_ISegChainList := st.m_ISegChainList ++ [c1] }
    else { st with chain := none }
  | none => st

/-- First skip test (source line 477): a coordinate below the domain. -/
def belowMin (surf : Surf) (l_seg : SSLineSeg) : Bool :=
  decide (l_seg.m_P0.u < surf.m_MinU) || decide (l_seg.m_P0.w < surf.m_MinW) ||
  decide (l_seg.m_P1.u < surf.m_MinU) || decide (l_seg.m_P1.w < surf.m_MinW)

/-- Second skip test (source line 482): a coordinate above the domain. -/
def aboveMax (surf : Surf) (l_seg : SSLineSeg) : Bool :=
  decide (l_seg.m_P0.u > surf.m_MaxU) || decide (l_seg.m_P0.w > surf.m_MaxW) ||
  decide (l_seg.m_P1.u > surf.m_MaxU) || decide (l_seg.m_P1.w > surf.m_MaxW)

/-- Tolerance of the edge test (source line 471): the `double` that the
literal `1e-6` denotes, `roundDouble (1 / 1000000)`, a little below `10⁻⁶`. -/
def tol : ℚ := 4722366482869645 / 2 ^ 72

/-- Third skip test without its `is_poly` conjunct (source lines 487-490):
for both end points the difference to the same edge of the domain, as the
`double` subtraction gives it, is below `tol` in absolute value. -/
def onSameEdge (surf : Surf) (l_seg : SSLineSeg) : Bool :=
  (decide (|roundDouble (l_seg.m_P0.u - surf.m_MaxU)| < tol)
    && decide (|roundDouble (l_seg.m_P1.u - surf.m_MaxU)| < tol)) ||
  (decide (|roundDouble (l_seg.m_P0.w - surf.m_MaxW)| < tol)
    && decide (|roundDouble (l_seg.m_P1.w - surf.m_MaxW)| < tol)) ||
  (decide (|roundDouble (l_seg.m_P0.u - surf.m_MinU)| < tol)
    && decide (|roundDouble (l_seg.m_P1.u - surf.m_MinU)| < tol)) ||
  (decide (|roundDouble (l_seg.m_P0.w - surf.m_MinW)| < tol)
    && decide (|roundDouble (l_seg.m_P1.w - surf.m_MinW)| < tol))

/-- Number of sub-segments a boundary segment is broken into (source line 401). -/
def num_sects : Nat := 100

/-- The points `uw_pnts` of a boundary segment (source lines 497-509).  The
end points are stored as they are; the subtraction, the division by
`num_sects`, the product with `p` and the sum are `double` operations, each
rounded. -/
def uwPnts (l_seg : SSLineSeg) : List vec2d :=
  let uw_pnt0 := l_seg.m_P0
  let uw_pnt1 := l_seg.m_P1
  let delta_u := roundDouble (roundDouble (uw_pnt1.u - uw_pnt0.u) / (num_sects : ℚ))
  let delta_w := roundDouble (roundDouble (uw_pnt1.w - uw_pnt0.w) / (num_sects : ℚ))
  (List.range (num_sects + 1)).map fun p =>
    if p = 0 then uw_pnt0
    else if p = num_sects then uw_pnt1
    else ⟨roundDouble (uw_pnt0.u + roundDouble (delta_u * (p : ℚ))),
          roundDouble (uw_pnt0.w + roundDouble (delta_w * (p : ℚ)))⟩

/-- The segments pushed on the chain for a boundary segment
(source lines 511-534). -/
def subSegs (l_seg : SSLineSeg) : List ISeg :=
  let uw_pnts := uwPnts l_seg
  (List.range' 1 (uw_pnts.length - 1)).map fun p =>
    { m_UW0 := uw_pnts.getD (p - 1) ⟨0, 0⟩, m_UW1 := uw_pnts.getD p ⟨0, 0⟩ }

/-- One pass of the segment loop (source lines 431-535). -/
def segStep (surf : Surf) (is_poly cap : Bool) (ss : Nat) (st : ChainLoop)
    (l_seg : SSLineSeg) : ChainLoop :=
  let st1 := if st.new_chain && st.chain.isSome then finishChain cap ss st else st
  let st2 :=
    if st1.new_chain then
      { st1 with chain := some (newChain surf)
                 new_chain := if !is_poly then false else st1.new_chain }
    else st1
  if belowMin surf l_seg then { st2 with new_chain := true }
  else if aboveMax surf l_seg then { st2 with new_chain := true }
  else if onSameEdge surf l_seg && is_poly then { st2 with new_chain := true }
  else
    { st2 with chain := st2.chain.map fun c =>
        { c with m_ISegDeque := c.m_ISegDeque ++ subSegs l_seg } }

/-- Chains appended for sub-surface `ss` on one surface (source lines 424-552):
the segment loop from a null chain, then the last chain is retained or
discarded. -/
def buildSubSurfChains (surf : Surf) (is_poly cap : Bool) (ss : Nat) (segs : List SSLineSeg)
    (m_ISegChainList : List ISegChain) : List ISegChain :=
  let st := segs.foldl (segStep surf is_poly cap ss)
    { chain := none, new_chain := true, m_ISegChainList := m_ISegChainList }
  (finishChain cap ss st).m_ISegChainList

/-- `BuildSubSurfIntChains` (source lines 396-555): for every surface and
every sub-surface, in that order. -/
def BuildSubSurfIntChains (st : FeaStructure) (m_NumFeaSubSurfs : Int) (m_SurfVec : List Surf)
    (m_ISegChainList : List ISegChain) : List ISegChain :=
  (List.range m_SurfVec.length).foldl
    (fun acc s =>
      (List.range m_NumFeaSubSurfs.toNat).foldl
        (fun acc2 ss =>
          match m_SurfVec.get? s, st.m_FeaSubSurfVec.get? ss with
          | some surf, some sub =>
            buildSubSurfChains surf sub.m_PolyFlag sub.m_IntersectionCapFlag ss
              (sub.m_SplitSegs s) acc2
          | _, _ => acc2)
        acc)
    m_ISegChainList

/-! ## The mesh manager -/

/-- File written by an export: the text of one of the mesh formats, or the
mass report. -/
inductive ExportFile where
  | text (format : String) (lines : List String)
  | mass (report : MassReport)
deriving DecidableEq

/-- Member variables of `FeaMeshMgrSingleton` (with those of its base class
that this file reads), the output text stream and the files written. -/
structure FeaMeshMgr where
  m_TotalMass : ℚ := 0
  m_DrawMeshFlag : Bool := false
  m_FeaMeshInProgress : Bool := false
  m_NumFeaParts : Int := 0
  m_NumFeaSubSurfs : Int := 0
  m_FeaMeshStructIndex : Int := 0
  m_FeaMeshStruct : FeaStructure := {}
  m_FeaElementVec : List FeaElement := []
  m_FeaNodeVec : List FeaNode := []
  m_IndMap : IndMap := []
  m_PntShift : List Int := []
  m_DrawBrowserNameVec : List String := []
  m_DrawBrowserPartIndexVec : List Int := []
  m_DrawElementFlagVec : List Bool := []
  m_DrawCapFlagVec : List Bool := []
  m_SurfVec : List Surf := []
  m_ISegChainList : List ISegChain := []
  m_OutStream : List String := []
  m_Files : List ExportFile := []

/-- Structure manager: the structures a selection index ranges over. -/
structure StructureMgr where
  m_AllFeaStructs : List FeaStructure := []
  /-- Size of `GetFeaPropertyVec()`. -/
  m_NumFeaProperties : Nat := 0
  /-- Size of `GetFeaMaterialVec()`. -/
  m_NumFeaMaterials : Nat := 0

/-- Modelled from the spec: `ValidTotalFeaStructInd` is not in this file; the
selection is valid when the requested structure exists. -/
def StructureMgr.ValidTotalFeaStructInd (S : StructureMgr) (ind : Int) : Bool :=
  decide (0 ≤ ind) && decide (ind < (S.m_AllFeaStructs.length : Int))

/-- Collaborators of the manager.  The stages of the base class
(`CleanMergeSurfs`, `BuildGrid`, `Intersect`, ...) act on the manager; the
stages `SubTagTris`, `Remesh` and the file writers are taken here as they are
called by `GenerateFeaMesh` and `ExportFeaMesh`.  A writer yields the text of
its file, or nothing when the file does not open. -/
structure Stages where
  K : Kernel
  X : PntIndex
  ComputeMass : FeaElement → Int → ℚ
  StructMgr : StructureMgr
  CleanMergeSurfs : List Surf → List Surf
  DeleteAllSources : FeaMeshMgr → FeaMeshMgr
  BuildGrid : FeaMeshMgr → FeaMeshMgr
  Intersect : FeaMeshMgr → FeaMeshMgr
  BuildTargetMap : FeaMeshMgr → FeaMeshMgr
  InitMesh : FeaMeshMgr → FeaMeshMgr
  SubTagTris : FeaMeshMgr → FeaMeshMgr
  Remesh : FeaMeshMgr → FeaMeshMgr
  BuildSingleTagMap : FeaMeshMgr → FeaMeshMgr
  CheckWaterTight : FeaMeshMgr → String
  UpdateDrawObjData : FeaMeshMgr → FeaMeshMgr
  WriteNASTRAN : FeaMeshMgr → Option (List String)
  WriteCalculix : FeaMeshMgr → Option (List String)
  WriteSTL : FeaMeshMgr → Option (List String)
  WriteGmsh : FeaMeshMgr → Option (List String)
  MassFileOpens : Bool
  to_string : ℚ → String

/-- Append a message to the output text stream. -/
def addOutputText (m : FeaMeshMgr) (msg : String) : FeaMeshMgr :=
  { m with m_OutStream := m.m_OutStream ++ [msg] }

/-- Modelled from the spec: `CfdMeshMgrSingleton::CleanUp` is not in this
file; it clears the mesh state of the base class left by a previous run, here
the working surface list and the chain list. -/
def CfdCleanUp (m : FeaMeshMgr) : FeaMeshMgr :=
  { m with m_SurfVec := [], m_ISegChainList := [] }

/-- `CleanUp` (source lines 34-52). -/
def CleanUp (m : FeaMeshMgr) : FeaMeshMgr :=
  CfdCleanUp
    { m with m_FeaElementVec := []
             m_NumFeaParts := 0
             m_NumFeaSubSurfs := 0
             m_DrawBrowserNameVec := []
             m_DrawBrowserPartIndexVec := []
             m_DrawElementFlagVec := []
             m_DrawCapFlagVec := [] }

/-- Transferable surface geometry tagged with a component id. -/
structure XferSurf where
  m_Geo : Nat
  m_CompIndex : Int
deriving DecidableEq

/-- Modelled from the spec: `FeaPart::FetchFeaXFerSurf` is not in this file;
it yields the geometry of the part, every surface tagged with `compid`. -/
def FeaPart.FetchFeaXFerSurf (p : FeaPart) (compid : Int) : List XferSurf :=
  p.m_Surfs.map fun g => { m_Geo := g, m_CompIndex := compid }

/-- Modelled from the spec: `CfdMeshMgrSingleton::LoadSurfs` is not in this
file; it converts every transferred surface into a working surface and appends
it to the working surface list. -/
def LoadSurfs (xfersurfs : List XferSurf) (m_SurfVec : List Surf) : List Surf :=
  m_SurfVec ++ xfersurfs.map fun x => { m_Geo := x.m_Geo, m_CompID := x.m_CompIndex }

/-- `SetFeaPartIndex` on a surface. -/
def Surf.SetFeaPartIndex (s : Surf) (ind : Int) : Surf := { s with m_FeaPartIndex := ind }

/-- `LoadSkins` (source lines 82-104).  The part index given to every surface
of the list is the index of the skin in the part list. -/
def LoadSkins (m : FeaMeshMgr) : FeaMeshMgr :=
  match m.m_FeaMeshStruct.GetFeaSkinIndex with
  | some skin_index =>
    match m.m_FeaMeshStruct.m_FeaPartVec.get? skin_index with
    | some FeaSkin =>
      let skinxfersurfs := FeaSkin.FetchFeaXFerSurf 0
      let surfs := LoadSurfs skinxfersurfs m.m_SurfVec
      { m with m_SurfVec := surfs.map fun s => s.SetFeaPartIndex (skin_index : Int) }
    | none => m
  | none => m

/-- `LoadSurfaces` (source lines 54-80): the value returned and the manager
after the call.  An index reported valid that names no structure (undefined in
the source) loads nothing. -/
def LoadSurfaces (E : Stages) (m : FeaMeshMgr) : Bool × FeaMeshMgr :=
  let m1 := CleanUp m
  if !E.StructMgr.ValidTotalFeaStructInd m1.m_FeaMeshStructIndex then
    let m2 := addOutputText m1 "FeaMesh Failed: Invalid FeaStructure Selection\n"
    (false, { m2 with m_FeaMeshInProgress := false })
  else
    match E.StructMgr.m_AllFeaStructs.get? m1.m_FeaMeshStructIndex.toNat with
    | some feastruct =>
      let m2 := { m1 with m_FeaMeshStruct := feastruct }
      let m3 := { m2 with m_NumFeaParts := m2.m_FeaMeshStruct.NumFeaParts }
      let m4 := { m3 with m_NumFeaSubSurfs := m3.m_FeaMeshStruct.NumFeaSubSurfs }
      let m5 := LoadSkins m4
      (true, { m5 with m_SurfVec := E.CleanMergeSurfs m5.m_SurfVec })
    | none => (true, m1)

/-- One pass of the part loop of `AddStructureParts` (source lines 189-204):
part `i` is fetched with component id `-9999 + (i - 1)`, loaded, and the
surfaces just loaded get the index of the part, which is `i`. -/
def addStructurePart (FeaPartVec : List FeaPart) (m_SurfVec : List Surf) (i : Nat) : List Surf :=
  match FeaPartVec.get? i with
  | some part =>
    let part_index : Int := (i : Int)
    let partxfersurfs := part.FetchFeaXFerSurf (-9999 + ((i : Int) - 1))
    let surfs := LoadSurfs partxfersurfs m_SurfVec
    let begin := surfs.length - partxfersurfs.length
    surfs.take begin ++ (surfs.drop begin).map fun s => s.SetFeaPartIndex part_index
  | none => m_SurfVec

/-- `AddStructureParts` (source lines 182-206): the loop runs over
`i = 1, ..., m_NumFeaParts - 1`. -/
def AddStructureParts (m : FeaMeshMgr) : FeaMeshMgr :=
  let FeaPartVec := m.m_FeaMeshStruct.m_FeaPartVec
  let surfs :=
    (List.range' 1 (m.m_NumFeaParts.toNat - 1)).foldl (addStructurePart FeaPartVec) m.m_SurfVec
  { m with m_SurfVec := surfs }

/-- `BuildFeaMesh` on the manager. -/
def BuildFeaMesh (E : Stages) (m : FeaMeshMgr) : FeaMeshMgr :=
  let elems := buildFeaMesh E.K m.m_FeaMeshStruct m.m_NumFeaParts m.m_SurfVec
    m.m_ISegChainList m.m_FeaElementVec
  { m with m_FeaElementVec := elems }

/-- `TagFeaNodes` on the manager. -/
def TagFeaNodes (E : Stages) (m : FeaMeshMgr) : FeaMeshMgr :=
  let t := tagFeaNodes E.X m.m_NumFeaParts m.m_FeaElementVec
  { m with m_FeaNodeVec := t.m_FeaNodeVec, m_IndMap := t.m_IndMap, m_PntShift := t.m_PntShift }

/-- `ComputeWriteMass` on the manager (source lines 361-394). -/
def ComputeWriteMass (E : Stages) (m : FeaMeshMgr) : FeaMeshMgr :=
  let r := computeWriteMass E.ComputeMass m.m_FeaMeshStruct m.m_NumFeaParts m.m_FeaElementVec
    E.MassFileOpens
  match r.2 with
  | some report => { m with m_TotalMass := r.1, m_Files := m.m_Files ++ [ExportFile.mass report] }
  | none => { m with m_TotalMass := r.1 }

/-- Record the file of a writer, if it opened. -/
def writeFile (m : FeaMeshMgr) (format : String) (out : Option (List String)) : FeaMeshMgr :=
  match out with
  | some lines => { m with m_Files := m.m_Files ++ [ExportFile.text format lines] }
  | none => m

/-- `ExportFeaMesh` (source lines 169-180). -/
def ExportFeaMesh (E : Stages) (m : FeaMeshMgr) : FeaMeshMgr :=
  let m1 := writeFile m "NASTRAN" (E.WriteNASTRAN m)
  let m2 := writeFile m1 "CALCULIX" (E.WriteCalculix m1)
  let m3 := writeFile m2 "STL" (E.WriteSTL m2)
  let m4 := writeFile m3 "GMSH" (E.WriteGmsh m3)
  let m5 := ComputeWriteMass E m4
  addOutputText m5 ("Total Mass = " ++ E.to_string m5.m_TotalMass ++ "\n")

/-- `GenerateFeaMesh` (source lines 106-167).  The call `m_Vehicle->HideAll()`
acts on the vehicle only and leaves the manager unchanged. -/
def GenerateFeaMesh (E : Stages) (m : FeaMeshMgr) : FeaMeshMgr :=
  let m1 := { m with m_FeaMeshInProgress := true }
  let m2 := addOutputText m1 "Load Surfaces\n"
  let m3 := (LoadSurfaces E m2).2
  if m3.m_SurfVec.length ≤ 0 then
    { m3 with m_FeaMeshInProgress := false }
  else
    let m4 := AddStructureParts (addOutputText m3 "Add Structure Parts\n")
    let m5 := E.DeleteAllSources m4
    let m6 := E.BuildGrid (addOutputText m5 "Build Slice Planes\n")
    let m7 := E.Intersect (addOutputText m6 "Intersect\n")
    let m8 := E.BuildTargetMap (addOutputText m7 "Build Target Map\n")
    let m9 := E.InitMesh (addOutputText m8 "InitMesh\n")
    let m10 := E.SubTagTris m9
    let m11 := E.Remesh (addOutputText m10 "Remesh\n")
    let m12 := E.BuildSingleTagMap m11
    let m13 := BuildFeaMesh E (addOutputText m12 "Build Fea Mesh\n")
    let m14 := TagFeaNodes E (addOutputText m13 "Tag Fea Nodes\n")
    let m15 := ExportFeaMesh E (addOutputText m14 "Exporting Files\n")
    let m16 := addOutputText m15 "Check Water Tight\n"
    let m17 := addOutputText m16 (E.CheckWaterTight m16)
    let m18 := E.UpdateDrawObjData m17
    let m19 := addOutputText m18 "Finished\n"
    { m19 with m_FeaMeshInProgress := false }

/-! ## The file writers -/

/-- One output call of a writer: literal text, or the call of the write
method of the element at position `j` of the element list (with the element id
and the further integer arguments), of the node at position `j` of the node
list, of the normal of the beam at position `j`, of a property or of a
material. -/
inductive Rec where
  | text (s : String)
  | element (j : Nat) (elem_id : Int) (args : List Int)
  | node (j : Nat)
  | normal (j : Nat)
  | propertyNASTRAN (i : Nat) (id : Int)
  | propertyCalculix (property_id : Int) (label : String)
  | material (i : Nat) (id : Int)
deriving DecidableEq

/-- Element id of an element record. -/
def Rec.elemId : Rec → Option Int
  | Rec.element _ elem_id _ => some elem_id
  | _ => none

/-- Position and arguments of an element record. -/
def Rec.elemKey : Rec → Option (Nat × List Int)
  | Rec.element j _ args => some (j, args)
  | _ => none

/-- Position of a node record. -/
def Rec.nodeIdx : Rec → Option Nat
  | Rec.node j => some j
  | _ => none

/-- Modelled from the spec: `GetCapFeaPropertyIndex` is not in this file; it
is the cap property id of part `i`, and -1 when there is no such part. -/
def FeaStructure.GetCapFeaPropertyIndex (st : FeaStructure) (i : Nat) : Int :=
  match st.m_FeaPartVec.get? i with
  | some p => p.m_CapPropertyIndex
  | none => -1

/-- Modelled from the spec: `FeaNode::HasOnlyIndex` is not in this file; a
node is owned by a part when the tag of that part is its only tag. -/
def FeaNode.HasOnlyIndex (n : FeaNode) (ind : Int) : Bool := decide (n.m_Tags = [ind])

/-- Element loop with the running element id, shared by `WriteNASTRAN` and
`WriteCalculix`: for every element selected by `sel`, in element order,
`elem_id` is incremented and the element is written with it and `args`. -/
def elemIdLoop (m_FeaElementVec : List FeaElement) (sel : FeaElement → Bool)
    (args : FeaElement → List Int) (acc : List Rec × Int) : List Rec × Int :=
  (List.range m_FeaElementVec.length).foldl
    (fun acc j =>
      match m_FeaElementVec.get? j with
      | some e =>
        if sel e then (acc.1 ++ [Rec.element j (acc.2 + 1) (args e)], acc.2 + 1) else acc
      | none => acc)
    acc

/-- Node loop of the writers: every node with non-negative shift that
satisfies `cond` is written, in node order. -/
def nodeLoop (m_FeaNodeVec : List FeaNode) (m_PntShift : List Int) (cond : FeaNode → Bool) :
    List Rec :=
  (List.range m_FeaNodeVec.length).foldl
    (fun acc j =>
      if decide (m_PntShift.getD j 0 ≥ 0) && ((m_FeaNodeVec.get? j).map cond).getD false then
        acc ++ [Rec.node j]
      else acc)
    []

/-- Element block of part `i` in `WriteNASTRAN` (source lines 736-757): a
triangle is written with the property id of the part, a beam with the cap
property id. -/
def nastranPartElems (st : FeaStructure) (m_FeaElementVec : List FeaElement)
    (acc : List Rec × Int) (i : Nat) : List Rec × Int :=
  let acc1 : List Rec × Int :=
    (acc.1 ++ [Rec.text "\n", Rec.text ("$" ++ st.GetFeaPartName i ++ "\n")], acc.2)
  let property_id := st.GetFeaPropertyIndex i
  let cap_property_id := st.GetCapFeaPropertyIndex i
  elemIdLoop m_FeaElementVec (fun e => decide (toUnsigned e.m_FeaPartIndex = i))
    (fun e => if e.m_ElementType ≠ ElementType.FEA_BEAM then [property_id] else [cap_property_id])
    acc1

/-- Grid-point block of part `i` in `WriteNASTRAN` (source lines 762-774). -/
def nastranPartNodes (st : FeaStructure) (m_FeaNodeVec : List FeaNode) (m_PntShift : List Int)
    (i : Nat) : List Rec :=
  [Rec.text "\n", Rec.text ("$" ++ st.GetFeaPartName i ++ " Gridpoints\n")]
    ++ nodeLoop m_FeaNodeVec m_PntShift (fun n => n.HasOnlyIndex (toSigned i))

/-- Intersection block of `WriteNASTRAN` (source lines 779-791). -/
def nastranIntersections (m_FeaNodeVec : List FeaNode) (m_PntShift : List Int) : List Rec :=
  [Rec.text "\n", Rec.text "$Intersections\n"]
    ++ nodeLoop m_FeaNodeVec m_PntShift (fun n => decide (n.m_Tags.length > 1))

/-- Remaining-nodes block of `WriteNASTRAN` (source lines 926-935). -/
def nastranRemaining (m_FeaNodeVec : List FeaNode) (m_PntShift : List Int) : List Rec :=
  [Rec.text "\n", Rec.text "$Remainingnodes\n"]
    ++ nodeLoop m_FeaNodeVec m_PntShift (fun n => decide (n.m_Tags.length = 0))

/-- Property and material blocks and the last line of `WriteNASTRAN`
(source lines 937-959). -/
def nastranTail (S : StructureMgr) : List Rec :=
  [Rec.text "\n", Rec.text "$Properties\n"]
    ++ (List.range S.m_NumFeaProperties).map (fun i => Rec.propertyNASTRAN i ((i : Int) + 1))
    ++ [Rec.text "\n", Rec.text "$Materials\n"]
    ++ (List.range S.m_NumFeaMaterials).map (fun i => Rec.material i ((i : Int) + 1))
    ++ [Rec.text "END DATA\n"]

/-- `WriteNASTRAN` (source lines 725-963): the output calls made, or nothing
when the file does not open (`fp` tells whether `fopen` succeeds). -/
def WriteNASTRAN (S : StructureMgr) (fp : Bool) (m : FeaMeshMgr) : Option (List Rec) :=
  if fp then
    let elem_id : Int := 0
    let r1 := (List.range (toUnsigned m.m_NumFeaParts)).foldl
      (nastranPartElems m.m_FeaMeshStruct m.m_FeaElementVec) ([Rec.text "BEGIN BULK\n"], elem_id)
    let r2 := (List.range (toUnsigned m.m_NumFeaParts)).foldl
      (fun acc i => acc ++ nastranPartNodes m.m_FeaMeshStruct m.m_FeaNodeVec m.m_PntShift i) r1.1
    let r3 := r2 ++ nastranIntersections m.m_FeaNodeVec m.m_PntShift
    let r4 := r3 ++ nastranRemaining m.m_FeaNodeVec m.m_PntShift
    some (r4 ++ nastranTail S)
  else none

/-- Normal-vector loop of `WriteCalculix` (source lines 1033-1041): the normal
of every beam of part `i`, in element order. -/
def normalLoop (m_FeaElementVec : List FeaElement) (i : Nat) : List Rec :=
  (List.range m_FeaElementVec.length).foldl
    (fun acc j =>
      if ((m_FeaElementVec.get? j).map (fun e =>
          decide (toUnsigned e.m_FeaPartIndex = i)
            && decide (e.m_ElementType = ElementType.FEA_BEAM))).getD false then
        acc ++ [Rec.normal j]
      else acc)
    []

/-- Block of part `i` in `WriteCalculix` (source lines 976-1044).  The source
reads the cap flag through `GetFeaPart( i )` without a null test; the
embedding reads `false` where there is no part. -/
def calculixPart (st : FeaStructure) (m_FeaNodeVec : List FeaNode) (m_PntShift : List Int)
    (m_FeaElementVec : List FeaElement) (acc : List Rec × Int) (i : Nat) : List Rec × Int :=
  let name := st.GetFeaPartName i
  let r1 := acc.1 ++ [Rec.text ("**" ++ name ++ "\n"), Rec.text ("*NODE, NSET=N" ++ name ++ "\n")]
  let property_id := st.GetFeaPropertyIndex i
  let cap_property_id := st.GetCapFeaPropertyIndex i
  let r2 := r1 ++ nodeLoop m_FeaNodeVec m_PntShift (fun n => n.HasOnlyIndex (toSigned i))
  let r3 := r2 ++ [Rec.text "\n", Rec.text ("*ELEMENT, TYPE=S6, ELSET=E" ++ name ++ "\n")]
  let a4 := elemIdLoop m_FeaElementVec
    (fun e => decide (toUnsigned e.m_FeaPartIndex = i)
      && decide (e.m_ElementType = ElementType.FEA_TRI_6))
    (fun _ => []) (r3, acc.2)
  let r5 := a4.1 ++ [Rec.text "\n", Rec.propertyCalculix property_id ("E" ++ name)]
  if FeaPartCap st (toSigned i) then
    let r6 := r5 ++ [Rec.text "\n", Rec.text ("*ELEMENT, TYPE=B31, ELSET=E" ++ name ++ "_CAP\n")]
    let a7 := elemIdLoop m_FeaElementVec
      (fun e => decide (toUnsigned e.m_FeaPartIndex = i)
        && decide (e.m_ElementType = ElementType.FEA_BEAM))
      (fun _ => []) (r6, a4.2)
    let r8 := a7.1 ++ [Rec.text "\n", Rec.propertyCalculix cap_property_id ("E" ++ name ++ "_CAP"),
      Rec.text "\n", Rec.text "*NORMAL\n"]
    let r9 := r8 ++ normalLoop m_FeaElementVec i ++ [Rec.text "\n"]
    (r9, a7.2)
  else (r5, a4.2)

/-- Intersection and material blocks of `WriteCalculix`
(source lines 1049-1111). -/
def calculixTail (S : StructureMgr) (m_FeaNodeVec : List FeaNode) (m_PntShift : List Int) :
    List Rec :=
  [Rec.text "**Intersections\n", Rec.text "*NODE, NSET=Nintersections\n"]
    ++ nodeLoop m_FeaNodeVec m_PntShift (fun n => decide (n.m_Tags.length > 1))
    ++ [Rec.text "\n", Rec.text "**Materials\n"]
    ++ (List.range S.m_NumFeaMaterials).flatMap
        (fun i => [Rec.material i (i : Int), Rec.text "\n"])

/-- `WriteCalculix` (source lines 965-1115). -/
def WriteCalculix (S : StructureMgr) (fp : Bool) (m : FeaMeshMgr) : Option (List Rec) :=
  if fp then
    let elem_id : Int := 0
    let r1 := (List.range (toUnsigned m.m_NumFeaParts)).foldl
      (calculixPart m.m_FeaMeshStruct m.m_FeaNodeVec m.m_PntShift m.m_FeaElementVec)
      ([], elem_id)
    some (r1.1 ++ calculixTail S m.m_FeaNodeVec m.m_PntShift)
  else none

/-- The double quote character as a string. -/
def dquote : String := String.singleton (Char.ofNat 34)

/-- Element loop of part `j` in `WriteGmsh` (source lines 1173-1180): the
element is written with `ele_cnt` and the part number `j + 1`, then `ele_cnt`
is incremented. -/
def gmshPartElems (m_FeaElementVec : List FeaElement) (acc : List Rec × Int) (j : Nat) :
    List Rec × Int :=
  (List.range m_FeaElementVec.length).foldl
    (fun acc i =>
      match m_FeaElementVec.get? i with
      | some e =>
        if toUnsigned e.m_FeaPartIndex = j then
          (acc.1 ++ [Rec.element i acc.2 [toSigned (j + 1)]], acc.2 + 1)
        else acc
      | none => acc)
    acc

/-- Header, physical names and node block of `WriteGmsh`
(source lines 1126-1167), up to the element count. -/
def gmshHead (m : FeaMeshMgr) : List Rec :=
  let num_fea_parts := m.m_FeaMeshStruct.NumFeaParts
  let node_count : Int := (List.range m.m_FeaNodeVec.length).foldl
    (fun cnt j => if m.m_PntShift.getD j 0 ≥ 0 then cnt + 1 else cnt) 0
  [Rec.text "$MeshFormat\n", Rec.text ("2.2 0 " ++ toString 8 ++ "\n"),
    Rec.text "$EndMeshFormat\n", Rec.text "$PhysicalNames\n",
    Rec.text (toString num_fea_parts ++ "\n")]
    ++ (List.range (toUnsigned num_fea_parts)).map
        (fun i => Rec.text ("9 " ++ toString (toSigned (i + 1)) ++ " " ++ dquote
          ++ m.m_FeaMeshStruct.GetFeaPartName i ++ dquote ++ "\n"))
    ++ [Rec.text "$EndPhysicalNames\n", Rec.text "$Nodes\n",
        Rec.text (toString node_count ++ "\n")]
    ++ nodeLoop m.m_FeaNodeVec m.m_PntShift (fun _ => true)
    ++ [Rec.text "$EndNodes\n", Rec.text "$Elements\n",
        Rec.text (toString (m.m_FeaElementVec.length : Int) ++ "\n")]

/-- `WriteGmsh` (source lines 1117-1188). -/
def WriteGmsh (fp : Bool) (m : FeaMeshMgr) : Option (List Rec) :=
  if fp then
    let num_fea_parts := m.m_FeaMeshStruct.NumFeaParts
    let ele_cnt : Int := 1
    let r := (List.range (toUnsigned num_fea_parts)).foldl (gmshPartElems m.m_FeaElementVec)
      (gmshHead m, ele_cnt)
    some (r.1 ++ [Rec.text "$EndElements\n"])
  else none

/-! ## Remesh -/

/-- Operations of the surface mesh used by `Remesh`, whose code is not part of
this file.  `NumTris` is the size of the triangle list; `RemoveRevTris`
yields the surface and the number of reversed triangles removed. -/
structure MeshOps where
  Remesh : Surf → Surf
  RemoveRevTris : Surf → Surf × Int
  NumTris : Surf → Nat
  LoadSimpTris : Surf → Surf
  Clear : Surf → Surf
  CondenseSimpTris : Surf → Surf

/-- State threaded through `Remesh`: the working surface list, the registry
`SubSurfaceMgr.m_TagCombos`, the output text and the triangle total. -/
structure RemeshState where
  m_SurfVec : List Surf
  m_TagCombos : List (List Int)
  m_OutStream : List String
  total_num_tris : Int

/-- One pass of the iteration loop (source lines 569-577) on the surface
`i`: the surface, `num_tris`, `num_rev_removed` and the output text. -/
def remeshIter (M : MeshOps) (i nsurf : Nat) (acc : Surf × Int × Int × List String)
    (iter : Nat) : Surf × Int × Int × List String :=
  let num_tris0 : Int := 0
  let s1 := M.Remesh acc.1
  let r := M.RemoveRevTris s1
  let num_rev_removed := r.2
  let num_tris := num_tris0 + (M.NumTris r.1 : Int)
  let str := "Surf " ++ toString (i + 1) ++ "/" ++ toString nsurf ++ " Iter "
    ++ toString (iter + 1) ++ "/10 Num Tris = " ++ toString num_tris ++ "\n"
  (r.1, num_tris, num_rev_removed, acc.2.2.2 ++ [str])

/-- Parametric centroid of a triangle as the tagging loop passes it to
`Subtag` (source lines 602-607). -/
def triCenter (surf : Surf) (tri : SimpTri) : vec3d :=
  let pnts := surf.m_SimpUWPntVec
  let center := ((((pnts.getD tri.ind0 ⟨0, 0⟩).add (pnts.getD tri.ind1 ⟨0, 0⟩)).add
    (pnts.getD tri.ind2 ⟨0, 0⟩)).mul 1).div 3
  let cent2d := center
  ⟨cent2d.u, cent2d.w, 0⟩

/-- Body of the triangle loop of the tagging block (source lines 600-611):
the base tag of the surface is pushed on the tags of the triangle, then the
tag of every sub-surface whose region contains the centroid, provided the
surface has a non-negative component id. -/
def subTagTri (surf : Surf) (s_surfs : List SubSurface) (tri : SimpTri) : SimpTri :=
  let tags1 := tri.m_Tags ++ [surf.m_BaseTag]
  let tags2 := s_surfs.foldl
    (fun tags s =>
      if s.m_Subtag (triCenter surf tri) && decide (surf.m_CompID ≥ 0) then tags ++ [s.m_Tag]
      else tags)
    tags1
  { tri with m_Tags := tags2 }

/-- Insertion into the registry `m_TagCombos`, a set of tag lists. -/
def insertCombo (combos : List (List Int)) (tags : List Int) : List (List Int) :=
  if tags ∈ combos then combos else combos ++ [tags]

/-- Tagging block of `Remesh` for one surface (source lines 594-613): every
triangle of the simplified list is tagged in place and its tag list is
inserted into the registry. -/
def subTagSurf (surf : Surf) (s_surfs : List SubSurface) (combos : List (List Int)) :
    Surf × List (List Int) :=
  let r := surf.m_SimpTriVec.foldl
    (fun (acc : List SimpTri × List (List Int)) tri =>
      let tri2 := subTagTri surf s_surfs tri
      (acc.1 ++ [tri2], insertCombo acc.2 tri2.m_Tags))
    ([], combos)
  ({ surf with m_SimpTriVec := r.1 }, r.2)

/-- Body of the surface loop of `Remesh` (source lines 564-616) for the
surface at position `i`; `intersect` is `GetIntersectSubSurfs()`. -/
def remeshSurf (M : MeshOps) (intersect : Bool) (st : FeaStructure) (nsurf : Nat)
    (acc : RemeshState) (i : Nat) : RemeshState :=
  match acc.m_SurfVec.get? i with
  | none => acc
  | some surf =>
    let it := (List.range 10).foldl (remeshIter M i nsurf) (surf, 0, 0, acc.m_OutStream)
    let total := acc.total_num_tris + it.2.1
    let out :=
      if it.2.2.1 > 0 then
        it.2.2.2 ++ [toString it.2.2.1 ++ " Reversed tris collapsed in final iteration.\n"]
      else it.2.2.2
    let s2 := M.Clear (M.LoadSimpTris it.1)
    let tagged := if intersect then subTagSurf s2 st.m_FeaSubSurfVec acc.m_TagCombos
      else (s2, acc.m_TagCombos)
    let s3 := M.CondenseSimpTris tagged.1
    { m_SurfVec := acc.m_SurfVec.set i s3
      m_TagCombos := tagged.2
      m_OutStream := out
      total_num_tris := total }

/-- `Remesh` (source lines 557-621). -/
def Remesh (M : MeshOps) (intersect : Bool) (st : FeaStructure) (m_SurfVec : List Surf)
    (m_TagCombos : List (List Int)) (m_OutStream : List String) : RemeshState :=
  let total_num_tris : Int := 0
  let nsurf := m_SurfVec.length
  let r := (List.range nsurf).foldl (remeshSurf M intersect st nsurf)
    { m_SurfVec := m_SurfVec, m_TagCombos := m_TagCombos, m_OutStream := m_OutStream
      total_num_tris := total_num_tris }
  { r with m_OutStream := r.m_OutStream ++ ["Total Num Tris = " ++ toString r.total_num_tris ++ "\n"] }

/-! ## SubTagTris -/

/-- Lookup in a `std::map` held as a list of key-value pairs. -/
def mapFind {κ ν : Type} [DecidableEq κ] : List (κ × ν) → κ → Option ν
  | [], _ => none
  | (a, b) :: t, k => if a = k then some b else mapFind t k

/-- Assignment `m[k] = v` on a `std::map` held as a list of key-value pairs:
the value of an existing key is replaced, a new key is added. -/
def mapSet {κ ν : Type} [DecidableEq κ] : List (κ × ν) → κ → ν → List (κ × ν)
  | [], k, v => [(k, v)]
  | (a, b) :: t, k, v => if a = k then (a, v) :: t else (a, b) :: mapSet t k v

/-- Local state of the surface loop of `SubTagTris`, with the component-name
list of the sub-surface manager and the surfaces already given their base
tag. -/
structure SubTagLoop where
  tag_map : List (String × Int)
  geom_comp_map : List (String × List Int)
  comp_num_map : List (Int × Nat)
  tag_number : Int
  m_CompNames : List String
  m_SurfVec : List Surf

/-- The string `id` under which `SubTagTris` files a surface
(source line 637): the geometry id followed by the decimal text of the
unmerged component id. -/
def surfId (surf : Surf) : String := surf.m_GeomID ++ toString surf.m_UnmergedCompID

/-- One pass of the surface loop of `SubTagTris` (source lines 633-663).
`FindGeomName` gives the name of the geometry `m_Vehicle->FindGeom` finds, if
any; where the source reads the name through a null pointer the embedding
reads the empty name. -/
def subTagSurfStep (FindGeomName : String → Option String) (st : SubTagLoop) (surf : Surf) :
    SubTagLoop :=
  let fea_part_cnt : Int := 1
  let geom_id := surf.m_GeomID
  let id := geom_id ++ toString surf.m_UnmergedCompID
  let comps0 := (mapFind st.geom_comp_map geom_id).getD []
  let comps := if surf.m_UnmergedCompID ∈ comps0 then comps0
    else comps0 ++ [surf.m_UnmergedCompID]
  let geom_comp_map := mapSet st.geom_comp_map geom_id comps
  let comp_num_map := mapSet st.comp_num_map surf.m_UnmergedCompID comps.length
  let st1 : SubTagLoop :=
    match mapFind st.tag_map id with
    | none =>
      let tag_number := st.tag_number + 1
      let name :=
        if surf.m_CompID < 0 then
          (FindGeomName geom_id).getD "" ++ "_FeaPart_" ++ toString fea_part_cnt
        else
          match FindGeomName geom_id with
          | some n => n ++ toString comps.length
          | none => ""
      { st with tag_map := mapSet st.tag_map id tag_number
                geom_comp_map := geom_comp_map
                comp_num_map := comp_num_map
                tag_number := tag_number
                m_CompNames := st.m_CompNames ++ [name] }
    | some _ => { st with geom_comp_map := geom_comp_map, comp_num_map := comp_num_map }
  { st1 with m_SurfVec := st1.m_SurfVec ++ [{ surf with m_BaseTag := (mapFind st1.tag_map id).getD 0 }] }

/-- Result of `SubTagTris`: the surfaces with their base tags, the
sub-surfaces with their tags, the component-name list, the tag names and the
last base tag. -/
structure SubTagResult where
  m_SurfVec : List Surf
  ss_vec : List SubSurface
  m_CompNames : List String
  m_TagNames : List (Int × String)
  tag_number : Int

/-- `SubTagTris` (source lines 623-675).  `m_CompNames` is the component-name
list as `ClearTagMaps` leaves it.  The sub-surface loop gives sub-surface `i`,
`i < m_NumFeaSubSurfs`, the tag `tag_number + i + 1` and records its name. -/
def SubTagTris (FindGeomName : String → Option String) (m_SurfVec : List Surf)
    (ss_vec : List SubSurface) (m_NumFeaSubSurfs : Int) (m_CompNames : List String) :
    SubTagResult :=
  let st := m_SurfVec.foldl (subTagSurfStep FindGeomName)
    { tag_map := [], geom_comp_map := [], comp_num_map := [], tag_number := 0
      m_CompNames := m_CompNames, m_SurfVec := [] }
  let tagged := ss_vec.mapIdx (fun i s =>
    if (i : Int) < m_NumFeaSubSurfs then { s with m_Tag := st.tag_number + (i : Int) + 1 } else s)
  { m_SurfVec := st.m_SurfVec
    ss_vec := tagged
    m_CompNames := st.m_CompNames
    m_TagNames := (List.range (min m_NumFeaSubSurfs.toNat ss_vec.length)).map (fun (i : Nat) =>
      (st.tag_number + (i : Int) + 1, ((ss_vec.get? i).map (fun s => s.m_Name)).getD ""))
    tag_number := st.tag_number }

/-! ## Predicates and inputs used by the statements -/

/-- Case (a) of the beam rule, as the specification words it: exactly one
adjoining surface has a negative component id, the part owning that surface
has its intersection-cap flag set, and the other surface has a non-negative
component id. -/
def caseA (st : FeaStructure) (c : ISegChain) : Prop :=
  (c.m_SurfA.m_CompID < 0 ∧ 0 ≤ c.m_SurfB.m_CompID ∧ FeaPartCap st c.m_SurfA.m_FeaPartIndex = true) ∨
  (c.m_SurfB.m_CompID < 0 ∧ 0 ≤ c.m_SurfA.m_CompID ∧ FeaPartCap st c.m_SurfB.m_FeaPartIndex = true)

/-- Case (b) of the beam rule, as the specification words it: both adjoining
surfaces have the same non-negative component id and the chain carries a
non-negative sub-surface-intersection index. -/
def caseB (c : ISegChain) : Prop :=
  c.m_SurfA.m_CompID = c.m_SurfB.m_CompID ∧ 0 ≤ c.m_SurfA.m_CompID ∧ 0 ≤ c.m_SSIntersectIndex

/-- Part index a qualifying chain resolves to: the index of the structural-part
surface at a part/skin junction, the index of the surface at a sub-surface
boundary. -/
def resolvedPartIndex (c : ISegChain) : Int :=
  if c.m_SurfA.m_CompID < 0 then c.m_SurfA.m_FeaPartIndex
  else if c.m_SurfB.m_CompID < 0 then c.m_SurfB.m_FeaPartIndex
  else c.m_SurfA.m_FeaPartIndex

/-- Kernel with constant answers, for concrete evaluations. -/
def flatKernel : Kernel :=
  { CompTanU := fun _ _ => ⟨1, 0, 0⟩
    CompNorm := fun _ _ => ⟨0, 0, 1⟩
    signed_angle := fun _ _ _ => 0
    GetTag := fun _ => 0 }

/-- Structure with a skin whose intersection-cap flag is set and a rib whose
flag is not set. -/
def skinCapStruct : FeaStructure :=
  { m_FeaPartVec :=
      [{ m_Name := "Skin", m_IsSkin := true, m_IntersectionCapFlag := true, m_Surfs := [0] },
       { m_Name := "Rib", m_IntersectionCapFlag := false, m_Surfs := [1] }] }

/-- Junction chain of two points between the skin surface (component id 0,
part 0) and the rib surface (component id -9999, part 1). -/
def skinRibChain : ISegChain :=
  { m_BorderFlag := false
    m_SurfA := { m_Geo := 0, m_CompID := 0, m_FeaPartIndex := 0 }
    m_SurfB := { m_Geo := 1, m_CompID := -9999, m_FeaPartIndex := 1 }
    m_SSIntersectIndex := -1
    m_TessVec := [{ m_Pnt := ⟨0, 0, 0⟩ }, { m_Pnt := ⟨1, 0, 0⟩ }] }

/-- Structure with a skin and a rib whose intersection-cap flag is set. -/
def ribCapStruct : FeaStructure :=
  { m_FeaPartVec :=
      [{ m_Name := "Skin", m_IsSkin := true, m_Surfs := [0] },
       { m_Name := "Rib", m_IntersectionCapFlag := true, m_Surfs := [1] }] }

/-- Point index for concrete evaluations: two points are coincident when they
are equal, the canonical point is the first occurrence, the unique points are
numbered from 0 in pool order and a merged point gets the shift -999. -/
def exactPntIndex : PntIndex :=
  { BuildIndMap := fun pnts =>
      ([], (List.range pnts.length).map (fun i =>
              if pnts.indexOf (pnts.getD i vec3d.zero) = i then
                (((List.range i).filter
                    (fun j => decide (pnts.indexOf (pnts.getD j vec3d.zero) = j))).length : Int)
              else -999),
        (((List.range pnts.length).filter
            (fun j => decide (pnts.indexOf (pnts.getD j vec3d.zero) = j))).length : Int))
    FindPntIndex := fun p pnts _ =>
      if pnts.indexOf p < pnts.length then pnts.indexOf p else 0 }

/-- A triangle of part 0 and a beam of part 1 that share two corner points. -/
def junctionElems : List FeaElement :=
  [{ m_ElementType := ElementType.FEA_TRI_6
     m_Corners := [⟨0, 0, 0⟩, ⟨1, 0, 0⟩, ⟨0, 1, 0⟩]
     m_Vec := ⟨1, 0, 0⟩
     m_FeaPartIndex := 0 },
   { m_ElementType := ElementType.FEA_BEAM
     m_Corners := [⟨0, 0, 0⟩, ⟨1, 0, 0⟩]
     m_Vec := ⟨0, 0, 1⟩
     m_FeaPartIndex := 1 }]

/-- Mass of part `i` as the specification words it: the sum, over the elements
whose part index equals `i`, of `ComputeMass` with the property id of part
`i`. -/
def specPartMass (ComputeMass : FeaElement → Int → ℚ) (st : FeaStructure)
    (m_FeaElementVec : List FeaElement) (i : Nat) : ℚ :=
  ((m_FeaElementVec.filter (fun e => decide (e.m_FeaPartIndex = (i : Int)))).map
    (fun e => ComputeMass e (st.GetFeaPropertyIndex i))).sum

/-- Collaborators for concrete evaluations: the base-class stages leave the
manager unchanged, every element has mass 1 plus its property id, every file
opens and holds no line. -/
def flatStages : Stages :=
  { K := flatKernel
    X := exactPntIndex
    ComputeMass := fun _ property_id => 1 + (property_id : ℚ)
    StructMgr := { m_AllFeaStructs := [ribCapStruct] }
    CleanMergeSurfs := fun l => l
    DeleteAllSources := fun m => m
    BuildGrid := fun m => m
    Intersect := fun m => m
    BuildTargetMap := fun m => m
    InitMesh := fun m => m
    SubTagTris := fun m => m
    Remesh := fun m => m
    BuildSingleTagMap := fun m => m
    CheckWaterTight := fun _ => "Is Water Tight\n"
    UpdateDrawObjData := fun m => m
    WriteNASTRAN := fun _ => some []
    WriteCalculix := fun _ => some []
    WriteSTL := fun _ => some []
    WriteGmsh := fun _ => some []
    MassFileOpens := true
    to_string := fun _ => "" }

/-- Manager holding the two elements of `junctionElems` for the structure
`ribCapStruct`, with a total mass left by an earlier call. -/
def junctionMgr : FeaMeshMgr :=
  { m_TotalMass := 7
    m_NumFeaParts := 2
    m_FeaMeshStruct := ribCapStruct
    m_FeaElementVec := junctionElems }

/-- Manager after an earlier run: elements, surfaces, chains and part counts
are still held; the selection index 5 names no structure of `flatStages`. -/
def staleMgr : FeaMeshMgr :=
  { m_NumFeaParts := 2
    m_NumFeaSubSurfs := 1
    m_FeaMeshStructIndex := 5
    m_FeaMeshStruct := ribCapStruct
    m_FeaElementVec := junctionElems
    m_SurfVec := [{ m_Geo := 0, m_FeaPartIndex := 0 }]
    m_ISegChainList := [skinRibChain]
    m_DrawBrowserNameVec := ["Skin"] }

/-- Surface intake as the specification words it, as pairs of geometry and
part index: the surfaces of the skin (when the structure has a skin), then the
surfaces of every other part in part order, each with the index of its part. -/
def specIntake (st : FeaStructure) : List (Nat × Int) :=
  (match st.GetFeaSkinIndex with
    | some k => ((st.m_FeaPartVec.get? k).map (fun p => p.m_Surfs)).getD [] |>.map
        (fun g => (g, (k : Int)))
    | none => [])
  ++ ((List.range st.m_FeaPartVec.length).filter
        (fun i => decide (st.GetFeaSkinIndex ≠ some i))).flatMap
      (fun i => (((st.m_FeaPartVec.get? i).map (fun p => p.m_Surfs)).getD []).map
        (fun g => (g, (i : Int))))

/-- Structure without a skin: a rib with one surface and a spar with one
surface. -/
def noSkinStruct : FeaStructure :=
  { m_FeaPartVec :=
      [{ m_Name := "Rib", m_Surfs := [1] },
       { m_Name := "Spar", m_Surfs := [2] }] }

/-- Collaborators of `flatStages` with `noSkinStruct` as the only structure. -/
def noSkinStages : Stages :=
  { flatStages with StructMgr := { m_AllFeaStructs := [noSkinStruct] } }

/-- Manager selecting structure 0. -/
def freshMgr : FeaMeshMgr := { m_FeaMeshStructIndex := 0 }

/-- Working surfaces obtained from part `i` of a structure when it is fetched
with component id `compid`, each stamped with the part index `i`. -/
def partSurfs (st : FeaStructure) (i : Nat) (compid : Int) : List Surf :=
  match st.m_FeaPartVec.get? i with
  | some p => p.m_Surfs.map fun g => { m_Geo := g, m_CompID := compid, m_FeaPartIndex := (i : Int) }
  | none => []

/-- A boundary segment lies strictly inside the parametric domain of a
surface: both end points are strictly between the domain bounds. -/
def strictlyInside (surf : Surf) (l_seg : SSLineSeg) : Prop :=
  (surf.m_MinU < l_seg.m_P0.u ∧ l_seg.m_P0.u < surf.m_MaxU) ∧
  (surf.m_MinW < l_seg.m_P0.w ∧ l_seg.m_P0.w < surf.m_MaxW) ∧
  (surf.m_MinU < l_seg.m_P1.u ∧ l_seg.m_P1.u < surf.m_MaxU) ∧
  (surf.m_MinW < l_seg.m_P1.w ∧ l_seg.m_P1.w < surf.m_MaxW)

/-- The chain built from one boundary segment of a polygonal sub-surface:
the sub-segments of the segment, marked with the sub-surface index when the
sub-surface is capped. -/
def segChain (surf : Surf) (cap : Bool) (ss : Nat) (l_seg : SSLineSeg) : ISegChain :=
  { newChain surf with
    m_ISegDeque := subSegs l_seg
    m_SSIntersectIndex := if cap then (ss : Int) else -1 }

/-- Host surface with parametric domain `[0, 4] x [0, 4]`. -/
def hostSurf : Surf := { m_MinU := 0, m_MaxU := 4, m_MinW := 0, m_MaxW := 4 }

/-- Closed triangular boundary `(1,1) - (3,1) - (2,3) - (1,1)` inside the
domain of `hostSurf`. -/
def triangleSegs : List SSLineSeg :=
  [{ m_P0 := ⟨1, 1⟩, m_P1 := ⟨3, 1⟩ },
   { m_P0 := ⟨3, 1⟩, m_P1 := ⟨2, 3⟩ },
   { m_P0 := ⟨2, 3⟩, m_P1 := ⟨1, 1⟩ }]

/-- Boundary segment strictly inside the domain of `hostSurf` whose two end
points are both within the tolerance of the edge `u = 4`. -/
def nearEdgeSeg : SSLineSeg :=
  { m_P0 := ⟨4 - 1 / 10000000, 1⟩, m_P1 := ⟨4 - 1 / 10000000, 2⟩ }

/-- The pool `m_AllPntVec` of `TagFeaNodes`: the corner point of every node
collected from the element list, in collection order. -/
def allPntVec (m_FeaElementVec : List FeaElement) : List vec3d :=
  (m_FeaElementVec.foldl (fun nv e => LoadNodes e nv) []).map (fun n => n.m_Pnt)

/-- The shift table `m_PntShift` that `TagFeaNodes` obtains from `BuildIndMap`. -/
def pntShift (X : PntIndex) (m_FeaElementVec : List FeaElement) : List Int :=
  (X.BuildIndMap (allPntVec m_FeaElementVec)).2.1

/-- The number of unique points `numPnts` that `BuildIndMap` returns. -/
def numPnts (X : PntIndex) (m_FeaElementVec : List FeaElement) : Int :=
  (X.BuildIndMap (allPntVec m_FeaElementVec)).2.2

/-- Skin surface with one simplified triangle whose centroid is `(1, 1)`. -/
def taggedSurf : Surf :=
  { m_CompID := 0, m_BaseTag := 1
    m_SimpUWPntVec := [⟨0, 0⟩, ⟨3, 0⟩, ⟨0, 3⟩]
    m_SimpPntVec := [⟨0, 0, 0⟩, ⟨3, 0, 0⟩, ⟨0, 3, 0⟩]
    m_SimpTriVec := [{ ind0 := 0, ind1 := 1, ind2 := 2 }] }

/-- Positions, in element order, of the elements of type `ty` owned by part
`i`. -/
def partPositions (m_FeaElementVec : List FeaElement) (i : Nat) (ty : ElementType) : List Nat :=
  (List.range m_FeaElementVec.length).filter (fun j =>
    ((m_FeaElementVec.get? j).map (fun e =>
      decide (e.m_FeaPartIndex = (i : Int)) && decide (e.m_ElementType = ty))).getD false)

/-- Skin surface of part 0 with one simplified triangle. -/
def skinTriSurf : Surf := { taggedSurf with m_FeaPartIndex := 0 }

/-- Position of the element that an element record or a normal-vector record
writes. -/
def Rec.elemPos : Rec → Option Nat
  | Rec.element j _ _ => some j
  | Rec.normal j => some j
  | _ => none

/-- Layout of the block of part `i` in the file of `WriteCalculix`, with the
records of its shell element set (`tri`) and of its line element set (`beam`)
left open: the node set, the shell element set and its property block, and,
when the part has the intersection-cap flag, the line element set, its property
block and one normal per beam of the part. -/
def calculixBlock (st : FeaStructure) (m_FeaNodeVec : List FeaNode) (m_PntShift : List Int)
    (m_FeaElementVec : List FeaElement) (tri beam : List Rec) (i : Nat) : List Rec :=
  [Rec.text ("**" ++ st.GetFeaPartName i ++ "\n"),
      Rec.text ("*NODE, NSET=N" ++ st.GetFeaPartName i ++ "\n")]
    ++ nodeLoop m_FeaNodeVec m_PntShift (fun n => n.HasOnlyIndex (i : Int))
    ++ [Rec.text "\n", Rec.text ("*ELEMENT, TYPE=S6, ELSET=E" ++ st.GetFeaPartName i ++ "\n")]
    ++ tri
    ++ [Rec.text "\n",
      Rec.propertyCalculix (st.GetFeaPropertyIndex i) ("E" ++ st.GetFeaPartName i)]
    ++ (if FeaPartCap st (i : Int) then
        [Rec.text "\n",
          Rec.text ("*ELEMENT, TYPE=B31, ELSET=E" ++ st.GetFeaPartName i ++ "_CAP\n")]
        ++ beam
        ++ [Rec.text "\n",
          Rec.propertyCalculix (st.GetCapFeaPropertyIndex i)
            ("E" ++ st.GetFeaPartName i ++ "_CAP"),
          Rec.text "\n", Rec.text "*NORMAL\n"]
        ++ (partPositions m_FeaElementVec i ElementType.FEA_BEAM).map Rec.normal
        ++ [Rec.text "\n"]
      else [])

/-- Positions of the nodes that a node loop of the writers writes: the nodes
with non-negative shift that satisfy `cond`, in node order. -/
def writtenNodes (m_FeaNodeVec : List FeaNode) (m_PntShift : List Int) (cond : FeaNode → Bool) :
    List Nat :=
  (List.range m_FeaNodeVec.length).filter (fun j =>
    decide (m_PntShift.getD j 0 ≥ 0) && ((m_FeaNodeVec.get? j).map cond).getD false)

/-- Collaborators whose three mesh writers are the writers of this file.
`nastran`, `calculix` and `gmsh` tell whether the file of the format opens;
`render` gives the text of an output call for the element list and the node
list it reads. -/
def writerStages (E : Stages) (render : List FeaElement → List FeaNode → Rec → String)
    (nastran calculix gmsh : Bool) : Stages :=
  { E with
    WriteNASTRAN := fun m =>
      (WriteNASTRAN E.StructMgr nastran m).map (List.map (render m.m_FeaElementVec m.m_FeaNodeVec))
    WriteCalculix := fun m =>
      (WriteCalculix E.StructMgr calculix m).map (List.map (render m.m_FeaElementVec m.m_FeaNodeVec))
    WriteGmsh := fun m =>
      (WriteGmsh gmsh m).map (List.map (render m.m_FeaElementVec m.m_FeaNodeVec)) }

/-- The file a writer leaves: one file of the format when the writer wrote,
none when its file did not open. -/
def optFile (format : String) (out : Option (List String)) : List ExportFile :=
  match out with
  | some lines => [ExportFile.text format lines]
  | none => []

/-- The mass report `ComputeWriteMass` leaves, if its file opens. -/
def massFile (E : Stages) (m : FeaMeshMgr) : List ExportFile :=
  match (computeWriteMass E.ComputeMass m.m_FeaMeshStruct m.m_NumFeaParts m.m_FeaElementVec
      E.MassFileOpens).2 with
  | some report => [ExportFile.mass report]
  | none => []

/-- Cross product of two vectors. -/
def vec3d.cross (a b : vec3d) : vec3d :=
  ⟨a.y * b.z - a.z * b.y, a.z * b.x - a.x * b.z, a.x * b.y - a.y * b.x⟩

/-- Dot product of two vectors. -/
def vec3d.dot (a b : vec3d) : ℚ := a.x * b.x + a.y * b.y + a.z * b.z

/-- Kernel for concrete evaluations that keeps the sign of the signed angle:
`signed_angle a b ref` is -1 when `cross( a, b )` points against `ref` and 1
otherwise. -/
def crossKernel : Kernel :=
  { flatKernel with
    signed_angle := fun a b ref => if (a.cross b).dot ref < 0 then -1 else 1 }

/-- Surface of the structural part at a part/skin junction: the adjoining
surface with negative component id. -/
def partSurf (c : ISegChain) : Surf := if c.m_SurfA.m_CompID < 0 then c.m_SurfA else c.m_SurfB

/-- Skin surface at a part/skin junction: the adjoining surface with
non-negative component id, which supplies the normals (`NormSurf`). -/
def skinSurf (c : ISegChain) : Surf := if c.m_SurfA.m_CompID ≥ 0 then c.m_SurfA else c.m_SurfB

/-- Signed angle that decides the traversal direction of a junction chain when
`center` is the centre point (source line 316). -/
def chainTheta (K : Kernel) (center : vec3d) (c : ISegChain) : ℚ :=
  K.signed_angle (((c.m_TessVec.map (fun p => p.m_Pnt)).getD 0 vec3d.zero).sub center)
    (((c.m_TessVec.map (fun p => p.m_Pnt)).getLastD vec3d.zero).sub center) center

/-- Point sequence of a junction chain when `center` is the centre point: the
chain order, reversed when the signed angle is negative
(source lines 316-321). -/
def junctionSeq (K : Kernel) (center : vec3d) (c : ISegChain) : List IPnt :=
  if chainTheta K center c < 0 then c.m_TessVec.reverse else c.m_TessVec

/-- Beams of a junction chain when `center` is the centre point: the beams
joining the consecutive points of `junctionSeq`, each with the normal of the
skin surface at its first point. -/
def junctionBeams (K : Kernel) (center : vec3d) (c : ISegChain) : List FeaElement :=
  defineBeams (resolvedPartIndex c) ((junctionSeq K center c).map (fun p => p.m_Pnt))
    ((junctionSeq K center c).map (chainNorm K (skinSurf c)))
    (c.m_TessVec.map (fun _ => (-1 : Int)))

/-- Junction chain of two points between a skin surface whose bounding box is
centred at `(0, 0, -1)` and the surface of a rib whose bounding box is centred
at `(0, 0, 1)`. -/
def offsetChain : ISegChain :=
  { m_BorderFlag := false
    m_SurfA := { m_Geo := 0, m_CompID := 0, m_FeaPartIndex := 0, m_BBoxCenter := ⟨0, 0, -1⟩ }
    m_SurfB := { m_Geo := 1, m_CompID := -9999, m_FeaPartIndex := 1, m_BBoxCenter := ⟨0, 0, 1⟩ }
    m_SSIntersectIndex := -1
    m_TessVec := [{ m_Pnt := ⟨1, 0, 1⟩ }, { m_Pnt := ⟨0, -1, 1⟩ }] }

/-- Collaborators of `flatStages` whose mass report file does not open. -/
def noMassFileStages : Stages := { flatStages with MassFileOpens := false }

/-- A boundary segment passes the three skip tests of the segment loop
(source lines 477-495) and is subdivided. -/
def retained (surf : Surf) (is_poly : Bool) (l_seg : SSLineSeg) : Bool :=
  !belowMin surf l_seg && !aboveMax surf l_seg && !(onSameEdge surf l_seg && is_poly)

/-- Chain under construction that holds the sub-segments of the boundary
segments `cur`, in order. -/
def curChain (surf : Surf) (cur : List SSLineSeg) : ISegChain :=
  { newChain surf with m_ISegDeque := cur.flatMap subSegs }

/-- Chain appended for a run of boundary segments: the sub-segments of the
segments of the run, in order, marked with the sub-surface index when the
sub-surface is capped. -/
def runChain (surf : Surf) (cap : Bool) (ss : Nat) (run : List SSLineSeg) : ISegChain :=
  { newChain surf with
    m_ISegDeque := run.flatMap subSegs
    m_SSIntersectIndex := if cap then (ss : Int) else -1 }

/-- State of the segment loop in which the chain under construction holds the
segments `cur`. -/
def loopState (surf : Surf) (new_chain : Bool) (cur : List SSLineSeg)
    (m_ISegChainList : List ISegChain) : ChainLoop :=
  { chain := some (curChain surf cur), new_chain := new_chain, m_ISegChainList := m_ISegChainList }

/-- Maximal runs of consecutive elements satisfying `p`, with `cur` the run
under way: an element failing `p` ends the run under way. -/
def runsAux {α : Type} (p : α → Bool) : List α → List α → List (List α)
  | [], cur => if cur.isEmpty then [] else [cur]
  | x :: xs, cur =>
    if p x then runsAux p xs (cur ++ [x])
    else (if cur.isEmpty then [] else [cur]) ++ runsAux p xs []

/-- Maximal runs of consecutive elements of a list satisfying `p`, in order. -/
def maxRuns {α : Type} (p : α → Bool) (l : List α) : List (List α) := runsAux p l []

/-- Runs of boundary segments that end up in one chain each: every retained
segment on its own for a polygonal sub-surface, the maximal runs of consecutive
retained segments for an open one. -/
def chainRuns (surf : Surf) (is_poly : Bool) (segs : List SSLineSeg) : List (List SSLineSeg) :=
  if is_poly then (segs.filter (retained surf true)).map (fun s => [s])
  else maxRuns (retained surf false) segs

/-- Mass of the element list as the specification words it: the sum, over
every element, of its mass under the property of its owning part; an element
whose part index is outside `[0, NumFeaParts)` counts for nothing. -/
def specElementMass (ComputeMass : FeaElement → Int → ℚ) (st : FeaStructure)
    (m_NumFeaParts : Int) (m_FeaElementVec : List FeaElement) : ℚ :=
  (m_FeaElementVec.map (fun e =>
    if 0 ≤ e.m_FeaPartIndex ∧ e.m_FeaPartIndex < m_NumFeaParts then
      ComputeMass e (st.GetFeaPropertyIndex e.m_FeaPartIndex.toNat)
    else 0)).sum

/-- Manager before element assembly for the structure `skinCapStruct` (skin
cap-flagged, rib not): no triangle and the junction chain `skinRibChain`. -/
def skinCapMgr : FeaMeshMgr :=
  { m_NumFeaParts := 2
    m_FeaMeshStruct := skinCapStruct
    m_ISegChainList := [skinRibChain] }

/-- Key of a surface as the specification words it: the geometry id and the
unmerged component id. -/
structure SurfKey where
  m_GeomID : String
  m_UnmergedCompID : Int
deriving DecidableEq

/-- Key of a surface. -/
def surfKey (surf : Surf) : SurfKey :=
  { m_GeomID := surf.m_GeomID, m_UnmergedCompID := surf.m_UnmergedCompID }

/-- The string under which a key is filed: the geometry id followed by the
decimal text of the component id. -/
def keyId (k : SurfKey) : String := k.m_GeomID ++ toString k.m_UnmergedCompID

/-- The distinct values of a list in order of first appearance, continuing
from the values `acc` already seen. -/
def firstSeenAux {α : Type} [DecidableEq α] (acc : List α) (l : List α) : List α :=
  l.foldl (fun acc x => if x ∈ acc then acc else acc ++ [x]) acc

/-- The distinct values of a list in order of first appearance. -/
def firstSeen {α : Type} [DecidableEq α] (l : List α) : List α := firstSeenAux [] l

/-- Three surfaces of one geometry: components 0, 1 and again 0. -/
def threeSurfs : List Surf :=
  [{ m_GeomID := "WING", m_UnmergedCompID := 0 },
   { m_GeomID := "WING", m_UnmergedCompID := 1 },
   { m_GeomID := "WING", m_UnmergedCompID := 0 }]

/-! ## Labels (geom_core/Labels.cpp) -/

/-- Label held by the container: its id and its name. -/
structure Label where
  m_ID : String
  m_Name : String := ""
deriving DecidableEq

/-- `Labels::CreateAndAddRuler` (source lines 121-129): a new ruler, whose id
`ID` is drawn by the constructor, is pushed on the list and named; its id is
returned. -/
def Labels.CreateAndAddRuler (m_Labels : List Label) (ID : String) (name : String) :
    List Label × String :=
  (m_Labels ++ [{ m_ID := ID, m_Name := name }], ID)

/-- `Labels::Get` (source lines 131-141): the first label whose id is `ID`,
`NULL` when there is none. -/
def Labels.Get : List Label → String → Option Label
  | [], _ => none
  | l :: ls, ID => if l.m_ID = ID then some l else Labels.Get ls ID

/-- `Labels::Remove` (source lines 148-160): the first label whose id is `ID`
is erased and the loop returns. -/
def Labels.Remove : List Label → String → List Label
  | [], _ => []
  | l :: ls, ID => if l.m_ID = ID then ls else l :: Labels.Remove ls ID

/-- Three labels with pairwise distinct ids. -/
def threeLabels : List Label :=
  [{ m_ID := "A", m_Name := "a" }, { m_ID := "B", m_Name := "b" }, { m_ID := "C", m_Name := "c" }]

/-- Two surfaces with different keys, ("A", 12) and ("A1", 2), whose id
strings are both "A12". -/
def collidingSurfs : List Surf :=
  [{ m_GeomID := "A", m_UnmergedCompID := 12 },
   { m_GeomID := "A1", m_UnmergedCompID := 2 }]

/-- Position and element id of an element record. -/
def Rec.elemPosId : Rec → Option (Nat × Int)
  | Rec.element j elem_id _ => some (j, elem_id)
  | _ => none

/-- Positions, in element order, of the elements selected by `sel`. -/
def selPositions (m_FeaElementVec : List FeaElement) (sel : FeaElement → Bool) : List Nat :=
  (List.range m_FeaElementVec.length).filter (fun j =>
    ((m_FeaElementVec.get? j).map sel).getD false)

/-- Positions, in element order, of the elements owned by part `i`, of
whatever type. -/
def ownedPositions (m_FeaElementVec : List FeaElement) (i : Nat) : List Nat :=
  (List.range m_FeaElementVec.length).filter (fun j =>
    ((m_FeaElementVec.get? j).map (fun e => decide (e.m_FeaPartIndex = (i : Int)))).getD false)

/-- A list of positions paired with the consecutive numbers `c`, `c + 1`,
and so on, in order. -/
def numberFrom (c : Int) : List Nat → List (Nat × Int)
  | [] => []
  | j :: t => (j, c) :: numberFrom (c + 1) t

/-- A triangle of part 1, a triangle of part 0 and a beam of part 1, in that
order. -/
def mixedElems : List FeaElement :=
  [{ m_ElementType := ElementType.FEA_TRI_6
     m_Corners := [⟨0, 0, 1⟩, ⟨1, 0, 1⟩, ⟨0, 1, 1⟩]
     m_Vec := ⟨1, 0, 0⟩
     m_FeaPartIndex := 1 },
   { m_ElementType := ElementType.FEA_TRI_6
     m_Corners := [⟨0, 0, 0⟩, ⟨1, 0, 0⟩, ⟨0, 1, 0⟩]
     m_Vec := ⟨1, 0, 0⟩
     m_FeaPartIndex := 0 },
   { m_ElementType := ElementType.FEA_BEAM
     m_Corners := [⟨0, 0, 0⟩, ⟨1, 0, 0⟩]
     m_Vec := ⟨0, 0, 1⟩
     m_FeaPartIndex := 1 }]

/-- Manager holding the three elements of `mixedElems` for the structure
`ribCapStruct`. -/
def mixedMgr : FeaMeshMgr :=
  { m_NumFeaParts := 2
    m_FeaMeshStruct := ribCapStruct
    m_FeaElementVec := mixedElems }

/-- The numbers `1, 2, ..., M`, in order. -/
def idsFromOne (M : Nat) : List Int := (List.range M).map (fun (k : Nat) => (k : Int) + 1)

/-- Write order of the elements in `WriteNASTRAN`, as positions of the element
list: part by part in increasing part order, the elements owned by the part in
element order. -/
def nastranOrder (m : FeaMeshMgr) : List Nat :=
  (List.range m.m_NumFeaParts.toNat).flatMap (ownedPositions m.m_FeaElementVec)

/-- Write order of the elements in `WriteCalculix`: part by part in increasing
part order, the triangles owned by the part in element order and then, when
the part has its intersection-cap flag set, the beams owned by the part in
element order. -/
def calculixOrder (m : FeaMeshMgr) : List Nat :=
  (List.range m.m_NumFeaParts.toNat).flatMap (fun (i : Nat) =>
    partPositions m.m_FeaElementVec i ElementType.FEA_TRI_6
      ++ if FeaPartCap m.m_FeaMeshStruct (i : Int) then
          partPositions m.m_FeaElementVec i ElementType.FEA_BEAM
        else [])

/-- Write order of the elements in `WriteGmsh`: part by part in increasing
part order over the parts of the structure, the elements owned by the part in
element order. -/
def gmshOrder (m : FeaMeshMgr) : List Nat :=
  (List.range m.m_FeaMeshStruct.m_FeaPartVec.length).flatMap
    (ownedPositions m.m_FeaElementVec)

/-- Invariant of a part loop: the element records written so far are those of
the positions `L`, in order, numbered from 1, and the counter stands at
`c0 + L.length`. -/
def numberedSoFar (c0 : Int) (acc : List Rec × Int) (L : List Nat) : Prop :=
  acc.1.filterMap Rec.elemPosId = numberFrom 1 L ∧ acc.2 = c0 + (L.length : Int)

/-- A parametric point lies in the closed parametric rectangle of a surface. -/
def inRect (surf : Surf) (p : vec2d) : Prop :=
  surf.m_MinU ≤ p.u ∧ p.u ≤ surf.m_MaxU ∧ surf.m_MinW ≤ p.w ∧ p.w ≤ surf.m_MaxW

/-- Both end points of a segment are near the same edge of the parametric
domain of a surface: for both, the `double` difference to the edge is below
the `double` `1e-6` in absolute value. -/
def nearSameEdge (surf : Surf) (l_seg : SSLineSeg) : Prop :=
  (|roundDouble (l_seg.m_P0.u - surf.m_MaxU)| < tol
    ∧ |roundDouble (l_seg.m_P1.u - surf.m_MaxU)| < tol) ∨
  (|roundDouble (l_seg.m_P0.w - surf.m_MaxW)| < tol
    ∧ |roundDouble (l_seg.m_P1.w - surf.m_MaxW)| < tol) ∨
  (|roundDouble (l_seg.m_P0.u - surf.m_MinU)| < tol
    ∧ |roundDouble (l_seg.m_P1.u - surf.m_MinU)| < tol) ∨
  (|roundDouble (l_seg.m_P0.w - surf.m_MinW)| < tol
    ∧ |roundDouble (l_seg.m_P1.w - surf.m_MinW)| < tol)

/-- Point `k` of the 101-point sequence the specification gives a boundary
segment from `p0` to `p1`: `p0` itself, `p1` itself, and
`p0 + k * (p1 - p0) / 100` in between. -/
def specPnt (l_seg : SSLineSeg) (k : Nat) : vec2d :=
  if k = 0 then l_seg.m_P0
  else if k = 100 then l_seg.m_P1
  else ⟨l_seg.m_P0.u + (k : ℚ) * (l_seg.m_P1.u - l_seg.m_P0.u) / 100,
        l_seg.m_P0.w + (k : ℚ) * (l_seg.m_P1.w - l_seg.m_P0.w) / 100⟩

/-- The `double` result of `a + d * k` with `d = (b - a) / 100`, each of the
four operations rounded. -/
def dblStep (a b : ℚ) (k : Nat) : ℚ :=
  roundDouble (a + roundDouble (roundDouble (roundDouble (b - a) / 100) * (k : ℚ)))

/-- Point `k` of the 101-point sequence of a boundary segment from `p0` to
`p1` in `double` arithmetic: `p0` itself, `p1` itself, and in between the
`double` result of `p0 + d * k` with `d = (p1 - p0) / 100`, coordinate by
coordinate. -/
def dblPnt (l_seg : SSLineSeg) (k : Nat) : vec2d :=
  if k = 0 then l_seg.m_P0
  else if k = 100 then l_seg.m_P1
  else ⟨dblStep l_seg.m_P0.u l_seg.m_P1.u k, dblStep l_seg.m_P0.w l_seg.m_P1.w k⟩

/-- The first boundary segment of `triangleSegs`, from `(1,1)` to `(3,1)`. -/
def baseSeg : SSLineSeg := { m_P0 := ⟨1, 1⟩, m_P1 := ⟨3, 1⟩ }

/-- Boundary segment in the domain of `hostSurf` whose two end points are at
the distance `tol`, the `double` `1e-6`, from the edge `u = 0`. -/
def tolSeg : SSLineSeg := { m_P0 := ⟨tol, 1⟩, m_P1 := ⟨tol, 2⟩ }

/-- Structure with two polygonal sub-surfaces whose boundary on every surface
is `triangleSegs`: sub-surface 0 without the intersection-cap flag,
sub-surface 1 with it. -/
def twoTriangleStruct : FeaStructure :=
  { m_FeaSubSurfVec :=
      [{ m_Name := "Open", m_PolyFlag := true, m_IntersectionCapFlag := false
         m_SplitSegs := fun _ => triangleSegs },
       { m_Name := "Capped", m_PolyFlag := true, m_IntersectionCapFlag := true
         m_SplitSegs := fun _ => triangleSegs }] }

/-! ## Shared lemmas -/

theorem roundEven_eq (y : ℚ) (n : Int) (h : |y - (n : ℚ)| < 1 / 2) : roundEven y = n := by
  rw [abs_lt] at h
  obtain ⟨h1, h2⟩ := h
  unfold roundEven
  simp only []
  by_cases hy : (n : ℚ) ≤ y
  · have hf : ⌊y⌋ = n := Int.floor_eq_iff.2 ⟨hy, by linarith⟩
    rw [hf, if_pos (by linarith)]
  · have hf : ⌊y⌋ = n - 1 := Int.floor_eq_iff.2 ⟨by push_cast; linarith, by push_cast; linarith⟩
    rw [hf, if_neg (by push_cast; linarith), if_pos (by push_cast; linarith)]
    ring

theorem ulpExp_eq (x : ℚ) (e : Int) (h1 : (2 : ℚ) ^ e ≤ |x|) (h2 : |x| < (2 : ℚ) ^ (e + 1))
    (he : -1022 ≤ e) : ulpExp x = e - 52 := by
  have hpos : 0 < |x| := lt_of_lt_of_le (zpow_pos (by norm_num) e) h1
  have hl : Int.log 2 |x| = e := by
    apply le_antisymm
    · have := (Int.lt_zpow_iff_log_lt (b := 2) (by norm_num) hpos).1 (by exact_mod_cast h2)
      omega
    · exact (Int.zpow_le_iff_le_log (b := 2) (by norm_num) hpos).1 (by exact_mod_cast h1)
  unfold ulpExp
  rw [hl]
  omega

/-- Value of the rounding to `double` of a number in the normal range, from its
binary exponent `e` and the integer `n` nearest to its significand scaled by
`2 ^ 52`. -/
theorem roundDouble_eq (x : ℚ) (e n : Int) (h1 : (2 : ℚ) ^ e ≤ |x|)
    (h2 : |x| < (2 : ℚ) ^ (e + 1)) (he : -1022 ≤ e)
    (hn : |x / (2 : ℚ) ^ (e - 52) - (n : ℚ)| < 1 / 2) :
    roundDouble x = (n : ℚ) * (2 : ℚ) ^ (e - 52) := by
  have hpos : 0 < |x| := lt_of_lt_of_le (zpow_pos (by norm_num) e) h1
  have hx : x ≠ 0 := abs_pos.1 hpos
  unfold roundDouble
  rw [if_neg hx, ulpExp_eq x e h1 h2 he, roundEven_eq _ n hn]

theorem roundDouble_one : roundDouble 1 = 1 := by
  rw [roundDouble_eq 1 0 (2 ^ 52) (by norm_num) (by norm_num) (by norm_num) (by norm_num)]
  norm_num

theorem roundDouble_two : roundDouble 2 = 2 := by
  rw [roundDouble_eq 2 1 (2 ^ 52) (by norm_num) (by norm_num) (by norm_num) (by norm_num)]
  norm_num

theorem roundDouble_three : roundDouble 3 = 3 := by
  rw [roundDouble_eq 3 1 (3 * 2 ^ 51) (by norm_num) (by norm_num) (by norm_num) (by norm_num)]
  norm_num

theorem roundDouble_neg_one : roundDouble (-1) = -1 := by
  rw [roundDouble_eq (-1) 0 (-2 ^ 52) (by norm_num) (by norm_num) (by norm_num) (by norm_num)]
  norm_num

theorem roundDouble_neg_two : roundDouble (-2) = -2 := by
  rw [roundDouble_eq (-2) 1 (-2 ^ 52) (by norm_num) (by norm_num) (by norm_num) (by norm_num)]
  norm_num

theorem roundDouble_neg_three : roundDouble (-3) = -3 := by
  rw [roundDouble_eq (-3) 1 (-3 * 2 ^ 51) (by norm_num) (by norm_num) (by norm_num)
    (by norm_num)]
  norm_num

/-- The tolerance is the `double` nearest to `10⁻⁶`. -/
theorem tol_eq_roundDouble : tol = roundDouble (1 / 1000000) := by
  rw [roundDouble_eq (1 / 1000000) (-20) 4722366482869645 (by norm_num [abs_of_pos])
    (by norm_num [abs_of_pos]) (by norm_num) (by norm_num [abs_lt])]
  norm_num [tol]

theorem roundDouble_near_edge :
    roundDouble (-(1 / 10000000)) = -7555786372591432 * (2 : ℚ) ^ (-76 : Int) := by
  rw [roundDouble_eq (-(1 / 10000000)) (-24) (-7555786372591432) (by norm_num [abs_of_pos])
    (by norm_num [abs_of_pos]) (by norm_num) (by norm_num [abs_lt])]
  norm_num

theorem foldl_append_flatMap {α β : Type} (f : α → List β) (l : List α) (init : List β) :
    l.foldl (fun acc x => acc ++ f x) init = init ++ l.flatMap f := by
  induction l generalizing init with
  | nil => simp
  | cons a t ih => simp [List.foldl_cons, ih, List.flatMap_cons, List.append_assoc]

theorem chainBeams_border (K : Kernel) (st : FeaStructure) (c : ISegChain)
    (h : c.m_BorderFlag = true) : chainBeams K st c = [] := by
  simp [chainBeams, h]

theorem flatMap_chainBeams_filter (K : Kernel) (st : FeaStructure) (l : List ISegChain) :
    l.flatMap (chainBeams K st)
      = (l.filter (fun c => !c.m_BorderFlag)).flatMap (chainBeams K st) := by
  induction l with
  | nil => simp
  | cons c t ih =>
    cases hb : c.m_BorderFlag
    · simp [List.filter_cons, hb, List.flatMap_cons, ih]
    · simp [List.filter_cons, hb, List.flatMap_cons, ih, chainBeams_border K st c hb]

theorem flatMap_chainBeams_border (K : Kernel) (st : FeaStructure) (l : List ISegChain) :
    (l.filter (fun c => c.m_BorderFlag)).flatMap (chainBeams K st) = [] := by
  induction l with
  | nil => simp
  | cons c t ih =>
    cases hb : c.m_BorderFlag
    · simp [List.filter_cons, hb, ih]
    · simp [List.filter_cons, hb, List.flatMap_cons, ih, chainBeams_border K st c hb]

theorem defineBeams_length (idx : Int) (p n : List vec3d) (s : List Int) :
    (defineBeams idx p n s).length = p.length - 1 := by
  simp [defineBeams]

theorem defineBeams_getElem? (idx : Int) (p n : List vec3d) (s : List Int) (k : Nat)
    (hk : k < p.length - 1) :
    (defineBeams idx p n s)[k]? = some
      { m_ElementType := ElementType.FEA_BEAM
        m_Corners := [p.getD k vec3d.zero, p.getD (k + 1) vec3d.zero]
        m_Vec := n.getD k vec3d.zero
        m_FeaPartIndex := idx
        m_FeaSSIndex := s.getD (k + 1) 0 } := by
  simp [defineBeams, List.getElem?_map, List.getElem?_range' , hk, Nat.add_comm]

/-! ## Claims -/

/-- C3. `BuildFeaMesh` creates no beam from a border chain: the elements it
appends after the triangles are exactly the beams of the non-border chains, in
chain order; the border chains of any chain list contribute nothing, so a
chain list of border chains only leaves the element list as the triangle loop
left it. -/
theorem C3_no_beam_from_border_chain (K : Kernel) (st : FeaStructure) (n : Int)
    (surfs : List Surf) (chains : List ISegChain) (elems : List FeaElement) :
    buildFeaMesh K st n surfs chains elems
        = buildFeaTris K n surfs elems
          ++ (chains.filter (fun c => !c.m_BorderFlag)).flatMap (chainBeams K st)
    ∧ (chains.filter (fun c => c.m_BorderFlag)).flatMap (chainBeams K st) = []
    ∧ buildFeaMesh K st n surfs (chains.filter (fun c => c.m_BorderFlag)) elems
        = buildFeaTris K n surfs elems := by
  refine ⟨?_, flatMap_chainBeams_border K st chains, ?_⟩
  · simp only [buildFeaMesh, buildFeaBeams, foldl_append_flatMap]
    rw [flatMap_chainBeams_filter]
  · simp only [buildFeaMesh, buildFeaBeams, foldl_append_flatMap]
    rw [flatMap_chainBeams_border]; simp

/-- C4 (evaluation at the failing input). For the junction chain between a
cap-flagged skin and a rib without cap flag, `BuildFeaMesh` appends one beam;
the chain has a negative sub-surface-intersection index, the beam's part index
is the undetermined index -1, and -1 is the index of no part. -/
theorem C4_beam_with_undetermined_part :
    buildFeaMesh flatKernel skinCapStruct 2 [] [skinRibChain] []
        = [{ m_ElementType := ElementType.FEA_BEAM
             m_Corners := [⟨0, 0, 0⟩, ⟨1, 0, 0⟩]
             m_Vec := ⟨0, 0, 1⟩
             m_FeaPartIndex := -1
             m_FeaSSIndex := -1 }]
    ∧ skinRibChain.m_SSIntersectIndex < 0
    ∧ skinCapStruct.GetFeaPart (-1) = none := by
  refine ⟨?_, by decide, by decide⟩
  simp [buildFeaMesh, buildFeaTris, buildFeaBeams, chainBeams, skinRibChain, skinCapStruct,
    FeaPartCap, FeaStructure.GetFeaPart, flatKernel, defineBeams, chainNorm, List.range']

/-- C5 (evaluation at the failing input). The junction chain between a
cap-flagged skin and a rib without cap flag is not a border chain and matches
neither case (a) nor case (b), yet the chain body yields one beam. -/
theorem C5_skin_cap_only_chain_yields_beam :
    skinRibChain.m_BorderFlag = false
    ∧ ¬ caseA skinCapStruct skinRibChain
    ∧ ¬ caseB skinRibChain
    ∧ (chainBeams flatKernel skinCapStruct skinRibChain).length = 1 := by
  refine ⟨rfl, ?_, ?_, ?_⟩
  · simp [caseA, skinRibChain, skinCapStruct, FeaPartCap, FeaStructure.GetFeaPart]
  · simp [caseB, skinRibChain]
  · simp [chainBeams, skinRibChain, skinCapStruct,
      FeaPartCap, FeaStructure.GetFeaPart, flatKernel, defineBeams, chainNorm]

theorem chainBeams_caseA (K : Kernel) (st : FeaStructure) (c : ISegChain)
    (hb : c.m_BorderFlag = false) (hq : caseA st c) :
    ∃ rev : Bool,
      chainBeams K st c
        = defineBeams (resolvedPartIndex c)
            (if rev then (c.m_TessVec.map (fun p => p.m_Pnt)).reverse
              else c.m_TessVec.map (fun p => p.m_Pnt))
            (if rev then
              (c.m_TessVec.map
                (chainNorm K (if c.m_SurfA.m_CompID ≥ 0 then c.m_SurfA else c.m_SurfB))).reverse
              else c.m_TessVec.map
                (chainNorm K (if c.m_SurfA.m_CompID ≥ 0 then c.m_SurfA else c.m_SurfB)))
            (c.m_TessVec.map (fun _ => (-1 : Int))) := by
  rcases hq with ⟨hA, hB, hcap⟩ | ⟨hB, hA, hcap⟩
  · have hB' : ¬ c.m_SurfB.m_CompID < 0 := not_lt.mpr hB
    have hA' : ¬ 0 ≤ c.m_SurfA.m_CompID := not_le.mpr hA
    refine ⟨decide (K.signed_angle
        (((c.m_TessVec.map (fun p => p.m_Pnt)).getD 0 vec3d.zero).sub c.m_SurfA.m_BBoxCenter)
        (((c.m_TessVec.map (fun p => p.m_Pnt)).getLastD vec3d.zero).sub c.m_SurfA.m_BBoxCenter)
        c.m_SurfA.m_BBoxCenter < 0), ?_⟩
    simp only [chainBeams, resolvedPartIndex]
    simp only [hb, hA, hB, hcap, hA', hB', Bool.not_false, if_true, decide_True, decide_False,
      Bool.true_and, Bool.and_true, Bool.or_true, Bool.true_or, Bool.or_false, Bool.and_self,
      ge_iff_le, if_false, decide_eq_true_eq]
    split_ifs <;> rfl
  · have hB' : ¬ 0 ≤ c.m_SurfB.m_CompID := not_le.mpr hB
    have hA' : ¬ c.m_SurfA.m_CompID < 0 := not_lt.mpr hA
    refine ⟨decide (K.signed_angle
        (((c.m_TessVec.map (fun p => p.m_Pnt)).getD 0 vec3d.zero).sub c.m_SurfB.m_BBoxCenter)
        (((c.m_TessVec.map (fun p => p.m_Pnt)).getLastD vec3d.zero).sub c.m_SurfB.m_BBoxCenter)
        c.m_SurfB.m_BBoxCenter < 0), ?_⟩
    simp only [chainBeams, resolvedPartIndex]
    simp only [hb, hA, hB, hcap, hA', hB', Bool.not_false, if_true, decide_True, decide_False,
      Bool.true_and, Bool.and_true, Bool.or_true, Bool.true_or, Bool.or_false, Bool.and_self,
      Bool.false_and, Bool.false_or, Bool.and_false,
      ge_iff_le, if_false, decide_eq_true_eq]
    split_ifs <;> first | rfl | contradiction

theorem chainBeams_caseB (K : Kernel) (st : FeaStructure) (c : ISegChain)
    (hb : c.m_BorderFlag = false) (hq : caseB c) :
    chainBeams K st c
      = defineBeams (resolvedPartIndex c) (c.m_TessVec.map (fun p => p.m_Pnt))
          (c.m_TessVec.map (chainNorm K c.m_SurfA))
          (c.m_TessVec.map (fun _ => c.m_SSIntersectIndex)) := by
  obtain ⟨hAB, hA, hss⟩ := hq
  have hB : 0 ≤ c.m_SurfB.m_CompID := hAB ▸ hA
  have hB' : ¬ c.m_SurfB.m_CompID < 0 := not_lt.mpr hB
  have hA' : ¬ c.m_SurfA.m_CompID < 0 := not_lt.mpr hA
  simp only [chainBeams, resolvedPartIndex]
  simp [hb, hA, hB, hA', hB', hss, hAB]

theorem caseA_not_caseB (st : FeaStructure) (c : ISegChain) (ha : caseA st c) (hb : caseB c) :
    False := by
  obtain ⟨hAB, hA, _⟩ := hb
  rcases ha with ⟨h, _, _⟩ | ⟨h, _, _⟩
  · exact absurd hA (not_le.mpr h)
  · exact absurd (hAB ▸ hA) (not_le.mpr h)

theorem getD_map_const {α : Type} (l : List α) (v d : Int) (k : Nat) (hk : k < l.length) :
    (l.map (fun _ => v)).getD k d = v := by
  rw [List.getD_eq_getElem?_getD, List.getElem?_map, List.getElem?_eq_getElem hk]
  rfl

/-- C6. A non-border chain that qualifies (case a or case b) and has `N ≥ 1`
points yields exactly `N - 1` beams.  Beam `k` (`1 ≤ k ≤ N - 1`) joins points
`k - 1` and `k` of the point sequence, which is the chain order or, at a
junction only, its reverse; so beam `k` ends where beam `k + 1` starts.  Every
beam carries the resolved part index; its sub-surface index is -1 at a
part/skin junction and the chain's sub-surface-intersection index at a
sub-surface boundary. -/
theorem C6_beams_of_qualifying_chain (K : Kernel) (st : FeaStructure) (c : ISegChain)
    (hb : c.m_BorderFlag = false) (hq : caseA st c ∨ caseB c) (hN : 1 ≤ c.m_TessVec.length) :
    ∃ pts : List vec3d,
      (pts = c.m_TessVec.map (fun p => p.m_Pnt)
        ∨ (caseA st c ∧ pts = (c.m_TessVec.map (fun p => p.m_Pnt)).reverse)) ∧
      (chainBeams K st c).length = c.m_TessVec.length - 1 ∧
      ∀ k, 1 ≤ k → k ≤ c.m_TessVec.length - 1 →
        ∃ b, (chainBeams K st c)[k - 1]? = some b ∧
          b.m_ElementType = ElementType.FEA_BEAM ∧
          b.m_Corners = [pts.getD (k - 1) vec3d.zero, pts.getD k vec3d.zero] ∧
          b.m_FeaPartIndex = resolvedPartIndex c ∧
          (caseA st c → b.m_FeaSSIndex = -1) ∧
          (caseB c → b.m_FeaSSIndex = c.m_SSIntersectIndex) := by
  rcases hq with ha | hB
  · obtain ⟨rev, hrev⟩ := chainBeams_caseA K st c hb ha
    refine ⟨if rev then (c.m_TessVec.map (fun p => p.m_Pnt)).reverse
      else c.m_TessVec.map (fun p => p.m_Pnt), ?_, ?_, ?_⟩
    · cases rev
      · exact Or.inl rfl
      · exact Or.inr ⟨ha, rfl⟩
    · rw [hrev, defineBeams_length]; cases rev <;> simp
    · intro k hk1 hk2
      have hlen : (if rev then (c.m_TessVec.map (fun p => p.m_Pnt)).reverse
          else c.m_TessVec.map (fun p => p.m_Pnt)).length = c.m_TessVec.length := by
        cases rev <;> simp
      have hk : k - 1 < (if rev then (c.m_TessVec.map (fun p => p.m_Pnt)).reverse
          else c.m_TessVec.map (fun p => p.m_Pnt)).length - 1 := by
        rw [hlen]; omega
      rw [hrev, defineBeams_getElem? _ _ _ _ _ hk]
      have hk' : k - 1 + 1 = k := by omega
      refine ⟨_, rfl, rfl, ?_, rfl, ?_, ?_⟩
      · simp only [hk']
      · intro _
        simp only [hk']
        exact getD_map_const _ _ _ _ (by omega)
      · intro hB
        exact (caseA_not_caseB st c ha hB).elim
  · have hcb := chainBeams_caseB K st c hb hB
    refine ⟨c.m_TessVec.map (fun p => p.m_Pnt), Or.inl rfl, ?_, ?_⟩
    · rw [hcb, defineBeams_length]; simp
    · intro k hk1 hk2
      have hk : k - 1 < (c.m_TessVec.map (fun p => p.m_Pnt)).length - 1 := by
        simp; omega
      rw [hcb, defineBeams_getElem? _ _ _ _ _ hk]
      have hk' : k - 1 + 1 = k := by omega
      refine ⟨_, rfl, rfl, ?_, rfl, ?_, ?_⟩
      · simp only [hk']
      · intro ha
        exact (caseA_not_caseB st c ha hB).elim
      · intro _
        simp only [hk']
        exact getD_map_const _ _ _ _ (by omega)

/-- C6 at the two-point junction chain between a skin and a cap-flagged rib. -/
theorem C6_beams_of_qualifying_chain_witness :
    skinRibChain.m_BorderFlag = false
    ∧ (caseA ribCapStruct skinRibChain ∨ caseB skinRibChain)
    ∧ 1 ≤ skinRibChain.m_TessVec.length
    ∧ ∃ pts : List vec3d,
      (pts = skinRibChain.m_TessVec.map (fun p => p.m_Pnt)
        ∨ (caseA ribCapStruct skinRibChain
            ∧ pts = (skinRibChain.m_TessVec.map (fun p => p.m_Pnt)).reverse)) ∧
      (chainBeams flatKernel ribCapStruct skinRibChain).length
        = skinRibChain.m_TessVec.length - 1 ∧
      ∀ k, 1 ≤ k → k ≤ skinRibChain.m_TessVec.length - 1 →
        ∃ b, (chainBeams flatKernel ribCapStruct skinRibChain)[k - 1]? = some b ∧
          b.m_ElementType = ElementType.FEA_BEAM ∧
          b.m_Corners = [pts.getD (k - 1) vec3d.zero, pts.getD k vec3d.zero] ∧
          b.m_FeaPartIndex = resolvedPartIndex skinRibChain ∧
          (caseA ribCapStruct skinRibChain → b.m_FeaSSIndex = -1) ∧
          (caseB skinRibChain → b.m_FeaSSIndex = skinRibChain.m_SSIntersectIndex) :=
  have ha : caseA ribCapStruct skinRibChain :=
    Or.inr ⟨by decide, by decide, by decide⟩
  ⟨rfl, Or.inl ha, by decide,
    C6_beams_of_qualifying_chain flatKernel ribCapStruct skinRibChain rfl (Or.inl ha) (by decide)⟩

theorem tagNodeAt_getElem? (nv : List FeaNode) (ind : Nat) (i : Int) (k : Nat) :
    (tagNodeAt nv ind i)[k]? = if k = ind then (nv[k]?).map (fun n => n.AddTag i) else nv[k]? := by
  unfold tagNodeAt
  cases h : nv.get? ind with
  | none =>
    simp only [List.get?_eq_getElem?] at h
    by_cases hk : k = ind
    · subst hk; simp [h]
    · simp [hk]
  | some n =>
    simp only [List.get?_eq_getElem?] at h
    by_cases hk : k = ind
    · subst hk
      have hlt : k < nv.length := by
        by_contra hc
        rw [List.getElem?_eq_none (by omega)] at h
        exact Option.noConfusion h
      simp [h, List.getElem?_set, hlt]
    · have : ¬ ind = k := fun e => hk e.symm
      simp [hk, List.getElem?_set, this]

theorem AddTag_mem (n : FeaNode) (i t : Int) :
    t ∈ (n.AddTag i).m_Tags ↔ t ∈ n.m_Tags ∨ t = i := by
  unfold FeaNode.AddTag
  by_cases h : i ∈ n.m_Tags
  · simp only [h, if_true]
    constructor
    · exact Or.inl
    · rintro (h1 | h1)
      · exact h1
      · exact h1 ▸ h
  · simp [h]

theorem AddTag_nodup (n : FeaNode) (i : Int) (h : n.m_Tags.Nodup) :
    (n.AddTag i).m_Tags.Nodup := by
  unfold FeaNode.AddTag
  by_cases hi : i ∈ n.m_Tags
  · simp [hi, h]
  · simp only [hi, if_false]
    rw [List.nodup_append]
    refine ⟨h, List.nodup_singleton i, ?_⟩
    intro a ha hb
    simp at hb
    exact hi (hb ▸ ha)

/-- Tags of the node at `k` after a sequence of tag statements: a tag is
present exactly when it was present before or one of the statements added it
at `k`. -/
theorem tagOps_spec (ops : List (Nat × Int)) :
    ∀ (nv : List FeaNode) (k : Nat) (n1 : FeaNode),
      (ops.foldl (fun nv2 o => tagNodeAt nv2 o.1 o.2) nv)[k]? = some n1 →
      ∃ n, nv[k]? = some n ∧ (n.m_Tags.Nodup → n1.m_Tags.Nodup) ∧
        ∀ t, t ∈ n1.m_Tags ↔ t ∈ n.m_Tags ∨ (k, t) ∈ ops := by
  induction ops with
  | nil =>
    intro nv k n1 h
    exact ⟨n1, h, id, fun t => by simp⟩
  | cons o rest ih =>
    intro nv k n1 h
    rw [List.foldl_cons] at h
    obtain ⟨n2, h2, hnd, hmem⟩ := ih _ k n1 h
    rw [tagNodeAt_getElem?] at h2
    by_cases hk : k = o.1
    · rw [if_pos hk] at h2
      cases hn : nv[k]? with
      | none => rw [hn] at h2; exact Option.noConfusion h2
      | some n =>
        rw [hn] at h2
        simp only [Option.map_some'] at h2
        have h2' : n2 = n.AddTag o.2 := (Option.some.inj h2).symm
        refine ⟨n, rfl, fun hn0 => hnd (h2' ▸ AddTag_nodup n o.2 hn0), fun t => ?_⟩
        rw [hmem t, h2', AddTag_mem, List.mem_cons]
        constructor
        · rintro ((h3 | h3) | h3)
          · exact Or.inl h3
          · exact Or.inr (Or.inl (by rw [h3, hk]))
          · exact Or.inr (Or.inr h3)
        · rintro (h3 | h3 | h3)
          · exact Or.inl (Or.inl h3)
          · exact Or.inl (Or.inr (by rw [Prod.ext_iff] at h3; exact h3.2))
          · exact Or.inr h3
    · rw [if_neg hk] at h2
      refine ⟨n2, h2, hnd, fun t => ?_⟩
      rw [hmem t, List.mem_cons]
      constructor
      · rintro (h3 | h3)
        · exact Or.inl h3
        · exact Or.inr (Or.inr h3)
      · rintro (h3 | h3 | h3)
        · exact Or.inl h3
        · exact absurd (by rw [Prod.ext_iff] at h3; exact h3.1) hk
        · exact Or.inr h3

theorem foldl_flatMap_ops {α β γ : Type} (f : α → List β) (g : γ → β → γ) (l : List α) (init : γ) :
    l.foldl (fun acc x => (f x).foldl g acc) init = (l.flatMap f).foldl g init := by
  induction l generalizing init with
  | nil => simp
  | cons a t ih => simp [List.foldl_cons, List.flatMap_cons, List.foldl_append, ih]

theorem partNodes_eq (elems : List FeaElement) (i : Nat) :
    partNodes elems i
      = (elems.filter (fun e => decide (toUnsigned e.m_FeaPartIndex = i))).flatMap
          (fun e => e.m_Corners.map (fun p => ({ m_Pnt := p } : FeaNode))) := by
  unfold partNodes
  suffices h : ∀ acc : List FeaNode,
      elems.foldl (fun temp_nVec e =>
          if toUnsigned e.m_FeaPartIndex = i then LoadNodes e temp_nVec else temp_nVec) acc
        = acc ++ (elems.filter (fun e => decide (toUnsigned e.m_FeaPartIndex = i))).flatMap
            (fun e => e.m_Corners.map (fun p => ({ m_Pnt := p } : FeaNode))) by
    simpa using h []
  induction elems with
  | nil => intro acc; simp
  | cons e t ih =>
    intro acc
    rw [List.foldl_cons, ih]
    by_cases he : toUnsigned e.m_FeaPartIndex = i
    · simp [he, LoadNodes, List.filter_cons, List.flatMap_cons, List.append_assoc]
    · simp [he, List.filter_cons]

theorem toUnsigned_eq_iff (x : Int) (i : Nat) (hx : -2 ^ 31 ≤ x ∧ x < 2 ^ 31) (hi : i < 2 ^ 31) :
    toUnsigned x = i ↔ x = (i : Int) := by
  unfold toUnsigned
  omega

theorem toSigned_small (i : Nat) (hi : i < 2 ^ 31) : toSigned i = (i : Int) := by
  unfold toSigned
  have h1 : i % 2 ^ 32 = i := Nat.mod_eq_of_lt (by omega)
  rw [h1, if_pos hi]

theorem toUnsigned_nonneg (n : Int) (hn : 0 ≤ n ∧ n < 2 ^ 31) : toUnsigned n = n.toNat := by
  unfold toUnsigned
  omega

theorem tag_loops_eq (find : vec3d → Nat) (pn : Nat → List FeaNode) (l : List Nat)
    (nv : List FeaNode) :
    l.foldl (fun nv1 i =>
        (pn i).foldl (fun nv2 n => tagNodeAt nv2 (find n.m_Pnt) (toSigned i)) nv1) nv
      = (l.flatMap (fun i => (pn i).map (fun n => (find n.m_Pnt, toSigned i)))).foldl
          (fun nv2 o => tagNodeAt nv2 o.1 o.2) nv := by
  induction l generalizing nv with
  | nil => simp
  | cons a t ih =>
    simp only [List.foldl_cons, List.flatMap_cons, List.foldl_append, List.foldl_map]
    exact ih _

/-- Tags of a node record after `TagFeaNodes`, in terms of the unsigned part
counter: the tag list has no repetition, and a tag is present exactly when it
is the counter value of a part owning an element with a corner whose
coincidence-map index is the position of the record. -/
theorem tagFeaNodes_tags (X : PntIndex) (N : Int) (elems : List FeaElement) (k : Nat)
    (n : FeaNode) (hk : (tagFeaNodes X N elems).m_FeaNodeVec[k]? = some n) :
    n.m_Tags.Nodup ∧
    ∀ t : Int, t ∈ n.m_Tags ↔
      ∃ i, i < toUnsigned N ∧ t = toSigned i ∧
        ∃ e ∈ elems, toUnsigned e.m_FeaPartIndex = i ∧
          ∃ p ∈ e.m_Corners, coincidentIndex X elems p = k := by
  unfold tagFeaNodes at hk
  simp only [] at hk
  have hk2 := (congrArg (fun l : List FeaNode => l[k]?)
    (tag_loops_eq (fun p => coincidentIndex X elems p) (partNodes elems)
      (List.range (toUnsigned N)) _)).symm.trans hk
  obtain ⟨n0, hn0, hnd, hmem⟩ := tagOps_spec _ _ k n hk2
  have htags : n0.m_Tags = [] := by
    rw [List.getElem?_map] at hn0
    cases h : (elems.foldl (fun nv e => LoadNodes e nv) [])[k]? with
    | none => rw [h] at hn0; exact Option.noConfusion hn0
    | some a =>
      rw [h] at hn0
      simp only [Option.map_some'] at hn0
      rw [← Option.some.inj hn0]
  refine ⟨hnd (by rw [htags]; exact List.nodup_nil), fun t => ?_⟩
  rw [hmem t, htags]
  simp only [List.not_mem_nil, false_or, List.mem_flatMap, List.mem_map, List.mem_range,
    Prod.mk.injEq, partNodes_eq, List.mem_filter, decide_eq_true_eq]
  constructor
  · rintro ⟨i, hi, nd, ⟨e, ⟨he, hei⟩, p, hp, hnd2⟩, hfind, ht⟩
    refine ⟨i, hi, ht.symm, e, he, hei, p, hp, ?_⟩
    rw [← hfind, ← hnd2]
  · rintro ⟨i, hi, ht, e, he, hei, p, hp, hfind⟩
    exact ⟨i, hi, { m_Pnt := p }, ⟨e, ⟨he, hei⟩, p, hp, rfl⟩, hfind, ht.symm⟩

theorem nodup_length_gt_one_iff (l : List Int) (h : l.Nodup) :
    1 < l.length ↔ ∃ a b, a ≠ b ∧ a ∈ l ∧ b ∈ l := by
  constructor
  · intro hl
    match l, h, hl with
    | a :: b :: t, h, _ =>
      refine ⟨a, b, ?_, by simp, by simp⟩
      intro hab
      rw [List.nodup_cons] at h
      exact h.1 (hab ▸ List.mem_cons_self _ _)
  · rintro ⟨a, b, hab, ha, hb⟩
    match l, ha, hb with
    | [x], ha, hb =>
      simp at ha hb
      exact absurd (ha.trans hb.symm) hab
    | x :: y :: t, _, _ => simp

/-- C1. Junction invariant of `TagFeaNodes`. For every element list and every
node record `k` of the node list (in particular every surviving, canonical
one), the part tag `i` is in the tag set of `k` if and only if
`0 ≤ i < NumFeaParts` and some element owned by part `i` has a corner whose
coincidence-map index is `k`; hence `k` carries more than one tag exactly when
elements of two distinct parts have a corner with coincidence-map index `k`.
The part count and the part indices are machine integers. -/
theorem C1_junction_invariant (X : PntIndex) (N : Int) (elems : List FeaElement)
    (hN : 0 ≤ N ∧ N < 2 ^ 31)
    (hE : ∀ e ∈ elems, -2 ^ 31 ≤ e.m_FeaPartIndex ∧ e.m_FeaPartIndex < 2 ^ 31)
    (k : Nat) (n : FeaNode) (hk : (tagFeaNodes X N elems).m_FeaNodeVec[k]? = some n) :
    (∀ i : Int, i ∈ n.m_Tags ↔
      (0 ≤ i ∧ i < N ∧ ∃ e ∈ elems, e.m_FeaPartIndex = i ∧
        ∃ p ∈ e.m_Corners, coincidentIndex X elems p = k))
    ∧ (1 < n.m_Tags.length ↔
      ∃ e1 ∈ elems, ∃ e2 ∈ elems, e1.m_FeaPartIndex ≠ e2.m_FeaPartIndex ∧
        (0 ≤ e1.m_FeaPartIndex ∧ e1.m_FeaPartIndex < N) ∧
        (0 ≤ e2.m_FeaPartIndex ∧ e2.m_FeaPartIndex < N) ∧
        (∃ p ∈ e1.m_Corners, coincidentIndex X elems p = k) ∧
        (∃ p ∈ e2.m_Corners, coincidentIndex X elems p = k)) := by
  obtain ⟨hnd, hmem⟩ := tagFeaNodes_tags X N elems k n hk
  have hU : toUnsigned N = N.toNat := toUnsigned_nonneg N hN
  have key : ∀ i : Int, i ∈ n.m_Tags ↔
      (0 ≤ i ∧ i < N ∧ ∃ e ∈ elems, e.m_FeaPartIndex = i ∧
        ∃ p ∈ e.m_Corners, coincidentIndex X elems p = k) := by
    intro t
    rw [hmem t]
    constructor
    · rintro ⟨i, hi, ht, e, he, hei, hp⟩
      have hi31 : i < 2 ^ 31 := by omega
      have hts : t = (i : Int) := by rw [ht, toSigned_small i hi31]
      refine ⟨by omega, by omega, e, he, ?_, hp⟩
      rw [hts]
      exact (toUnsigned_eq_iff _ i (hE e he) hi31).1 hei
    · rintro ⟨h0, hlt, e, he, hei, hp⟩
      have hi31 : t.toNat < 2 ^ 31 := by omega
      refine ⟨t.toNat, by omega, ?_, e, he, ?_, hp⟩
      · rw [toSigned_small _ hi31]; omega
      · rw [toUnsigned_eq_iff _ _ (hE e he) hi31]; omega
  refine ⟨key, ?_⟩
  rw [nodup_length_gt_one_iff _ hnd]
  constructor
  · rintro ⟨a, b, hab, ha, hb⟩
    obtain ⟨ha0, haN, e1, he1, hea, hp1⟩ := (key a).1 ha
    obtain ⟨hb0, hbN, e2, he2, heb, hp2⟩ := (key b).1 hb
    exact ⟨e1, he1, e2, he2, by rw [hea, heb]; exact hab, by rw [hea]; exact ⟨ha0, haN⟩,
      by rw [heb]; exact ⟨hb0, hbN⟩, hp1, hp2⟩
  · rintro ⟨e1, he1, e2, he2, hne, h1, h2, hp1, hp2⟩
    exact ⟨e1.m_FeaPartIndex, e2.m_FeaPartIndex, hne,
      (key _).2 ⟨h1.1, h1.2, e1, he1, rfl, hp1⟩, (key _).2 ⟨h2.1, h2.2, e2, he2, rfl, hp2⟩⟩

/-- C1 at node 0 of a triangle of part 0 and a beam of part 1 sharing two
corners: the node carries the tags 0 and 1. -/
theorem C1_junction_invariant_witness :
    ((0 : Int) ≤ 2 ∧ (2 : Int) < 2 ^ 31)
    ∧ (∀ e ∈ junctionElems, -2 ^ 31 ≤ e.m_FeaPartIndex ∧ e.m_FeaPartIndex < 2 ^ 31)
    ∧ (tagFeaNodes exactPntIndex 2 junctionElems).m_FeaNodeVec[0]?
        = some { m_Pnt := ⟨0, 0, 0⟩, m_Index := 1, m_Tags := [0, 1] }
    ∧ ((∀ i : Int, i ∈ [(0 : Int), 1] ↔
        (0 ≤ i ∧ i < 2 ∧ ∃ e ∈ junctionElems, e.m_FeaPartIndex = i ∧
          ∃ p ∈ e.m_Corners, coincidentIndex exactPntIndex junctionElems p = 0))
      ∧ (1 < [(0 : Int), 1].length ↔
        ∃ e1 ∈ junctionElems, ∃ e2 ∈ junctionElems, e1.m_FeaPartIndex ≠ e2.m_FeaPartIndex ∧
          (0 ≤ e1.m_FeaPartIndex ∧ e1.m_FeaPartIndex < 2) ∧
          (0 ≤ e2.m_FeaPartIndex ∧ e2.m_FeaPartIndex < 2) ∧
          (∃ p ∈ e1.m_Corners, coincidentIndex exactPntIndex junctionElems p = 0) ∧
          (∃ p ∈ e2.m_Corners, coincidentIndex exactPntIndex junctionElems p = 0))) :=
  ⟨by decide, by decide, by decide,
    C1_junction_invariant exactPntIndex 2 junctionElems (by decide) (by decide) 0
      { m_Pnt := ⟨0, 0, 0⟩, m_Index := 1, m_Tags := [0, 1] } (by decide)⟩

theorem foldl_cond_add (c : FeaElement → Prop) [DecidablePred c] (f : FeaElement → ℚ)
    (l : List FeaElement) (a : ℚ) :
    l.foldl (fun mass e => if c e then mass + f e else mass) a
      = a + ((l.filter (fun e => decide (c e))).map f).sum := by
  induction l generalizing a with
  | nil => simp
  | cons e t ih =>
    rw [List.foldl_cons, ih]
    by_cases he : c e
    · simp [he, List.filter_cons, add_assoc]
    · simp [he, List.filter_cons]

theorem partMass_eq_spec (ComputeMass : FeaElement → Int → ℚ) (st : FeaStructure)
    (elems : List FeaElement)
    (hE : ∀ e ∈ elems, -2 ^ 31 ≤ e.m_FeaPartIndex ∧ e.m_FeaPartIndex < 2 ^ 31)
    (i : Nat) (hi : i < 2 ^ 31) :
    partMass ComputeMass st elems i = specPartMass ComputeMass st elems i := by
  unfold partMass specPartMass
  simp only []
  rw [foldl_cond_add (fun e => toUnsigned e.m_FeaPartIndex = i), zero_add]
  congr 2
  apply List.filter_congr
  intro e he
  simp only [decide_eq_decide]
  exact toUnsigned_eq_iff _ i (hE e he) hi

theorem massLoop_eq (name : Nat → String) (mass : Nat → ℚ) (l : List Nat)
    (acc : List (String × ℚ) × ℚ) :
    l.foldl (fun (acc : List (String × ℚ) × ℚ) i => (acc.1 ++ [(name i, mass i)], acc.2 + mass i)) acc
      = (acc.1 ++ l.map (fun i => (name i, mass i)), acc.2 + (l.map mass).sum) := by
  induction l generalizing acc with
  | nil => simp
  | cons a t ih => simp [List.foldl_cons, ih, add_assoc]

theorem computeWriteMass_open (ComputeMass : FeaElement → Int → ℚ) (st : FeaStructure) (N : Int)
    (elems : List FeaElement) (hN : 0 ≤ N ∧ N < 2 ^ 31)
    (hE : ∀ e ∈ elems, -2 ^ 31 ≤ e.m_FeaPartIndex ∧ e.m_FeaPartIndex < 2 ^ 31) :
    computeWriteMass ComputeMass st N elems true
      = (((List.range N.toNat).map (specPartMass ComputeMass st elems)).sum,
          some { m_StructName := st.m_FeaStructName
                 m_PartLines := (List.range N.toNat).map
                   (fun i => (st.GetFeaPartName i, specPartMass ComputeMass st elems i))
                 m_Total := ((List.range N.toNat).map (specPartMass ComputeMass st elems)).sum }) := by
  unfold computeWriteMass
  simp only [if_true]
  rw [massLoop_eq (fun i => st.GetFeaPartName i) (partMass ComputeMass st elems)]
  rw [toUnsigned_nonneg N hN]
  have h1 : (List.range N.toNat).map (partMass ComputeMass st elems)
      = (List.range N.toNat).map (specPartMass ComputeMass st elems) := by
    apply List.map_congr_left
    intro i hi
    rw [List.mem_range] at hi
    exact partMass_eq_spec ComputeMass st elems hE i (by omega)
  have h2 : (List.range N.toNat).map (fun i => (st.GetFeaPartName i, partMass ComputeMass st elems i))
      = (List.range N.toNat).map
          (fun i => (st.GetFeaPartName i, specPartMass ComputeMass st elems i)) := by
    apply List.map_congr_left
    intro i hi
    rw [List.mem_range] at hi
    rw [partMass_eq_spec ComputeMass st elems hE i (by omega)]
  simp only [h1, h2, List.nil_append, zero_add]

/-- C2. Mass accounting. When the mass report file opens, `ComputeWriteMass`
writes one line per part `i` of `[0, NumFeaParts)`, in part order, whose mass
is the sum of `ComputeMass` (with the property id of part `i`) over the
elements whose part index equals `i`; the total mass written and stored is the
sum of these part masses; the total held before the call has no influence.
The part count and the part indices are machine integers. -/
theorem C2_mass_accounting (E : Stages) (m : FeaMeshMgr) (hfp : E.MassFileOpens = true)
    (hN : 0 ≤ m.m_NumFeaParts ∧ m.m_NumFeaParts < 2 ^ 31)
    (hE : ∀ e ∈ m.m_FeaElementVec, -2 ^ 31 ≤ e.m_FeaPartIndex ∧ e.m_FeaPartIndex < 2 ^ 31) :
    (ComputeWriteMass E m).m_Files = m.m_Files ++
        [ExportFile.mass
          { m_StructName := m.m_FeaMeshStruct.m_FeaStructName
            m_PartLines := (List.range m.m_NumFeaParts.toNat).map (fun i =>
              (m.m_FeaMeshStruct.GetFeaPartName i,
                specPartMass E.ComputeMass m.m_FeaMeshStruct m.m_FeaElementVec i))
            m_Total := ((List.range m.m_NumFeaParts.toNat).map
              (specPartMass E.ComputeMass m.m_FeaMeshStruct m.m_FeaElementVec)).sum }]
    ∧ (ComputeWriteMass E m).m_TotalMass
        = ((List.range m.m_NumFeaParts.toNat).map
            (specPartMass E.ComputeMass m.m_FeaMeshStruct m.m_FeaElementVec)).sum
    ∧ ∀ old : ℚ, (ComputeWriteMass E { m with m_TotalMass := old }).m_TotalMass
        = (ComputeWriteMass E m).m_TotalMass := by
  have h := computeWriteMass_open E.ComputeMass m.m_FeaMeshStruct m.m_NumFeaParts
    m.m_FeaElementVec hN hE
  refine ⟨?_, ?_, ?_⟩
  · simp only [ComputeWriteMass, hfp, h]
  · simp only [ComputeWriteMass, hfp, h]
  · intro old
    simp only [ComputeWriteMass, hfp, h]

/-- C2 at a manager holding two elements of two parts and a stale total. -/
theorem C2_mass_accounting_witness :
    flatStages.MassFileOpens = true
    ∧ (0 ≤ junctionMgr.m_NumFeaParts ∧ junctionMgr.m_NumFeaParts < 2 ^ 31)
    ∧ (∀ e ∈ junctionMgr.m_FeaElementVec, -2 ^ 31 ≤ e.m_FeaPartIndex ∧ e.m_FeaPartIndex < 2 ^ 31)
    ∧ ((ComputeWriteMass flatStages junctionMgr).m_Files = junctionMgr.m_Files ++
        [ExportFile.mass
          { m_StructName := junctionMgr.m_FeaMeshStruct.m_FeaStructName
            m_PartLines := (List.range junctionMgr.m_NumFeaParts.toNat).map (fun i =>
              (junctionMgr.m_FeaMeshStruct.GetFeaPartName i,
                specPartMass flatStages.ComputeMass junctionMgr.m_FeaMeshStruct
                  junctionMgr.m_FeaElementVec i))
            m_Total := ((List.range junctionMgr.m_NumFeaParts.toNat).map
              (specPartMass flatStages.ComputeMass junctionMgr.m_FeaMeshStruct
                junctionMgr.m_FeaElementVec)).sum }]
      ∧ (ComputeWriteMass flatStages junctionMgr).m_TotalMass
          = ((List.range junctionMgr.m_NumFeaParts.toNat).map
              (specPartMass flatStages.ComputeMass junctionMgr.m_FeaMeshStruct
                junctionMgr.m_FeaElementVec)).sum
      ∧ ∀ old : ℚ, (ComputeWriteMass flatStages { junctionMgr with m_TotalMass := old }).m_TotalMass
          = (ComputeWriteMass flatStages junctionMgr).m_TotalMass) :=
  ⟨rfl, by decide, by decide,
    C2_mass_accounting flatStages junctionMgr rfl (by decide) (by decide)⟩

theorem CleanUp_idem (m : FeaMeshMgr) : CleanUp (CleanUp m) = CleanUp m := rfl

theorem LoadSurfaces_invalid (E : Stages) (m : FeaMeshMgr)
    (h : E.StructMgr.ValidTotalFeaStructInd m.m_FeaMeshStructIndex = false) :
    LoadSurfaces E m
      = (false, { addOutputText (CleanUp m) "FeaMesh Failed: Invalid FeaStructure Selection\n"
                  with m_FeaMeshInProgress := false }) := by
  have h1 : E.StructMgr.ValidTotalFeaStructInd (CleanUp m).m_FeaMeshStructIndex = false := h
  simp only [LoadSurfaces, h1, Bool.not_false, if_true]

theorem LoadSurfaces_valid_fst (E : Stages) (m : FeaMeshMgr)
    (h : E.StructMgr.ValidTotalFeaStructInd m.m_FeaMeshStructIndex = true) :
    (LoadSurfaces E m).1 = true := by
  have h1 : E.StructMgr.ValidTotalFeaStructInd (CleanUp m).m_FeaMeshStructIndex = true := h
  simp only [LoadSurfaces, h1, Bool.not_true]
  cases E.StructMgr.m_AllFeaStructs.get? (CleanUp m).m_FeaMeshStructIndex.toNat <;> rfl

theorem LoadSkins_frame (m : FeaMeshMgr) :
    (LoadSkins m).m_FeaElementVec = m.m_FeaElementVec
    ∧ (LoadSkins m).m_ISegChainList = m.m_ISegChainList
    ∧ (LoadSkins m).m_Files = m.m_Files
    ∧ (LoadSkins m).m_FeaNodeVec = m.m_FeaNodeVec
    ∧ (LoadSkins m).m_NumFeaParts = m.m_NumFeaParts
    ∧ (LoadSkins m).m_FeaMeshStruct = m.m_FeaMeshStruct := by
  unfold LoadSkins
  cases m.m_FeaMeshStruct.GetFeaSkinIndex with
  | none => exact ⟨rfl, rfl, rfl, rfl, rfl, rfl⟩
  | some k =>
    simp only []
    cases m.m_FeaMeshStruct.m_FeaPartVec.get? k with
    | none => exact ⟨rfl, rfl, rfl, rfl, rfl, rfl⟩
    | some p => exact ⟨rfl, rfl, rfl, rfl, rfl, rfl⟩

theorem LoadSurfaces_frame (E : Stages) (m : FeaMeshMgr) :
    (LoadSurfaces E m).2.m_FeaElementVec = []
    ∧ (LoadSurfaces E m).2.m_ISegChainList = []
    ∧ (LoadSurfaces E m).2.m_Files = m.m_Files
    ∧ (LoadSurfaces E m).2.m_FeaNodeVec = m.m_FeaNodeVec := by
  unfold LoadSurfaces
  simp only []
  split
  · exact ⟨rfl, rfl, rfl, rfl⟩
  · split
    · rename_i feastruct _
      obtain ⟨h1, h2, h3, h4, _, _⟩ := LoadSkins_frame
        { CleanUp m with m_FeaMeshStruct := feastruct
                         m_NumFeaParts := feastruct.NumFeaParts
                         m_NumFeaSubSurfs := feastruct.NumFeaSubSurfs }
      exact ⟨h1, h2, h3, h4⟩
    · exact ⟨rfl, rfl, rfl, rfl⟩

theorem LoadSkins_out (m : FeaMeshMgr) : (LoadSkins m).m_OutStream = m.m_OutStream := by
  unfold LoadSkins
  cases m.m_FeaMeshStruct.GetFeaSkinIndex with
  | none => rfl
  | some k =>
    simp only []
    cases m.m_FeaMeshStruct.m_FeaPartVec.get? k <;> rfl

theorem LoadSurfaces_out (E : Stages) (m : FeaMeshMgr) :
    (LoadSurfaces E m).2.m_OutStream = m.m_OutStream
    ∨ (LoadSurfaces E m).2.m_OutStream
        = m.m_OutStream ++ ["FeaMesh Failed: Invalid FeaStructure Selection\n"] := by
  unfold LoadSurfaces
  simp only []
  split
  · exact Or.inr rfl
  · split
    · rename_i feastruct _
      exact Or.inl (LoadSkins_out
        { CleanUp m with m_FeaMeshStruct := feastruct
                         m_NumFeaParts := feastruct.NumFeaParts
                         m_NumFeaSubSurfs := feastruct.NumFeaSubSurfs })
    · exact Or.inl rfl

theorem GenerateFeaMesh_abort (E : Stages) (m : FeaMeshMgr)
    (h : (LoadSurfaces E
      (addOutputText { m with m_FeaMeshInProgress := true } "Load Surfaces\n")).2.m_SurfVec = []) :
    GenerateFeaMesh E m
      = { (LoadSurfaces E
            (addOutputText { m with m_FeaMeshInProgress := true } "Load Surfaces\n")).2
          with m_FeaMeshInProgress := false } := by
  unfold GenerateFeaMesh
  simp only [h, List.length_nil, le_refl, if_true]

/-- C8. `LoadSurfaces` returns false if and only if the structure manager
reports the selected index as invalid.  In that case the element list is
empty, the part count and the sub-surface count are 0, the
generation-in-progress flag is false and the surface list is empty.  In every
case the state of a previous run is cleared first: the call behaves as on the
cleaned manager, and the element list and the chain list are empty after it. -/
theorem C8_LoadSurfaces_invalid_selection (E : Stages) (m : FeaMeshMgr) :
    ((LoadSurfaces E m).1 = false
        ↔ E.StructMgr.ValidTotalFeaStructInd m.m_FeaMeshStructIndex = false)
    ∧ (E.StructMgr.ValidTotalFeaStructInd m.m_FeaMeshStructIndex = false →
        (LoadSurfaces E m).2.m_FeaElementVec = []
        ∧ (LoadSurfaces E m).2.m_NumFeaParts = 0
        ∧ (LoadSurfaces E m).2.m_NumFeaSubSurfs = 0
        ∧ (LoadSurfaces E m).2.m_FeaMeshInProgress = false
        ∧ (LoadSurfaces E m).2.m_SurfVec = [])
    ∧ LoadSurfaces E m = LoadSurfaces E (CleanUp m)
    ∧ (LoadSurfaces E m).2.m_FeaElementVec = []
    ∧ (LoadSurfaces E m).2.m_ISegChainList = [] := by
  refine ⟨?_, ?_, ?_, (LoadSurfaces_frame E m).1, (LoadSurfaces_frame E m).2.1⟩
  · cases h : E.StructMgr.ValidTotalFeaStructInd m.m_FeaMeshStructIndex
    · rw [LoadSurfaces_invalid E m h]
    · rw [LoadSurfaces_valid_fst E m h]
  · intro h
    rw [LoadSurfaces_invalid E m h]
    exact ⟨rfl, rfl, rfl, rfl, rfl⟩
  · unfold LoadSurfaces
    rw [CleanUp_idem]

/-- C8 at a manager left by an earlier run whose selection index names no
structure. -/
theorem C8_LoadSurfaces_invalid_selection_witness :
    flatStages.StructMgr.ValidTotalFeaStructInd staleMgr.m_FeaMeshStructIndex = false
    ∧ (LoadSurfaces flatStages staleMgr).1 = false
    ∧ (LoadSurfaces flatStages staleMgr).2.m_FeaElementVec = []
    ∧ (LoadSurfaces flatStages staleMgr).2.m_NumFeaParts = 0
    ∧ (LoadSurfaces flatStages staleMgr).2.m_NumFeaSubSurfs = 0
    ∧ (LoadSurfaces flatStages staleMgr).2.m_FeaMeshInProgress = false
    ∧ (LoadSurfaces flatStages staleMgr).2.m_SurfVec = [] :=
  ⟨by decide,
    (C8_LoadSurfaces_invalid_selection flatStages staleMgr).1.2 (by decide),
    (C8_LoadSurfaces_invalid_selection flatStages staleMgr).2.1 (by decide)⟩

/-- C9. `GenerateFeaMesh` aborts on empty geometry.  Whenever the surface list
is empty after `LoadSurfaces` (as it is for an invalid selection), the manager
returned is the one `LoadSurfaces` left, with the generation-in-progress flag
cleared: the element list is empty, and no later stage has run, so the files
and the node list are those held before the call and the output text ends
with the messages of `LoadSurfaces`.  On every path the flag is false when
`GenerateFeaMesh` returns. -/
theorem C9_GenerateFeaMesh_aborts_on_empty_geometry (E : Stages) (m : FeaMeshMgr) :
    ((LoadSurfaces E
          (addOutputText { m with m_FeaMeshInProgress := true } "Load Surfaces\n")).2.m_SurfVec = [] →
        GenerateFeaMesh E m
            = { (LoadSurfaces E
                  (addOutputText { m with m_FeaMeshInProgress := true } "Load Surfaces\n")).2
                with m_FeaMeshInProgress := false }
        ∧ (GenerateFeaMesh E m).m_FeaMeshInProgress = false
        ∧ (GenerateFeaMesh E m).m_FeaElementVec = []
        ∧ (GenerateFeaMesh E m).m_Files = m.m_Files
        ∧ (GenerateFeaMesh E m).m_FeaNodeVec = m.m_FeaNodeVec
        ∧ "Build Fea Mesh\n" ∉ (GenerateFeaMesh E m).m_OutStream.drop m.m_OutStream.length
        ∧ "Tag Fea Nodes\n" ∉ (GenerateFeaMesh E m).m_OutStream.drop m.m_OutStream.length
        ∧ "Exporting Files\n" ∉ (GenerateFeaMesh E m).m_OutStream.drop m.m_OutStream.length)
    ∧ (E.StructMgr.ValidTotalFeaStructInd m.m_FeaMeshStructIndex = false →
        (LoadSurfaces E
          (addOutputText { m with m_FeaMeshInProgress := true } "Load Surfaces\n")).2.m_SurfVec = [])
    ∧ (GenerateFeaMesh E m).m_FeaMeshInProgress = false := by
  refine ⟨?_, ?_, ?_⟩
  · intro h
    have hg := GenerateFeaMesh_abort E m h
    obtain ⟨h1, _, h3, h4⟩ := LoadSurfaces_frame E
      (addOutputText { m with m_FeaMeshInProgress := true } "Load Surfaces\n")
    have hout : (GenerateFeaMesh E m).m_OutStream.drop m.m_OutStream.length = ["Load Surfaces\n"]
        ∨ (GenerateFeaMesh E m).m_OutStream.drop m.m_OutStream.length
            = ["Load Surfaces\n", "FeaMesh Failed: Invalid FeaStructure Selection\n"] := by
      rw [hg]
      rcases LoadSurfaces_out E
        (addOutputText { m with m_FeaMeshInProgress := true } "Load Surfaces\n") with ho | ho
      · left
        show List.drop _ (LoadSurfaces E _).2.m_OutStream = _
        rw [ho]
        simp [addOutputText]
      · right
        show List.drop _ (LoadSurfaces E _).2.m_OutStream = _
        rw [ho]
        simp [addOutputText]
    refine ⟨hg, ?_, ?_, ?_, ?_, ?_, ?_, ?_⟩
    · rw [hg]
    · rw [hg]; exact h1
    · rw [hg]; exact h3
    · rw [hg]; exact h4
    · rcases hout with ho | ho <;> rw [ho] <;> decide
    · rcases hout with ho | ho <;> rw [ho] <;> decide
    · rcases hout with ho | ho <;> rw [ho] <;> decide
  · intro h
    have h1 : E.StructMgr.ValidTotalFeaStructInd
        (addOutputText { m with m_FeaMeshInProgress := true } "Load Surfaces\n").m_FeaMeshStructIndex
          = false := h
    rw [LoadSurfaces_invalid E _ h1]
    rfl
  · unfold GenerateFeaMesh
    simp only []
    split <;> rfl

/-- C9 at a manager left by an earlier run whose selection index names no
structure. -/
theorem C9_GenerateFeaMesh_aborts_on_empty_geometry_witness :
    (LoadSurfaces flatStages
        (addOutputText { staleMgr with m_FeaMeshInProgress := true } "Load Surfaces\n")).2.m_SurfVec = []
    ∧ (GenerateFeaMesh flatStages staleMgr).m_FeaMeshInProgress = false
    ∧ (GenerateFeaMesh flatStages staleMgr).m_FeaElementVec = []
    ∧ (GenerateFeaMesh flatStages staleMgr).m_Files = staleMgr.m_Files :=
  ⟨by decide,
    ((C9_GenerateFeaMesh_aborts_on_empty_geometry flatStages staleMgr).1 (by decide)).2.1,
    ((C9_GenerateFeaMesh_aborts_on_empty_geometry flatStages staleMgr).1 (by decide)).2.2.1,
    ((C9_GenerateFeaMesh_aborts_on_empty_geometry flatStages staleMgr).1 (by decide)).2.2.2.1⟩

theorem addStructurePart_eq (st : FeaStructure) (sv : List Surf) (i : Nat) :
    addStructurePart st.m_FeaPartVec sv i = sv ++ partSurfs st i (-9999 + ((i : Int) - 1)) := by
  unfold addStructurePart partSurfs
  cases st.m_FeaPartVec.get? i with
  | none => simp
  | some p =>
    simp only [LoadSurfs, FeaPart.FetchFeaXFerSurf, List.length_append, List.length_map,
      Nat.add_sub_cancel, List.take_left', List.drop_left', List.map_map]
    rfl

theorem AddStructureParts_surfs (m : FeaMeshMgr) :
    (AddStructureParts m).m_SurfVec
      = m.m_SurfVec ++ (List.range' 1 (m.m_NumFeaParts.toNat - 1)).flatMap
          (fun i => partSurfs m.m_FeaMeshStruct i (-9999 + ((i : Int) - 1))) := by
  unfold AddStructureParts
  simp only []
  rw [show addStructurePart m.m_FeaMeshStruct.m_FeaPartVec
      = fun acc i => acc ++ partSurfs m.m_FeaMeshStruct i (-9999 + ((i : Int) - 1)) from
    funext fun sv => funext fun i => addStructurePart_eq m.m_FeaMeshStruct sv i]
  exact foldl_append_flatMap _ _ _

theorem LoadSkins_skin0 (m : FeaMeshMgr) (h : m.m_FeaMeshStruct.GetFeaSkinIndex = some 0)
    (hs : m.m_SurfVec = []) :
    LoadSkins m = { m with m_SurfVec := partSurfs m.m_FeaMeshStruct 0 0 } := by
  unfold LoadSkins partSurfs
  rw [h]
  simp only []
  cases hp : m.m_FeaMeshStruct.m_FeaPartVec.get? 0 with
  | none =>
    cases m
    simp only at hs
    subst hs
    rfl
  | some p =>
    simp only [hs, LoadSurfs, FeaPart.FetchFeaXFerSurf, List.nil_append, List.map_map]
    rfl

theorem range_filter_ne_zero (n : Nat) :
    (List.range n).filter (fun i => decide (some 0 ≠ some i)) = List.range' 1 (n - 1) := by
  cases n with
  | zero => rfl
  | succ k =>
    rw [List.range_eq_range', List.range'_succ, List.filter_cons]
    simp only [ne_eq, not_true_eq_false, decide_False, Nat.add_sub_cancel, Bool.false_eq_true,
      if_false, Nat.zero_add]
    apply List.filter_eq_self.2
    intro a ha
    rw [List.mem_range'] at ha
    obtain ⟨i, _, hi⟩ := ha
    have : a ≠ 0 := by omega
    simp [Ne.symm this]

theorem map_flatMap_list {α β γ : Type} (f : α → List β) (g : β → γ) (l : List α) :
    (l.flatMap f).map g = l.flatMap (fun x => (f x).map g) := by
  induction l with
  | nil => rfl
  | cons a t ih => simp [List.flatMap_cons, ih]

theorem partSurfs_map_pair (st : FeaStructure) (i : Nat) (compid : Int) :
    (partSurfs st i compid).map (fun s => (s.m_Geo, s.m_FeaPartIndex))
      = (((st.m_FeaPartVec.get? i).map (fun p => p.m_Surfs)).getD []).map
          (fun g => (g, (i : Int))) := by
  unfold partSurfs
  cases st.m_FeaPartVec.get? i with
  | none => rfl
  | some p => simp [List.map_map, Function.comp_def]

theorem LoadSurfaces_valid (E : Stages) (m : FeaMeshMgr) (st : FeaStructure)
    (hv : E.StructMgr.ValidTotalFeaStructInd m.m_FeaMeshStructIndex = true)
    (hst : E.StructMgr.m_AllFeaStructs.get? m.m_FeaMeshStructIndex.toNat = some st) :
    (LoadSurfaces E m).2
      = { LoadSkins { CleanUp m with m_FeaMeshStruct := st
                                     m_NumFeaParts := st.NumFeaParts
                                     m_NumFeaSubSurfs := st.NumFeaSubSurfs } with
          m_SurfVec := E.CleanMergeSurfs
            (LoadSkins { CleanUp m with m_FeaMeshStruct := st
                                        m_NumFeaParts := st.NumFeaParts
                                        m_NumFeaSubSurfs := st.NumFeaSubSurfs }).m_SurfVec } := by
  have h1 : E.StructMgr.ValidTotalFeaStructInd (CleanUp m).m_FeaMeshStructIndex = true := hv
  have h2 : E.StructMgr.m_AllFeaStructs.get? (CleanUp m).m_FeaMeshStructIndex.toNat = some st := hst
  simp only [LoadSurfaces, h1, Bool.not_true, h2]
  rfl

/-- C10 (amended). For a valid selection of a structure whose skin is part 0,
after `LoadSurfaces` followed by `AddStructureParts` the working surface list
is the surfaces of the skin (fetched with component id 0, stamped with part
index 0) as `CleanMergeSurfs` leaves them, followed by the surfaces of the
parts 1, 2, ... in part order, part `i` fetched once with component id
`-9999 + (i - 1)` and stamped with part index `i`.  When `CleanMergeSurfs`
keeps the skin surfaces unchanged this is the intake the specification
describes. -/
theorem C10_surface_intake_skin_first (E : Stages) (m : FeaMeshMgr) (st : FeaStructure)
    (hv : E.StructMgr.ValidTotalFeaStructInd m.m_FeaMeshStructIndex = true)
    (hst : E.StructMgr.m_AllFeaStructs.get? m.m_FeaMeshStructIndex.toNat = some st)
    (hskin : st.GetFeaSkinIndex = some 0) :
    (AddStructureParts (LoadSurfaces E m).2).m_SurfVec
        = E.CleanMergeSurfs (partSurfs st 0 0)
          ++ (List.range' 1 (st.m_FeaPartVec.length - 1)).flatMap
              (fun i => partSurfs st i (-9999 + ((i : Int) - 1)))
    ∧ (E.CleanMergeSurfs (partSurfs st 0 0) = partSurfs st 0 0 →
        (AddStructureParts (LoadSurfaces E m).2).m_SurfVec.map
            (fun s => (s.m_Geo, s.m_FeaPartIndex))
          = specIntake st) := by
  have hload := LoadSurfaces_valid E m st hv hst
  have hskins := LoadSkins_skin0
    { CleanUp m with m_FeaMeshStruct := st
                     m_NumFeaParts := st.NumFeaParts
                     m_NumFeaSubSurfs := st.NumFeaSubSurfs } hskin rfl
  rw [hskins] at hload
  have hmain : (AddStructureParts (LoadSurfaces E m).2).m_SurfVec
        = E.CleanMergeSurfs (partSurfs st 0 0)
          ++ (List.range' 1 (st.m_FeaPartVec.length - 1)).flatMap
              (fun i => partSurfs st i (-9999 + ((i : Int) - 1))) := by
    rw [AddStructureParts_surfs, hload]
    simp [FeaStructure.NumFeaParts]
  refine ⟨hmain, fun hid => ?_⟩
  rw [hmain, hid, List.map_append, map_flatMap_list, partSurfs_map_pair]
  unfold specIntake
  rw [hskin, range_filter_ne_zero]
  simp only [partSurfs_map_pair, Nat.cast_zero]

/-- C10 (amended) at a structure made of a skin and a rib. -/
theorem C10_surface_intake_skin_first_witness :
    flatStages.StructMgr.ValidTotalFeaStructInd freshMgr.m_FeaMeshStructIndex = true
    ∧ ribCapStruct.GetFeaSkinIndex = some 0
    ∧ (AddStructureParts (LoadSurfaces flatStages freshMgr).2).m_SurfVec
        = flatStages.CleanMergeSurfs (partSurfs ribCapStruct 0 0)
          ++ (List.range' 1 (ribCapStruct.m_FeaPartVec.length - 1)).flatMap
              (fun i => partSurfs ribCapStruct i (-9999 + ((i : Int) - 1)))
    ∧ (AddStructureParts (LoadSurfaces flatStages freshMgr).2).m_SurfVec.map
          (fun s => (s.m_Geo, s.m_FeaPartIndex))
        = specIntake ribCapStruct :=
  ⟨by decide, by decide,
    (C10_surface_intake_skin_first flatStages freshMgr ribCapStruct (by decide) rfl
      (by decide)).1,
    (C10_surface_intake_skin_first flatStages freshMgr ribCapStruct (by decide) rfl
      (by decide)).2 rfl⟩

/-- C10 (counterexample). For the valid selection of a structure without a
skin (a rib at index 0 and a spar at index 1), `LoadSurfaces` followed by
`AddStructureParts` loads the surface of the spar only: the rib, a non-skin
part, is never fetched, so the surface list is not the intake the
specification describes. -/
theorem C10_no_skin_part_zero_not_fetched :
    noSkinStages.StructMgr.ValidTotalFeaStructInd freshMgr.m_FeaMeshStructIndex = true
    ∧ noSkinStruct.GetFeaSkinIndex = none
    ∧ (AddStructureParts (LoadSurfaces noSkinStages freshMgr).2).m_SurfVec.map
          (fun s => (s.m_Geo, s.m_FeaPartIndex)) = [(2, 1)]
    ∧ specIntake noSkinStruct = [(1, 0), (2, 1)]
    ∧ (AddStructureParts (LoadSurfaces noSkinStages freshMgr).2).m_SurfVec.map
          (fun s => (s.m_Geo, s.m_FeaPartIndex)) ≠ specIntake noSkinStruct := by
  decide

theorem subSegs_length (l_seg : SSLineSeg) : (subSegs l_seg).length = 100 := by
  simp [subSegs, uwPnts, num_sects]

theorem segChain_valid (surf : Surf) (l_seg : SSLineSeg) :
    ({ newChain surf with m_ISegDeque := subSegs l_seg } : ISegChain).Valid = true := by
  simp [ISegChain.Valid, subSegs_length]

theorem strictlyInside_retained (surf : Surf) (l_seg : SSLineSeg) (h : strictlyInside surf l_seg) :
    belowMin surf l_seg = false ∧ aboveMax surf l_seg = false := by
  obtain ⟨⟨a1, a2⟩, ⟨b1, b2⟩, ⟨c1, c2⟩, ⟨d1, d2⟩⟩ := h
  constructor
  · simp only [belowMin, Bool.or_eq_false_iff, decide_eq_false_iff_not, not_lt]
    exact ⟨⟨⟨le_of_lt a1, le_of_lt b1⟩, le_of_lt c1⟩, le_of_lt d1⟩
  · simp only [aboveMax, Bool.or_eq_false_iff, decide_eq_false_iff_not, not_lt, gt_iff_lt]
    exact ⟨⟨⟨le_of_lt a2, le_of_lt b2⟩, le_of_lt c2⟩, le_of_lt d2⟩

/-- One pass of the segment loop for a polygonal sub-surface on a retained
segment, entered with `new_chain` set: the chain under construction is
finished and a new chain holding the sub-segments of the segment is begun. -/
theorem segStep_poly (surf : Surf) (cap : Bool) (ss : Nat) (st : ChainLoop) (l_seg : SSLineSeg)
    (hn : st.new_chain = true)
    (h1 : belowMin surf l_seg = false) (h2 : aboveMax surf l_seg = false)
    (h3 : onSameEdge surf l_seg = false) :
    segStep surf true cap ss st l_seg
      = { chain := some { newChain surf with m_ISegDeque := subSegs l_seg }
          new_chain := true
          m_ISegChainList := (finishChain cap ss st).m_ISegChainList } := by
  have hfin : (if st.new_chain && st.chain.isSome then finishChain cap ss st else st)
      = finishChain cap ss st := by
    cases hc : st.chain with
    | none => simp [hn, hc, finishChain]
    | some c => simp [hn, hc]
  have hnc : (finishChain cap ss st).new_chain = true := by
    unfold finishChain
    cases st.chain with
    | none => exact hn
    | some c =>
      simp only []
      split <;> exact hn
  unfold segStep
  simp only [hfin, hnc, h1, h2, h3, if_true, Bool.not_true, Bool.false_and, Bool.false_eq_true,
    if_false, Option.map_some']
  rfl

theorem finishChain_segChain (surf : Surf) (cap : Bool) (ss : Nat) (l_seg : SSLineSeg)
    (l : List ISegChain) :
    (finishChain cap ss
        { chain := some { newChain surf with m_ISegDeque := subSegs l_seg }
          new_chain := true
          m_ISegChainList := l }).m_ISegChainList
      = l ++ [segChain surf cap ss l_seg] := by
  unfold finishChain
  simp only [segChain_valid surf l_seg, if_true]
  cases cap <;> rfl

/-- Chains of a polygonal sub-surface whose segments are all retained: one
chain per boundary segment, in segment order. -/
theorem polyLoop_chains (surf : Surf) (cap : Bool) (ss : Nat) (segs : List SSLineSeg)
    (hr : ∀ seg ∈ segs, belowMin surf seg = false ∧ aboveMax surf seg = false
      ∧ onSameEdge surf seg = false) :
    ∀ st : ChainLoop, st.new_chain = true →
      (finishChain cap ss (segs.foldl (segStep surf true cap ss) st)).m_ISegChainList
        = (finishChain cap ss st).m_ISegChainList ++ segs.map (segChain surf cap ss) := by
  induction segs with
  | nil => intro st _; simp
  | cons seg rest ih =>
    intro st hn
    obtain ⟨h1, h2, h3⟩ := hr seg (List.mem_cons_self _ _)
    rw [List.foldl_cons, segStep_poly surf cap ss st seg hn h1 h2 h3]
    rw [ih (fun s hs => hr s (List.mem_cons_of_mem _ hs)) _ rfl]
    rw [finishChain_segChain]
    simp

theorem buildSubSurfChains_poly (surf : Surf) (cap : Bool) (ss : Nat) (segs : List SSLineSeg)
    (chains : List ISegChain)
    (hr : ∀ seg ∈ segs, belowMin surf seg = false ∧ aboveMax surf seg = false
      ∧ onSameEdge surf seg = false) :
    buildSubSurfChains surf true cap ss segs chains
      = chains ++ segs.map (segChain surf cap ss) := by
  unfold buildSubSurfChains
  simp only []
  rw [polyLoop_chains surf cap ss segs hr _ rfl]
  rfl

theorem subSegs_head (l_seg : SSLineSeg) :
    (subSegs l_seg).head?.map (fun s => s.m_UW0) = some l_seg.m_P0 := by
  simp [subSegs, uwPnts, num_sects, List.range', List.getD]

theorem subSegs_last (l_seg : SSLineSeg) :
    (subSegs l_seg).getLast?.map (fun s => s.m_UW1) = some l_seg.m_P1 := by
  rw [List.getLast?_eq_getElem?, subSegs_length]
  simp [subSegs, uwPnts, num_sects, List.getElem?_map, List.getElem?_range', List.getD]

theorem triangleSegs_retained :
    ∀ seg ∈ triangleSegs, belowMin hostSurf seg = false ∧ aboveMax hostSurf seg = false
      ∧ onSameEdge hostSurf seg = false := by
  intro seg hseg
  simp only [triangleSegs, List.mem_cons, List.mem_singleton, List.not_mem_nil, or_false] at hseg
  rcases hseg with h | h | h <;> subst h <;>
    simp [belowMin, aboveMax, onSameEdge, hostSurf, tol, roundDouble_one, roundDouble_two,
      roundDouble_three, roundDouble_neg_one, roundDouble_neg_two, roundDouble_neg_three] <;>
    norm_num [abs_lt, roundDouble_one, roundDouble_two, roundDouble_three, roundDouble_neg_one,
      roundDouble_neg_two, roundDouble_neg_three]

theorem nearEdgeSeg_onSameEdge : onSameEdge hostSurf nearEdgeSeg = true := by
  have e0 : nearEdgeSeg.m_P0.u - hostSurf.m_MaxU = -(1 / 10000000) := by
    norm_num [nearEdgeSeg, hostSurf]
  have e1 : nearEdgeSeg.m_P1.u - hostSurf.m_MaxU = -(1 / 10000000) := by
    norm_num [nearEdgeSeg, hostSurf]
  have hlt : |roundDouble (-(1 / 10000000))| < tol := by
    rw [roundDouble_near_edge]
    norm_num [tol, abs_lt]
  unfold onSameEdge
  rw [e0, e1]
  simp only [hlt, decide_True, Bool.and_self, Bool.true_or]

theorem buildSubSurfChains_on_edge (surf : Surf) (cap : Bool) (ss : Nat) (seg : SSLineSeg)
    (h1 : belowMin surf seg = false) (h2 : aboveMax surf seg = false)
    (h3 : onSameEdge surf seg = true) :
    buildSubSurfChains surf true cap ss [seg] [] = [] := by
  simp [buildSubSurfChains, segStep, finishChain, h1, h2, h3, newChain, ISegChain.Valid]

theorem triangleSegs_inside : ∀ seg ∈ triangleSegs, strictlyInside hostSurf seg := by
  intro seg hseg
  simp only [triangleSegs, List.mem_cons, List.mem_singleton, List.not_mem_nil, or_false] at hseg
  rcases hseg with h | h | h <;> subst h <;> simp [strictlyInside, hostSurf] <;> norm_num

/-- C7 (counterexample). A closed triangular sub-surface boundary strictly
inside the domain of the host surface yields three chains, not one, and none
of them is closed: each runs from the start of its boundary segment to the
end of it.  A segment strictly inside the domain with both end points within
the tolerance of one domain edge yields no chain at all. -/
theorem C7_triangle_yields_three_open_chains :
    (∀ seg ∈ triangleSegs, strictlyInside hostSurf seg)
    ∧ (buildSubSurfChains hostSurf true true 0 triangleSegs []).length = 3
    ∧ (∀ c ∈ buildSubSurfChains hostSurf true true 0 triangleSegs [],
        c.m_ISegDeque.head?.map (fun s => s.m_UW0)
          ≠ c.m_ISegDeque.getLast?.map (fun s => s.m_UW1))
    ∧ strictlyInside hostSurf nearEdgeSeg
    ∧ buildSubSurfChains hostSurf true true 0 [nearEdgeSeg] [] = [] := by
  refine ⟨triangleSegs_inside, ?_, ?_, ?_, ?_⟩
  · rw [buildSubSurfChains_poly hostSurf true 0 triangleSegs [] triangleSegs_retained]
    rfl
  · rw [buildSubSurfChains_poly hostSurf true 0 triangleSegs [] triangleSegs_retained]
    intro c hc
    simp only [List.nil_append, List.mem_map] at hc
    obtain ⟨seg, hseg, rfl⟩ := hc
    show (subSegs seg).head?.map (fun s => s.m_UW0) ≠ (subSegs seg).getLast?.map (fun s => s.m_UW1)
    rw [subSegs_head, subSegs_last]
    simp only [triangleSegs, List.mem_cons, List.mem_singleton, List.not_mem_nil, or_false] at hseg
    rcases hseg with h | h | h <;> subst h <;> simp [vec2d.mk.injEq]
  · simp [strictlyInside, hostSurf, nearEdgeSeg]
    norm_num
  · have h1 : belowMin hostSurf nearEdgeSeg = false := by
      simp [belowMin, hostSurf, nearEdgeSeg]
      norm_num
    have h2 : aboveMax hostSurf nearEdgeSeg = false := by
      simp [aboveMax, hostSurf, nearEdgeSeg]
      norm_num
    exact buildSubSurfChains_on_edge hostSurf true 0 nearEdgeSeg h1 h2 nearEdgeSeg_onSameEdge

/-- C7 (amended). For a polygonal sub-surface whose boundary segments all lie
strictly inside the parametric domain of the host surface, no segment having
both end points within the tolerance of the same domain edge,
`BuildSubSurfIntChains` appends exactly one chain per boundary segment, in
segment order.  Each chain has the host surface on both sides, holds the 100
sub-segments of its segment, starts at the first end point of the segment and
ends at the last one, and its sub-surface-intersection index is the index of
the sub-surface when the sub-surface is cap-flagged. -/
theorem C7_polygon_one_chain_per_segment (surf : Surf) (cap : Bool) (ss : Nat)
    (segs : List SSLineSeg) (chains : List ISegChain)
    (hin : ∀ seg ∈ segs, strictlyInside surf seg)
    (hedge : ∀ seg ∈ segs, onSameEdge surf seg = false) :
    buildSubSurfChains surf true cap ss segs chains
        = chains ++ segs.map (segChain surf cap ss)
    ∧ (buildSubSurfChains surf true cap ss segs chains).length = chains.length + segs.length
    ∧ ∀ seg : SSLineSeg,
        (segChain surf cap ss seg).m_SurfA = surf
        ∧ (segChain surf cap ss seg).m_SurfB = surf
        ∧ (segChain surf cap ss seg).m_ISegDeque.length = 100
        ∧ (segChain surf cap ss seg).m_ISegDeque.head?.map (fun s => s.m_UW0) = some seg.m_P0
        ∧ (segChain surf cap ss seg).m_ISegDeque.getLast?.map (fun s => s.m_UW1) = some seg.m_P1
        ∧ (cap = true → (segChain surf cap ss seg).m_SSIntersectIndex = (ss : Int)) := by
  have hr : ∀ seg ∈ segs, belowMin surf seg = false ∧ aboveMax surf seg = false
      ∧ onSameEdge surf seg = false := fun seg hs =>
    ⟨(strictlyInside_retained surf seg (hin seg hs)).1,
      (strictlyInside_retained surf seg (hin seg hs)).2, hedge seg hs⟩
  have hb := buildSubSurfChains_poly surf cap ss segs chains hr
  refine ⟨hb, by rw [hb]; simp, fun seg => ⟨rfl, rfl, subSegs_length seg, subSegs_head seg,
    subSegs_last seg, fun hc => ?_⟩⟩
  simp [segChain, hc]

/-- C7 (amended) at a triangular boundary inside the domain of the host
surface. -/
theorem C7_polygon_one_chain_per_segment_witness :
    (∀ seg ∈ triangleSegs, strictlyInside hostSurf seg)
    ∧ (∀ seg ∈ triangleSegs, onSameEdge hostSurf seg = false)
    ∧ buildSubSurfChains hostSurf true true 0 triangleSegs []
        = [] ++ triangleSegs.map (segChain hostSurf true 0)
    ∧ (buildSubSurfChains hostSurf true true 0 triangleSegs []).length
        = ([] : List ISegChain).length + triangleSegs.length :=
  ⟨triangleSegs_inside, fun seg hs => (triangleSegs_retained seg hs).2.2,
    (C7_polygon_one_chain_per_segment hostSurf true 0 triangleSegs [] triangleSegs_inside
      (fun seg hs => (triangleSegs_retained seg hs).2.2)).1,
    (C7_polygon_one_chain_per_segment hostSurf true 0 triangleSegs [] triangleSegs_inside
      (fun seg hs => (triangleSegs_retained seg hs).2.2)).2.1⟩

theorem foldl_snoc_map {α β : Type} (f : α → β) (l : List α) (init : List β) :
    l.foldl (fun acc x => acc ++ [f x]) init = init ++ l.map f := by
  induction l generalizing init with
  | nil => simp
  | cons a t ih => simp [List.foldl_cons, ih]

theorem buildFeaTris_eq (K : Kernel) (n : Int) (surfs : List Surf) (elems : List FeaElement) :
    buildFeaTris K n surfs elems
      = elems ++ surfs.flatMap (fun s => s.m_SimpTriVec.map (buildTri K n s)) := by
  unfold buildFeaTris
  simp only [foldl_snoc_map]
  exact foldl_append_flatMap _ _ _

theorem buildTri_type (K : Kernel) (n : Int) (s : Surf) (t : SimpTri) :
    (buildTri K n s t).m_ElementType = ElementType.FEA_TRI_6
    ∧ (buildTri K n s t).m_Corners
        = [s.m_SimpPntVec.getD t.ind0 vec3d.zero, s.m_SimpPntVec.getD t.ind1 vec3d.zero,
           s.m_SimpPntVec.getD t.ind2 vec3d.zero]
    ∧ (buildTri K n s t).m_FeaPartIndex = s.m_FeaPartIndex := by
  unfold buildTri
  simp only []
  split <;> exact ⟨rfl, rfl, rfl⟩

theorem defineBeams_type (idx : Int) (p nrm : List vec3d) (s : List Int) :
    ∀ e ∈ defineBeams idx p nrm s, e.m_ElementType = ElementType.FEA_BEAM := by
  intro e he
  simp only [defineBeams, List.mem_map] at he
  obtain ⟨j, _, rfl⟩ := he
  rfl

theorem chainBeams_type (K : Kernel) (st : FeaStructure) (c : ISegChain) :
    ∀ e ∈ chainBeams K st c, e.m_ElementType = ElementType.FEA_BEAM := by
  intro e he
  unfold chainBeams at he
  simp only [] at he
  split_ifs at he <;> first | exact defineBeams_type _ _ _ _ e he | simp at he

theorem flatMap_chainBeams_type (K : Kernel) (st : FeaStructure) (chains : List ISegChain) :
    ∀ e ∈ chains.flatMap (chainBeams K st), e.m_ElementType = ElementType.FEA_BEAM := by
  intro e he
  rw [List.mem_flatMap] at he
  obtain ⟨c, _, hc⟩ := he
  exact chainBeams_type K st c e hc

theorem flatMap_buildTri_type (K : Kernel) (n : Int) (surfs : List Surf) :
    ∀ e ∈ surfs.flatMap (fun s => s.m_SimpTriVec.map (buildTri K n s)),
      e.m_ElementType = ElementType.FEA_TRI_6 := by
  intro e he
  simp only [List.mem_flatMap, List.mem_map] at he
  obtain ⟨s, _, t, _, rfl⟩ := he
  exact (buildTri_type K n s t).1

theorem buildFeaMesh_eq (K : Kernel) (st : FeaStructure) (n : Int) (surfs : List Surf)
    (chains : List ISegChain) (elems : List FeaElement) :
    buildFeaMesh K st n surfs chains elems
      = elems ++ surfs.flatMap (fun s => s.m_SimpTriVec.map (buildTri K n s))
          ++ chains.flatMap (chainBeams K st) := by
  simp only [buildFeaMesh, buildFeaBeams, foldl_append_flatMap, buildFeaTris_eq]

/-- C11. `BuildFeaMesh` appends one triangle element per simplified triangle
of every surface, in surface order then triangle order, and after them the
beams of the chains.  The corners of a triangle element are the Cartesian
points at the three indices of its triangle and its part index is the part
index of the surface.  So the number of triangle elements appended is the sum
of the lengths of the triangle lists, every element of the beam part is a
beam, and from an empty element list the triangles of the result are that
many. -/
theorem C11_one_triangle_element_per_triangle (K : Kernel) (st : FeaStructure) (n : Int)
    (surfs : List Surf) (chains : List ISegChain) (elems : List FeaElement) :
    buildFeaMesh K st n surfs chains elems
        = elems ++ surfs.flatMap (fun s => s.m_SimpTriVec.map (buildTri K n s))
            ++ chains.flatMap (chainBeams K st)
    ∧ (∀ (s : Surf) (t : SimpTri),
        (buildTri K n s t).m_ElementType = ElementType.FEA_TRI_6
        ∧ (buildTri K n s t).m_Corners
            = [s.m_SimpPntVec.getD t.ind0 vec3d.zero, s.m_SimpPntVec.getD t.ind1 vec3d.zero,
               s.m_SimpPntVec.getD t.ind2 vec3d.zero]
        ∧ (buildTri K n s t).m_FeaPartIndex = s.m_FeaPartIndex)
    ∧ (surfs.flatMap (fun s => s.m_SimpTriVec.map (buildTri K n s))).length
        = (surfs.map (fun s => s.m_SimpTriVec.length)).sum
    ∧ (∀ e ∈ chains.flatMap (chainBeams K st), e.m_ElementType = ElementType.FEA_BEAM)
    ∧ ((buildFeaMesh K st n surfs chains []).filter
          (fun e => decide (e.m_ElementType = ElementType.FEA_TRI_6))).length
        = (surfs.map (fun s => s.m_SimpTriVec.length)).sum := by
  have hlen : (surfs.flatMap (fun s => s.m_SimpTriVec.map (buildTri K n s))).length
      = (surfs.map (fun s => s.m_SimpTriVec.length)).sum := by
    induction surfs with
    | nil => rfl
    | cons s t ih => simp [List.flatMap_cons, ih]
  refine ⟨buildFeaMesh_eq K st n surfs chains elems, buildTri_type K n, hlen,
    flatMap_chainBeams_type K st chains, ?_⟩
  rw [buildFeaMesh_eq, List.nil_append, List.filter_append]
  rw [List.filter_eq_self.2, List.filter_eq_nil_iff.2, List.append_nil, hlen]
  · intro e he
    rw [flatMap_chainBeams_type K st chains e he]
    decide
  · intro e he
    rw [flatMap_buildTri_type K n surfs e he]
    decide

/-- C12. A triangle element gets a sub-surface index exactly when its source
triangle carries more than one tag: the index is then the single tag number of
the tag list minus `NumFeaParts` minus 1, and a triangle with zero or one tag
keeps the default index -1. -/
theorem C12_triangle_subsurface_index (K : Kernel) (n : Int) (s : Surf) (t : SimpTri) :
    (buildTri K n s t).m_FeaSSIndex
        = (if 1 < t.m_Tags.length then K.GetTag t.m_Tags - n - 1 else -1)
    ∧ (buildTri K n s { t with m_Tags := [] }).m_FeaSSIndex = -1
    ∧ (∀ a : Int, (buildTri K n s { t with m_Tags := [a] }).m_FeaSSIndex = -1)
    ∧ (∀ a b : Int, ∀ l : List Int,
        (buildTri K n s { t with m_Tags := a :: b :: l }).m_FeaSSIndex
          = K.GetTag (a :: b :: l) - n - 1) := by
  refine ⟨?_, ?_, ?_, ?_⟩
  · unfold buildTri
    simp only [gt_iff_lt]
    split <;> rfl
  · simp [buildTri]
  · intro a
    simp [buildTri]
  · intro a b l
    simp [buildTri]

theorem AddTag_frame (n : FeaNode) (i : Int) :
    (n.AddTag i).m_Pnt = n.m_Pnt ∧ (n.AddTag i).m_Index = n.m_Index := by
  unfold FeaNode.AddTag
  split <;> exact ⟨rfl, rfl⟩

/-- A sequence of tag statements changes neither the point nor the index of
a node record, and keeps every record in place. -/
theorem tagOps_frame (ops : List (Nat × Int)) :
    ∀ (nv : List FeaNode) (k : Nat),
      (∀ n1, (ops.foldl (fun nv2 o => tagNodeAt nv2 o.1 o.2) nv)[k]? = some n1 →
        ∃ n, nv[k]? = some n ∧ n1.m_Pnt = n.m_Pnt ∧ n1.m_Index = n.m_Index)
      ∧ (∀ n, nv[k]? = some n →
        ∃ n1, (ops.foldl (fun nv2 o => tagNodeAt nv2 o.1 o.2) nv)[k]? = some n1) := by
  induction ops with
  | nil =>
    intro nv k
    exact ⟨fun n1 h => ⟨n1, h, rfl, rfl⟩, fun n h => ⟨n, h⟩⟩
  | cons o rest ih =>
    intro nv k
    rw [List.foldl_cons]
    obtain ⟨ih1, ih2⟩ := ih (tagNodeAt nv o.1 o.2) k
    constructor
    · intro n1 h
      obtain ⟨n2, h2, hp, hi⟩ := ih1 n1 h
      rw [tagNodeAt_getElem?] at h2
      by_cases hk : k = o.1
      · rw [if_pos hk] at h2
        cases hn : nv[k]? with
        | none => rw [hn] at h2; exact Option.noConfusion h2
        | some n =>
          rw [hn] at h2
          simp only [Option.map_some'] at h2
          have h2' : n2 = n.AddTag o.2 := (Option.some.inj h2).symm
          refine ⟨n, rfl, ?_, ?_⟩
          · rw [hp, h2']; exact (AddTag_frame n o.2).1
          · rw [hi, h2']; exact (AddTag_frame n o.2).2
      · rw [if_neg hk] at h2
        exact ⟨n2, h2, hp, hi⟩
    · intro n hn
      apply ih2 (if k = o.1 then n.AddTag o.2 else n)
      rw [tagNodeAt_getElem?, hn]
      by_cases hk : k = o.1 <;> simp [hk]

/-- Point and index of the node records after `TagFeaNodes`: record `k` holds
the `k`-th point of the pool and the index `shift[c] + 1`, where `c` is the
coincidence-map index of that point. -/
theorem tagFeaNodes_index (X : PntIndex) (N : Int) (elems : List FeaElement) (k : Nat) :
    (∀ n, (tagFeaNodes X N elems).m_FeaNodeVec[k]? = some n →
      (allPntVec elems)[k]? = some n.m_Pnt
      ∧ n.m_Index = (pntShift X elems).getD (coincidentIndex X elems n.m_Pnt) 0 + 1)
    ∧ (∀ p, (allPntVec elems)[k]? = some p →
      ∃ n, (tagFeaNodes X N elems).m_FeaNodeVec[k]? = some n ∧ n.m_Pnt = p) := by
  have hfold : ∀ nv : List FeaNode,
      (List.range (toUnsigned N)).foldl (fun nv1 i =>
        (partNodes elems i).foldl (fun nv2 n =>
          tagNodeAt nv2 (coincidentIndex X elems n.m_Pnt) (toSigned i)) nv1) nv
      = ((List.range (toUnsigned N)).flatMap (fun i => (partNodes elems i).map
          (fun n => (coincidentIndex X elems n.m_Pnt, toSigned i)))).foldl
          (fun nv2 o => tagNodeAt nv2 o.1 o.2) nv :=
    fun nv => tag_loops_eq (fun p => coincidentIndex X elems p) (partNodes elems) _ nv
  have hnodes : (tagFeaNodes X N elems).m_FeaNodeVec
      = ((List.range (toUnsigned N)).flatMap (fun i => (partNodes elems i).map
          (fun n => (coincidentIndex X elems n.m_Pnt, toSigned i)))).foldl
          (fun nv2 o => tagNodeAt nv2 o.1 o.2)
          ((elems.foldl (fun nv e => LoadNodes e nv) []).map fun n =>
            { n with m_Tags := []
                     m_Index := (pntShift X elems).getD (coincidentIndex X elems n.m_Pnt) 0 + 1 }) :=
    hfold _
  rw [hnodes]
  obtain ⟨h1, h2⟩ := tagOps_frame
    ((List.range (toUnsigned N)).flatMap (fun i => (partNodes elems i).map
      (fun n => (coincidentIndex X elems n.m_Pnt, toSigned i))))
    ((elems.foldl (fun nv e => LoadNodes e nv) []).map fun n =>
      { n with m_Tags := []
               m_Index := (pntShift X elems).getD (coincidentIndex X elems n.m_Pnt) 0 + 1 }) k
  constructor
  · intro n hn
    obtain ⟨n0, hn0, hp, hi⟩ := h1 n hn
    rw [List.getElem?_map] at hn0
    cases h : (elems.foldl (fun nv e => LoadNodes e nv) [])[k]? with
    | none => rw [h] at hn0; exact Option.noConfusion hn0
    | some a =>
      rw [h] at hn0
      simp only [Option.map_some'] at hn0
      have hn0' := (Option.some.inj hn0).symm
      subst hn0'
      simp only at hp hi
      refine ⟨?_, ?_⟩
      · simp only [allPntVec, List.getElem?_map, h, Option.map_some', hp]
      · rw [hi, hp]
  · intro p hp
    simp only [allPntVec, List.getElem?_map] at hp
    cases h : (elems.foldl (fun nv e => LoadNodes e nv) [])[k]? with
    | none => rw [h] at hp; exact Option.noConfusion hp
    | some a =>
      rw [h] at hp
      simp only [Option.map_some'] at hp
      obtain ⟨n1, hn1⟩ := h2 _ (by rw [List.getElem?_map, h]; rfl)
      obtain ⟨n0, hn0, hp0, _⟩ := h1 n1 hn1
      rw [List.getElem?_map, h] at hn0
      simp only [Option.map_some'] at hn0
      refine ⟨n1, hn1, ?_⟩
      rw [hp0, ← Option.some.inj hn0]
      exact Option.some.inj hp

/-- C13 (counterexample). A triangle of part 0 and a beam of part 1 share the
corner `(0, 0, 0)`.  The record collected for the beam's copy of that corner
(position 3, shift -999: merged into record 0) carries no tag after
`TagFeaNodes`, although elements of parts 0 and 1 reference its point; the
tags 0 and 1 are on record 0 only. -/
theorem C13_merged_record_has_no_tag :
    (tagFeaNodes exactPntIndex 2 junctionElems).m_FeaNodeVec[3]?
        = some { m_Pnt := ⟨0, 0, 0⟩, m_Index := 1, m_Tags := [] }
    ∧ (tagFeaNodes exactPntIndex 2 junctionElems).m_PntShift[3]? = some (-999)
    ∧ (tagFeaNodes exactPntIndex 2 junctionElems).m_FeaNodeVec[0]?
        = some { m_Pnt := ⟨0, 0, 0⟩, m_Index := 1, m_Tags := [0, 1] }
    ∧ (∃ e ∈ junctionElems, e.m_FeaPartIndex = 0 ∧ (⟨0, 0, 0⟩ : vec3d) ∈ e.m_Corners)
    ∧ (∃ e ∈ junctionElems, e.m_FeaPartIndex = 1 ∧ (⟨0, 0, 0⟩ : vec3d) ∈ e.m_Corners) := by
  decide

/-- C13 (amended). After `TagFeaNodes`, for every node record `k` of the node
list: if `k` is the coincidence-map index of the record's own point (the
record is the canonical one), its tag set is the set of the part indices `i`
with `0 ≤ i < NumFeaParts` of the elements having a corner with the same
coincidence-map index as the record's point; if `k` is the coincidence-map
index of no corner (the record was merged into another), its tag set is empty.
The part count and the part indices are machine integers. -/
theorem C13_canonical_record_tags (X : PntIndex) (N : Int) (elems : List FeaElement)
    (hN : 0 ≤ N ∧ N < 2 ^ 31)
    (hE : ∀ e ∈ elems, -2 ^ 31 ≤ e.m_FeaPartIndex ∧ e.m_FeaPartIndex < 2 ^ 31)
    (k : Nat) (n : FeaNode) (hk : (tagFeaNodes X N elems).m_FeaNodeVec[k]? = some n) :
    (coincidentIndex X elems n.m_Pnt = k →
      ∀ i : Int, i ∈ n.m_Tags ↔
        (0 ≤ i ∧ i < N ∧ ∃ e ∈ elems, e.m_FeaPartIndex = i ∧
          ∃ p ∈ e.m_Corners, coincidentIndex X elems p = coincidentIndex X elems n.m_Pnt))
    ∧ ((∀ e ∈ elems, ∀ p ∈ e.m_Corners, coincidentIndex X elems p ≠ k) → n.m_Tags = []) := by
  obtain ⟨_, hmem⟩ := tagFeaNodes_tags X N elems k n hk
  have hU : toUnsigned N = N.toNat := toUnsigned_nonneg N hN
  constructor
  · intro hc t
    rw [hmem t, hc]
    constructor
    · rintro ⟨i, hi, ht, e, he, hei, hp⟩
      have hi31 : i < 2 ^ 31 := by omega
      have hts : t = (i : Int) := by rw [ht, toSigned_small i hi31]
      refine ⟨by omega, by omega, e, he, ?_, hp⟩
      rw [hts]
      exact (toUnsigned_eq_iff _ i (hE e he) hi31).1 hei
    · rintro ⟨h0, hlt, e, he, hei, hp⟩
      have hi31 : t.toNat < 2 ^ 31 := by omega
      refine ⟨t.toNat, by omega, ?_, e, he, ?_, hp⟩
      · rw [toSigned_small _ hi31]; omega
      · rw [toUnsigned_eq_iff _ _ (hE e he) hi31]; omega
  · intro hno
    apply List.eq_nil_iff_forall_not_mem.2
    intro t ht
    obtain ⟨i, _, _, e, he, _, p, hp, hpk⟩ := (hmem t).1 ht
    exact hno e he p hp hpk

/-- C13 (amended) at the canonical record 0 and at the merged record 3 of a
triangle of part 0 and a beam of part 1 sharing two corners. -/
theorem C13_canonical_record_tags_witness :
    ((0 : Int) ≤ 2 ∧ (2 : Int) < 2 ^ 31)
    ∧ (∀ e ∈ junctionElems, -2 ^ 31 ≤ e.m_FeaPartIndex ∧ e.m_FeaPartIndex < 2 ^ 31)
    ∧ (tagFeaNodes exactPntIndex 2 junctionElems).m_FeaNodeVec[0]?
        = some { m_Pnt := ⟨0, 0, 0⟩, m_Index := 1, m_Tags := [0, 1] }
    ∧ coincidentIndex exactPntIndex junctionElems ⟨0, 0, 0⟩ = 0
    ∧ (∀ i : Int, i ∈ [(0 : Int), 1] ↔
        (0 ≤ i ∧ i < 2 ∧ ∃ e ∈ junctionElems, e.m_FeaPartIndex = i ∧
          ∃ p ∈ e.m_Corners, coincidentIndex exactPntIndex junctionElems p
            = coincidentIndex exactPntIndex junctionElems ⟨0, 0, 0⟩)) :=
  ⟨by decide, by decide, by decide, by decide,
    (C13_canonical_record_tags exactPntIndex 2 junctionElems (by decide) (by decide) 0
      { m_Pnt := ⟨0, 0, 0⟩, m_Index := 1, m_Tags := [0, 1] } (by decide)).1 (by decide)⟩

/-- C14. Node numbering.  `TagFeaNodes` gives every node record the index
`shift[c] + 1`, where `c` is the coincidence-map index of its point.  Given a
shift table that numbers the unique points (the coincidence-map indices of the
pool) one-to-one onto `0 .. numPnts - 1`, two records get the same index if and
only if their points have the same coincidence-map index, and the indices in
use are exactly `1 .. numPnts`. -/
theorem C14_node_numbering (X : PntIndex) (N : Int) (elems : List FeaElement)
    (hinj : ∀ p ∈ allPntVec elems, ∀ q ∈ allPntVec elems,
      (pntShift X elems).getD (coincidentIndex X elems p) 0
        = (pntShift X elems).getD (coincidentIndex X elems q) 0 →
      coincidentIndex X elems p = coincidentIndex X elems q)
    (hrange : ∀ p ∈ allPntVec elems,
      0 ≤ (pntShift X elems).getD (coincidentIndex X elems p) 0
      ∧ (pntShift X elems).getD (coincidentIndex X elems p) 0 < numPnts X elems)
    (hsurj : ∀ v ∈ List.range (numPnts X elems).toNat, ∃ p ∈ allPntVec elems,
      (pntShift X elems).getD (coincidentIndex X elems p) 0 = (v : Int)) :
    (∀ n ∈ (tagFeaNodes X N elems).m_FeaNodeVec,
      n.m_Index = (pntShift X elems).getD (coincidentIndex X elems n.m_Pnt) 0 + 1)
    ∧ (∀ n ∈ (tagFeaNodes X N elems).m_FeaNodeVec, ∀ n2 ∈ (tagFeaNodes X N elems).m_FeaNodeVec,
        (n.m_Index = n2.m_Index
          ↔ coincidentIndex X elems n.m_Pnt = coincidentIndex X elems n2.m_Pnt))
    ∧ (∀ v : Int, (∃ n ∈ (tagFeaNodes X N elems).m_FeaNodeVec, n.m_Index = v)
        ↔ (1 ≤ v ∧ v ≤ numPnts X elems)) := by
  have hnode : ∀ n ∈ (tagFeaNodes X N elems).m_FeaNodeVec,
      n.m_Pnt ∈ allPntVec elems
      ∧ n.m_Index = (pntShift X elems).getD (coincidentIndex X elems n.m_Pnt) 0 + 1 := by
    intro n hn
    obtain ⟨k, hk⟩ := List.mem_iff_getElem?.1 hn
    obtain ⟨h1, h2⟩ := (tagFeaNodes_index X N elems k).1 n hk
    exact ⟨List.mem_iff_getElem?.2 ⟨k, h1⟩, h2⟩
  refine ⟨fun n hn => (hnode n hn).2, ?_, ?_⟩
  · intro n hn n2 hn2
    obtain ⟨hp, hi⟩ := hnode n hn
    obtain ⟨hp2, hi2⟩ := hnode n2 hn2
    rw [hi, hi2]
    constructor
    · intro h
      exact hinj _ hp _ hp2 (by omega)
    · intro h
      rw [h]
  · intro v
    constructor
    · rintro ⟨n, hn, rfl⟩
      obtain ⟨hp, hi⟩ := hnode n hn
      obtain ⟨h0, h1⟩ := hrange _ hp
      omega
    · rintro ⟨h1, h2⟩
      obtain ⟨p, hp, hs⟩ := hsurj (v - 1).toNat (List.mem_range.2 (by omega))
      obtain ⟨k, hk⟩ := List.mem_iff_getElem?.1 hp
      obtain ⟨n, hn, hnp⟩ := (tagFeaNodes_index X N elems k).2 p hk
      refine ⟨n, List.mem_iff_getElem?.2 ⟨k, hn⟩, ?_⟩
      rw [((tagFeaNodes_index X N elems k).1 n hn).2, hnp, hs]
      omega

/-- C14 at a triangle and a beam sharing two corners: three unique points. -/
theorem C14_node_numbering_witness :
    (∀ p ∈ allPntVec junctionElems, ∀ q ∈ allPntVec junctionElems,
      (pntShift exactPntIndex junctionElems).getD (coincidentIndex exactPntIndex junctionElems p) 0
        = (pntShift exactPntIndex junctionElems).getD
            (coincidentIndex exactPntIndex junctionElems q) 0 →
      coincidentIndex exactPntIndex junctionElems p
        = coincidentIndex exactPntIndex junctionElems q)
    ∧ numPnts exactPntIndex junctionElems = 3
    ∧ (∀ v : Int, (∃ n ∈ (tagFeaNodes exactPntIndex 2 junctionElems).m_FeaNodeVec, n.m_Index = v)
        ↔ (1 ≤ v ∧ v ≤ numPnts exactPntIndex junctionElems)) :=
  ⟨by decide, by decide,
    (C14_node_numbering exactPntIndex 2 junctionElems (by decide) (by decide) (by decide)).2.2⟩

/-- A chain with the same surface on both sides and a negative
sub-surface-intersection index yields no beam. -/
theorem chainBeams_same_surf_unmarked (K : Kernel) (st : FeaStructure) (c : ISegChain)
    (hAB : c.m_SurfA = c.m_SurfB) (hI : c.m_SSIntersectIndex < 0) :
    chainBeams K st c = [] := by
  have hI2 : ¬ c.m_SSIntersectIndex ≥ 0 := not_le.mpr hI
  unfold chainBeams
  simp only [← hAB]
  cases c.m_BorderFlag
  · by_cases h : c.m_SurfA.m_CompID < 0
    · have h2 : ¬ c.m_SurfA.m_CompID ≥ 0 := not_le.mpr h
      simp [h, h2]
    · have h2 : c.m_SurfA.m_CompID ≥ 0 := not_lt.mp h
      simp [h, h2, hI2]
  · simp

theorem foldl_cond_snoc {α β : Type} (c : α → Bool) (f : α → β) (l : List α) (init : List β) :
    l.foldl (fun acc x => if c x then acc ++ [f x] else acc) init
      = init ++ (l.filter c).map f := by
  induction l generalizing init with
  | nil => simp
  | cons a t ih =>
    rw [List.foldl_cons, ih]
    cases h : c a <;> simp [h, List.filter_cons]

theorem foldl_invariant {α β : Type} (P : α → Prop) (f : α → β → α) (l : List β) (init : α)
    (h0 : P init) (hstep : ∀ a x, P a → P (f a x)) : P (l.foldl f init) := by
  induction l generalizing init with
  | nil => exact h0
  | cons a t ih => exact ih _ (hstep _ _ h0)

theorem nodeLoop_eq (nodes : List FeaNode) (shift : List Int) (cond : FeaNode → Bool) :
    nodeLoop nodes shift cond
      = ((List.range nodes.length).filter (fun j =>
          decide (shift.getD j 0 ≥ 0) && ((nodes.get? j).map cond).getD false)).map Rec.node := by
  unfold nodeLoop
  rw [foldl_cond_snoc (fun j => decide (shift.getD j 0 ≥ 0) && ((nodes.get? j).map cond).getD false)
    Rec.node]
  rfl

theorem nodeLoop_elemId (nodes : List FeaNode) (shift : List Int) (cond : FeaNode → Bool) :
    ∀ x ∈ nodeLoop nodes shift cond, x.elemId = none := by
  intro x hx
  rw [nodeLoop_eq, List.mem_map] at hx
  obtain ⟨j, _, rfl⟩ := hx
  rfl

theorem normalLoop_eq (elems : List FeaElement) (i : Nat) :
    normalLoop elems i
      = ((List.range elems.length).filter (fun j =>
          ((elems.get? j).map (fun e =>
            decide (toUnsigned e.m_FeaPartIndex = i)
              && decide (e.m_ElementType = ElementType.FEA_BEAM))).getD false)).map Rec.normal := by
  unfold normalLoop
  rw [foldl_cond_snoc (fun j => ((elems.get? j).map (fun e =>
      decide (toUnsigned e.m_FeaPartIndex = i)
        && decide (e.m_ElementType = ElementType.FEA_BEAM))).getD false) Rec.normal]
  rfl

theorem normalLoop_elemId (elems : List FeaElement) (i : Nat) :
    ∀ x ∈ normalLoop elems i, x.elemId = none := by
  intro x hx
  rw [normalLoop_eq, List.mem_map] at hx
  obtain ⟨j, _, rfl⟩ := hx
  rfl

theorem nastranPartNodes_elemId (st : FeaStructure) (nodes : List FeaNode) (shift : List Int)
    (i : Nat) : ∀ x ∈ nastranPartNodes st nodes shift i, x.elemId = none := by
  intro x hx
  unfold nastranPartNodes at hx
  rcases List.mem_append.1 hx with h | h
  · simp only [List.mem_cons, List.mem_singleton, List.not_mem_nil, or_false] at h
    rcases h with rfl | rfl <;> rfl
  · exact nodeLoop_elemId _ _ _ x h

theorem nastranIntersections_elemId (nodes : List FeaNode) (shift : List Int) :
    ∀ x ∈ nastranIntersections nodes shift, x.elemId = none := by
  intro x hx
  unfold nastranIntersections at hx
  rcases List.mem_append.1 hx with h | h
  · simp only [List.mem_cons, List.mem_singleton, List.not_mem_nil, or_false] at h
    rcases h with rfl | rfl <;> rfl
  · exact nodeLoop_elemId _ _ _ x h

theorem nastranRemaining_elemId (nodes : List FeaNode) (shift : List Int) :
    ∀ x ∈ nastranRemaining nodes shift, x.elemId = none := by
  intro x hx
  unfold nastranRemaining at hx
  rcases List.mem_append.1 hx with h | h
  · simp only [List.mem_cons, List.mem_singleton, List.not_mem_nil, or_false] at h
    rcases h with rfl | rfl <;> rfl
  · exact nodeLoop_elemId _ _ _ x h

theorem nastranTail_elemId (S : StructureMgr) : ∀ x ∈ nastranTail S, x.elemId = none := by
  intro x hx
  simp only [nastranTail, List.mem_append, List.mem_cons, List.mem_singleton, List.not_mem_nil,
    or_false, List.mem_map] at hx
  rcases hx with (((((rfl | rfl) | ⟨i, _, rfl⟩) | (rfl | rfl)) | ⟨i, _, rfl⟩) | rfl) <;> rfl

theorem calculixTail_elemId (S : StructureMgr) (nodes : List FeaNode) (shift : List Int) :
    ∀ x ∈ calculixTail S nodes shift, x.elemId = none := by
  intro x hx
  simp only [calculixTail, List.mem_append, List.mem_cons, List.mem_singleton, List.not_mem_nil,
    or_false, List.mem_flatMap] at hx
  rcases hx with ((((rfl | rfl) | h) | (rfl | rfl)) | ⟨i, _, (rfl | rfl)⟩)
  · rfl
  · rfl
  · exact nodeLoop_elemId _ _ _ x h
  · rfl
  · rfl
  · rfl
  · rfl

theorem gmshHead_elemId (m : FeaMeshMgr) : ∀ x ∈ gmshHead m, x.elemId = none := by
  intro x hx
  simp only [gmshHead, List.mem_append, List.mem_cons, List.mem_singleton, List.not_mem_nil,
    or_false, List.mem_map] at hx
  rcases hx with ((((rfl | rfl | rfl | rfl | rfl) | ⟨i, _, rfl⟩) | (rfl | rfl | rfl)) | h)
    | (rfl | rfl | rfl)
  all_goals first | rfl | exact nodeLoop_elemId _ _ _ x h

/-- Records of an element loop: one record per selected position, in element
order, each with the arguments of its element. -/
theorem elemIdLoop_keys (elems : List FeaElement) (sel : FeaElement → Bool)
    (args : FeaElement → List Int) (acc : List Rec × Int) :
    ∃ R, (elemIdLoop elems sel args acc).1 = acc.1 ++ R
      ∧ R.filterMap Rec.elemKey
          = ((List.range elems.length).filter
              (fun j => ((elems.get? j).map sel).getD false)).map
              (fun j => (j, ((elems.get? j).map args).getD []))
      ∧ R.length = ((List.range elems.length).filter
              (fun j => ((elems.get? j).map sel).getD false)).length
      ∧ (elemIdLoop elems sel args acc).2 = acc.2 + R.length := by
  unfold elemIdLoop
  generalize List.range elems.length = l
  induction l generalizing acc with
  | nil => exact ⟨[], by simp, rfl, rfl, by simp⟩
  | cons j t ih =>
    rw [List.foldl_cons]
    cases hj : elems.get? j with
    | none =>
      have hj2 : elems[j]? = none := by rw [← List.get?_eq_getElem?]; exact hj
      obtain ⟨R, h1, h2, h3, h4⟩ := ih acc
      refine ⟨R, h1, ?_, ?_, h4⟩
      · rw [h2, List.filter_cons]; simp [hj2]
      · rw [h3, List.filter_cons]; simp [hj2]
    | some e =>
      have hj2 : elems[j]? = some e := by rw [← List.get?_eq_getElem?]; exact hj
      simp only []
      cases hs : sel e with
      | false =>
        simp only [Bool.false_eq_true, if_false]
        obtain ⟨R, h1, h2, h3, h4⟩ := ih acc
        refine ⟨R, h1, ?_, ?_, h4⟩
        · rw [h2, List.filter_cons]; simp [hj2, hs]
        · rw [h3, List.filter_cons]; simp [hj2, hs]
      | true =>
        simp only [if_true]
        obtain ⟨R, h1, h2, h3, h4⟩ :=
          ih (acc.1 ++ [Rec.element j (acc.2 + 1) (args e)], acc.2 + 1)
        refine ⟨Rec.element j (acc.2 + 1) (args e) :: R, ?_, ?_, ?_, ?_⟩
        · rw [h1]; simp
        · rw [List.filterMap_cons, List.filter_cons]
          simp [hj2, hs, Rec.elemKey, h2]
        · rw [List.filter_cons]; simp [hj2, hs, h3]
        · rw [h4]; simp; omega

/-- In an element list made of triangles followed by beams, the positions
selected for part `i`, with their arguments in `WriteNASTRAN`, are the
triangle positions of the part with the property id followed by the beam
positions of the part with the cap property id. -/
theorem nastran_keys_split (T B : List FeaElement) (i : Nat) (prop cap : Int)
    (hT : ∀ e ∈ T, e.m_ElementType = ElementType.FEA_TRI_6)
    (hB : ∀ e ∈ B, e.m_ElementType = ElementType.FEA_BEAM)
    (hi : i < 2 ^ 31)
    (hE : ∀ e ∈ T ++ B, -2 ^ 31 ≤ e.m_FeaPartIndex ∧ e.m_FeaPartIndex < 2 ^ 31) :
    ((List.range (T ++ B).length).filter
        (fun j => (((T ++ B).get? j).map
          (fun e => decide (toUnsigned e.m_FeaPartIndex = i))).getD false)).map
        (fun j => (j, (((T ++ B).get? j).map
          (fun e => if e.m_ElementType ≠ ElementType.FEA_BEAM then [prop] else [cap])).getD []))
      = (partPositions (T ++ B) i ElementType.FEA_TRI_6).map (fun j => (j, [prop]))
        ++ (partPositions (T ++ B) i ElementType.FEA_BEAM).map (fun j => (j, [cap])) := by
  have hsel : ∀ e ∈ T ++ B, decide (toUnsigned e.m_FeaPartIndex = i)
      = decide (e.m_FeaPartIndex = (i : Int)) := by
    intro e he
    rw [decide_eq_decide]
    exact toUnsigned_eq_iff _ i (hE e he) hi
  have hlow : ∀ j, j < T.length → ∃ e, (T ++ B)[j]? = some e ∧ e ∈ T := by
    intro j hj
    refine ⟨T[j], ?_, List.getElem_mem _⟩
    rw [List.getElem?_append_left hj, List.getElem?_eq_getElem hj]
  have hhigh : ∀ j e, T.length ≤ j → (T ++ B)[j]? = some e → e ∈ B := by
    intro j e hj he
    rw [List.getElem?_append_right hj] at he
    exact List.mem_iff_getElem?.2 ⟨_, he⟩
  unfold partPositions
  simp only [List.get?_eq_getElem?]
  rw [List.length_append, List.range_add]
  simp only [List.filter_append, List.map_append]
  -- the first `T.length` positions hold triangles
  have h1 : (List.range T.length).filter (fun j => (((T ++ B)[j]?).map
        (fun e => decide (e.m_FeaPartIndex = (i : Int))
          && decide (e.m_ElementType = ElementType.FEA_BEAM))).getD false) = [] := by
    apply List.filter_eq_nil_iff.2
    intro j hj
    obtain ⟨e, he, heT⟩ := hlow j (List.mem_range.1 hj)
    simp [he, hT e heT]
  have h2 : (List.range T.length).filter (fun j => (((T ++ B)[j]?).map
        (fun e => decide (toUnsigned e.m_FeaPartIndex = i))).getD false)
      = (List.range T.length).filter (fun j => (((T ++ B)[j]?).map
        (fun e => decide (e.m_FeaPartIndex = (i : Int))
          && decide (e.m_ElementType = ElementType.FEA_TRI_6))).getD false) := by
    apply List.filter_congr
    intro j hj
    obtain ⟨e, he, heT⟩ := hlow j (List.mem_range.1 hj)
    simp only [he, Option.map_some', Option.getD_some,
      hsel e (List.mem_append_left _ heT), hT e heT, decide_True, Bool.and_true]
  -- the positions from `T.length` on hold beams
  have h3 : ((List.range B.length).map (fun x => T.length + x)).filter
        (fun j => (((T ++ B)[j]?).map
          (fun e => decide (e.m_FeaPartIndex = (i : Int))
            && decide (e.m_ElementType = ElementType.FEA_TRI_6))).getD false) = [] := by
    apply List.filter_eq_nil_iff.2
    intro j hj
    obtain ⟨k, _, rfl⟩ := List.mem_map.1 hj
    cases he : (T ++ B)[T.length + k]? with
    | none => simp
    | some e =>
      have := hB e (hhigh _ e (by omega) he)
      simp [this]
  have h4 : ((List.range B.length).map (fun x => T.length + x)).filter
        (fun j => (((T ++ B)[j]?).map
          (fun e => decide (toUnsigned e.m_FeaPartIndex = i))).getD false)
      = ((List.range B.length).map (fun x => T.length + x)).filter
        (fun j => (((T ++ B)[j]?).map
          (fun e => decide (e.m_FeaPartIndex = (i : Int))
            && decide (e.m_ElementType = ElementType.FEA_BEAM))).getD false) := by
    apply List.filter_congr
    intro j hj
    obtain ⟨k, _, rfl⟩ := List.mem_map.1 hj
    cases he : (T ++ B)[T.length + k]? with
    | none => simp
    | some e =>
      have heB := hhigh _ e (by omega) he
      simp only [Option.map_some', Option.getD_some,
        hsel e (List.mem_append_right _ heB), hB e heB, decide_True, Bool.and_true]
  rw [h1, h3, h2, h4, List.map_nil, List.map_nil, List.append_nil, List.nil_append]
  congr 1
  · apply List.map_congr_left
    intro j hj
    obtain ⟨hj1, _⟩ := List.mem_filter.1 hj
    obtain ⟨e, he, heT⟩ := hlow j (List.mem_range.1 hj1)
    simp [he, hT e heT]
  · apply List.map_congr_left
    intro j hj
    obtain ⟨hj1, _⟩ := List.mem_filter.1 hj
    obtain ⟨k, _, rfl⟩ := List.mem_map.1 hj1
    cases he : (T ++ B)[T.length + k]? with
    | none =>
      have := (List.mem_filter.1 hj).2
      simp [he] at this
    | some e =>
      have heB := hhigh _ e (by omega) he
      simp [hB e heB]

/-- C19. Format A element order.  For an element list produced by
`BuildFeaMesh` from an empty list, the element block that `WriteNASTRAN` writes
for part `i` is, after its two header lines, one record per element of the
part: first every triangle of the part, in element order, each written with
the property id of the part, then every beam of the part, in element order,
each written with the cap property id of the part.  The part indices are
machine integers. -/
theorem C19_nastran_triangles_before_beams (K : Kernel) (st : FeaStructure) (n : Int)
    (surfs : List Surf) (chains : List ISegChain) (acc : List Rec × Int) (i : Nat)
    (hi : i < 2 ^ 31)
    (hE : ∀ e ∈ buildFeaMesh K st n surfs chains [],
      -2 ^ 31 ≤ e.m_FeaPartIndex ∧ e.m_FeaPartIndex < 2 ^ 31) :
    ∃ R, (nastranPartElems st (buildFeaMesh K st n surfs chains []) acc i).1
        = acc.1 ++ [Rec.text "\n", Rec.text ("$" ++ st.GetFeaPartName i ++ "\n")] ++ R
      ∧ R.filterMap Rec.elemKey
          = (partPositions (buildFeaMesh K st n surfs chains []) i ElementType.FEA_TRI_6).map
              (fun j => (j, [st.GetFeaPropertyIndex i]))
            ++ (partPositions (buildFeaMesh K st n surfs chains []) i ElementType.FEA_BEAM).map
              (fun j => (j, [st.GetCapFeaPropertyIndex i]))
      ∧ R.length
          = (partPositions (buildFeaMesh K st n surfs chains []) i ElementType.FEA_TRI_6).length
            + (partPositions (buildFeaMesh K st n surfs chains []) i ElementType.FEA_BEAM).length := by
  have hel : buildFeaMesh K st n surfs chains []
      = surfs.flatMap (fun s => s.m_SimpTriVec.map (buildTri K n s))
        ++ chains.flatMap (chainBeams K st) := by
    rw [buildFeaMesh_eq, List.nil_append]
  rw [hel] at hE ⊢
  have hsplit := nastran_keys_split _ _ i (st.GetFeaPropertyIndex i) (st.GetCapFeaPropertyIndex i)
    (flatMap_buildTri_type K n surfs) (flatMap_chainBeams_type K st chains) hi hE
  unfold nastranPartElems
  simp only []
  obtain ⟨R, h1, h2, h3, _⟩ := elemIdLoop_keys
    (surfs.flatMap (fun s => s.m_SimpTriVec.map (buildTri K n s))
      ++ chains.flatMap (chainBeams K st))
    (fun e => decide (toUnsigned e.m_FeaPartIndex = i))
    (fun e => if e.m_ElementType ≠ ElementType.FEA_BEAM then [st.GetFeaPropertyIndex i]
      else [st.GetCapFeaPropertyIndex i])
    (acc.1 ++ [Rec.text "\n", Rec.text ("$" ++ st.GetFeaPartName i ++ "\n")], acc.2)
  refine ⟨R, h1, by rw [h2, hsplit], ?_⟩
  have hlen := congrArg List.length hsplit
  simp only [List.length_map, List.length_append] at hlen h3
  rw [h3, hlen]

/-- C19 at the element list built from a skin surface with one triangle and a
junction chain with a cap-flagged rib: the block of part 1 holds the beam,
written with the cap property id. -/
theorem C19_nastran_triangles_before_beams_witness :
    (1 : Nat) < 2 ^ 31
    ∧ (∀ e ∈ buildFeaMesh flatKernel ribCapStruct 2 [skinTriSurf] [skinRibChain] [],
        -2 ^ 31 ≤ e.m_FeaPartIndex ∧ e.m_FeaPartIndex < 2 ^ 31)
    ∧ ∃ R, (nastranPartElems ribCapStruct
          (buildFeaMesh flatKernel ribCapStruct 2 [skinTriSurf] [skinRibChain] [])
          ([], 0) 1).1
        = [] ++ [Rec.text "\n", Rec.text ("$" ++ ribCapStruct.GetFeaPartName 1 ++ "\n")] ++ R
      ∧ R.filterMap Rec.elemKey
          = (partPositions
              (buildFeaMesh flatKernel ribCapStruct 2 [skinTriSurf] [skinRibChain] [])
              1 ElementType.FEA_TRI_6).map (fun j => (j, [ribCapStruct.GetFeaPropertyIndex 1]))
            ++ (partPositions
              (buildFeaMesh flatKernel ribCapStruct 2 [skinTriSurf] [skinRibChain] [])
              1 ElementType.FEA_BEAM).map (fun j => (j, [ribCapStruct.GetCapFeaPropertyIndex 1]))
      ∧ R.length
          = (partPositions
              (buildFeaMesh flatKernel ribCapStruct 2 [skinTriSurf] [skinRibChain] [])
              1 ElementType.FEA_TRI_6).length
            + (partPositions
              (buildFeaMesh flatKernel ribCapStruct 2 [skinTriSurf] [skinRibChain] [])
              1 ElementType.FEA_BEAM).length :=
  ⟨by decide, by decide,
    C19_nastran_triangles_before_beams flatKernel ribCapStruct 2 [skinTriSurf] [skinRibChain]
      ([], 0) 1 (by decide) (by decide)⟩

theorem partFilter_eq (elems : List FeaElement) (i : Nat) (ty : ElementType) (hi : i < 2 ^ 31)
    (hE : ∀ e ∈ elems, -2 ^ 31 ≤ e.m_FeaPartIndex ∧ e.m_FeaPartIndex < 2 ^ 31) :
    (List.range elems.length).filter (fun j => ((elems.get? j).map (fun e =>
        decide (toUnsigned e.m_FeaPartIndex = i) && decide (e.m_ElementType = ty))).getD false)
      = partPositions elems i ty := by
  unfold partPositions
  apply List.filter_congr
  intro j _
  cases he : elems.get? j with
  | none => rfl
  | some e =>
    have hmem : e ∈ elems := List.mem_iff_get?.2 ⟨j, he⟩
    have : decide (toUnsigned e.m_FeaPartIndex = i) = decide (e.m_FeaPartIndex = (i : Int)) := by
      rw [decide_eq_decide]
      exact toUnsigned_eq_iff _ i (hE e hmem) hi
    simp only [Option.map_some', Option.getD_some, this]

theorem mem_partPositions (elems : List FeaElement) (i j : Nat) (ty : ElementType) :
    j ∈ partPositions elems i ty
      ↔ ∃ e, elems.get? j = some e ∧ e.m_FeaPartIndex = (i : Int) ∧ e.m_ElementType = ty := by
  unfold partPositions
  rw [List.mem_filter, List.mem_range]
  constructor
  · rintro ⟨_, h⟩
    cases he : elems.get? j with
    | none => rw [he] at h; simp at h
    | some e =>
      rw [he] at h
      simp only [Option.map_some', Option.getD_some, Bool.and_eq_true, decide_eq_true_eq] at h
      exact ⟨e, rfl, h.1, h.2⟩
  · rintro ⟨e, he, h1, h2⟩
    refine ⟨?_, ?_⟩
    · by_contra hlt
      rw [List.get?_eq_none.2 (by omega)] at he
      cases he
    · rw [he]
      simp [h1, h2]

theorem filterMap_length_all {α β : Type} (f : α → Option β) (R : List α)
    (h : (R.filterMap f).length = R.length) : ∀ r ∈ R, (f r).isSome = true := by
  induction R with
  | nil => intro r hr; cases hr
  | cons a t ih =>
    intro r hr
    cases ha : f a with
    | none =>
      rw [List.filterMap_cons_none ha, List.length_cons] at h
      have := List.length_filterMap_le f t
      omega
    | some b =>
      rw [List.filterMap_cons_some ha, List.length_cons, List.length_cons] at h
      rcases List.mem_cons.1 hr with rfl | hr
      · rw [ha]; rfl
      · exact ih (by omega) r hr

theorem keys_elemPos (R : List Rec) (L : List Nat) (a : List Int)
    (hk : R.filterMap Rec.elemKey = L.map (fun j => (j, a))) (hl : R.length = L.length)
    (r : Rec) (hr : r ∈ R) (j : Nat) (hj : r.elemPos = some j) : j ∈ L := by
  have hall := filterMap_length_all Rec.elemKey R (by rw [hk, List.length_map, hl]) r hr
  cases r with
  | element k id args =>
    have hk2 : (k, args) ∈ R.filterMap Rec.elemKey :=
      List.mem_filterMap.2 ⟨_, hr, rfl⟩
    rw [hk, List.mem_map] at hk2
    obtain ⟨k2, hk2, heq⟩ := hk2
    have h1 : k2 = k := congrArg Prod.fst heq
    have h2 : k = j := Option.some.inj hj
    rw [← h2, ← h1]
    exact hk2
  | text s => cases hj
  | node k => cases hj
  | normal k => cases hall
  | propertyNASTRAN k id => cases hj
  | propertyCalculix id s => cases hj
  | material k id => cases hj

theorem calculixPart_shape (st : FeaStructure) (nodes : List FeaNode) (shift : List Int)
    (elems : List FeaElement) (acc : List Rec × Int) (i : Nat) (hi : i < 2 ^ 31)
    (hE : ∀ e ∈ elems, -2 ^ 31 ≤ e.m_FeaPartIndex ∧ e.m_FeaPartIndex < 2 ^ 31) :
    ∃ Rt Rb, (calculixPart st nodes shift elems acc i).1
        = acc.1 ++ calculixBlock st nodes shift elems Rt Rb i
      ∧ (Rt.filterMap Rec.elemKey
          = (partPositions elems i ElementType.FEA_TRI_6).map (fun j => (j, []))
        ∧ Rt.length = (partPositions elems i ElementType.FEA_TRI_6).length)
      ∧ (Rb.filterMap Rec.elemKey
          = (partPositions elems i ElementType.FEA_BEAM).map (fun j => (j, []))
        ∧ Rb.length = (partPositions elems i ElementType.FEA_BEAM).length) := by
  have hargs : ∀ L : List Nat,
      L.map (fun j => (j, ((elems.get? j).map (fun _ => ([] : List Int))).getD []))
        = L.map (fun j => (j, ([] : List Int))) := by
    intro L
    apply List.map_congr_left
    intro j _
    cases elems.get? j <;> rfl
  unfold calculixPart
  simp only []
  obtain ⟨Rt, ht1, ht2, ht3, _⟩ := elemIdLoop_keys elems
    (fun e => decide (toUnsigned e.m_FeaPartIndex = i)
      && decide (e.m_ElementType = ElementType.FEA_TRI_6))
    (fun _ => [])
    (acc.1 ++ [Rec.text ("**" ++ st.GetFeaPartName i ++ "\n"),
        Rec.text ("*NODE, NSET=N" ++ st.GetFeaPartName i ++ "\n")]
      ++ nodeLoop nodes shift (fun n => n.HasOnlyIndex (toSigned i))
      ++ [Rec.text "\n", Rec.text ("*ELEMENT, TYPE=S6, ELSET=E" ++ st.GetFeaPartName i ++ "\n")],
      acc.2)
  rw [partFilter_eq elems i _ hi hE] at ht2 ht3
  rw [hargs] at ht2
  obtain ⟨Rb, hb1, hb2, hb3, _⟩ := elemIdLoop_keys elems
    (fun e => decide (toUnsigned e.m_FeaPartIndex = i)
      && decide (e.m_ElementType = ElementType.FEA_BEAM))
    (fun _ => [])
    ((elemIdLoop elems
        (fun e => decide (toUnsigned e.m_FeaPartIndex = i)
          && decide (e.m_ElementType = ElementType.FEA_TRI_6))
        (fun _ => [])
        (acc.1 ++ [Rec.text ("**" ++ st.GetFeaPartName i ++ "\n"),
            Rec.text ("*NODE, NSET=N" ++ st.GetFeaPartName i ++ "\n")]
          ++ nodeLoop nodes shift (fun n => n.HasOnlyIndex (toSigned i))
          ++ [Rec.text "\n",
            Rec.text ("*ELEMENT, TYPE=S6, ELSET=E" ++ st.GetFeaPartName i ++ "\n")],
          acc.2)).1
      ++ [Rec.text "\n",
        Rec.propertyCalculix (st.GetFeaPropertyIndex i) ("E" ++ st.GetFeaPartName i)]
      ++ [Rec.text "\n",
        Rec.text ("*ELEMENT, TYPE=B31, ELSET=E" ++ st.GetFeaPartName i ++ "_CAP\n")],
      (elemIdLoop elems
        (fun e => decide (toUnsigned e.m_FeaPartIndex = i)
          && decide (e.m_ElementType = ElementType.FEA_TRI_6))
        (fun _ => [])
        (acc.1 ++ [Rec.text ("**" ++ st.GetFeaPartName i ++ "\n"),
            Rec.text ("*NODE, NSET=N" ++ st.GetFeaPartName i ++ "\n")]
          ++ nodeLoop nodes shift (fun n => n.HasOnlyIndex (toSigned i))
          ++ [Rec.text "\n",
            Rec.text ("*ELEMENT, TYPE=S6, ELSET=E" ++ st.GetFeaPartName i ++ "\n")],
          acc.2)).2)
  rw [partFilter_eq elems i _ hi hE] at hb2 hb3
  rw [hargs] at hb2
  refine ⟨Rt, Rb, ?_, ⟨ht2, ht3⟩, ⟨hb2, hb3⟩⟩
  unfold calculixBlock
  by_cases hc : FeaPartCap st (toSigned i) = true
  · rw [if_pos hc]
    simp only []
    rw [hb1, ht1, normalLoop_eq, partFilter_eq elems i _ hi hE]
    rw [toSigned_small i hi] at hc ⊢
    rw [if_pos hc]
    simp only [List.append_assoc]
  · rw [if_neg hc]
    simp only []
    rw [ht1]
    rw [toSigned_small i hi] at hc ⊢
    rw [if_neg hc]
    simp only [List.append_assoc, List.append_nil]

theorem calculix_fold (st : FeaStructure) (nodes : List FeaNode) (shift : List Int)
    (elems : List FeaElement)
    (hE : ∀ e ∈ elems, -2 ^ 31 ≤ e.m_FeaPartIndex ∧ e.m_FeaPartIndex < 2 ^ 31)
    (acc : List Rec × Int) (n : Nat) (hn : n ≤ 2 ^ 31) :
    ∃ tri beam : Nat → List Rec,
      ((List.range n).foldl (calculixPart st nodes shift elems) acc).1
        = acc.1 ++ (List.range n).flatMap
            (fun i => calculixBlock st nodes shift elems (tri i) (beam i) i)
      ∧ ∀ i, i < n →
        ((tri i).filterMap Rec.elemKey
            = (partPositions elems i ElementType.FEA_TRI_6).map (fun j => (j, []))
          ∧ (tri i).length = (partPositions elems i ElementType.FEA_TRI_6).length)
        ∧ ((beam i).filterMap Rec.elemKey
            = (partPositions elems i ElementType.FEA_BEAM).map (fun j => (j, []))
          ∧ (beam i).length = (partPositions elems i ElementType.FEA_BEAM).length) := by
  induction n with
  | zero => exact ⟨fun _ => [], fun _ => [], by simp, fun i hi => absurd hi (Nat.not_lt_zero i)⟩
  | succ n ih =>
    obtain ⟨tri, beam, h1, h2⟩ := ih (by omega)
    obtain ⟨Rt, Rb, h3, h4, h5⟩ := calculixPart_shape st nodes shift elems
      ((List.range n).foldl (calculixPart st nodes shift elems) acc) n (by omega) hE
    refine ⟨fun k => if k = n then Rt else tri k, fun k => if k = n then Rb else beam k, ?_, ?_⟩
    · rw [List.range_succ, List.foldl_append, List.foldl_cons, List.foldl_nil, h3, h1,
        List.flatMap_append, List.append_assoc]
      congr 1
      congr 1
      · apply List.flatMap_congr
        intro k hk
        have hne : k ≠ n := Nat.ne_of_lt (List.mem_range.1 hk)
        simp only [if_neg hne]
      · simp
    · intro i hi
      by_cases hin : i = n
      · subst hin
        simp only [if_true]
        exact ⟨h4, h5⟩
      · simp only [if_neg hin]
        exact h2 i (by omega)

theorem nodeLoop_elemPos (nodes : List FeaNode) (shift : List Int) (cond : FeaNode → Bool) :
    ∀ x ∈ nodeLoop nodes shift cond, x.elemPos = none := by
  intro x hx
  rw [nodeLoop_eq, List.mem_map] at hx
  obtain ⟨j, _, rfl⟩ := hx
  rfl

theorem calculixTail_elemPos (S : StructureMgr) (nodes : List FeaNode) (shift : List Int) :
    ∀ x ∈ calculixTail S nodes shift, x.elemPos = none := by
  intro x hx
  simp only [calculixTail, List.mem_append, List.mem_cons, List.mem_singleton, List.not_mem_nil,
    or_false, List.mem_flatMap] at hx
  rcases hx with ((((rfl | rfl) | h) | (rfl | rfl)) | ⟨i, _, (rfl | rfl)⟩)
  · rfl
  · rfl
  · exact nodeLoop_elemPos _ _ _ x h
  · rfl
  · rfl
  · rfl
  · rfl

theorem calculixBlock_elemPos (st : FeaStructure) (nodes : List FeaNode) (shift : List Int)
    (elems : List FeaElement) (Rt Rb : List Rec) (i : Nat)
    (ht : Rt.filterMap Rec.elemKey
          = (partPositions elems i ElementType.FEA_TRI_6).map (fun j => (j, []))
        ∧ Rt.length = (partPositions elems i ElementType.FEA_TRI_6).length)
    (hb : Rb.filterMap Rec.elemKey
          = (partPositions elems i ElementType.FEA_BEAM).map (fun j => (j, []))
        ∧ Rb.length = (partPositions elems i ElementType.FEA_BEAM).length)
    (r : Rec) (hr : r ∈ calculixBlock st nodes shift elems Rt Rb i) (j : Nat)
    (hj : r.elemPos = some j) :
    j ∈ partPositions elems i ElementType.FEA_TRI_6
      ∨ (FeaPartCap st (i : Int) = true ∧ j ∈ partPositions elems i ElementType.FEA_BEAM) := by
  have hnone : ∀ L : List Rec, (∀ x ∈ L, x.elemPos = none) → r ∈ L → False := by
    intro L h hr
    rw [h r hr] at hj
    cases hj
  have htext : ∀ a b : Rec, r ∈ [a, b] → a.elemPos = none → b.elemPos = none → False := by
    intro a b hr ha hb
    apply hnone [a, b] _ hr
    intro x hx
    simp only [List.mem_cons, List.mem_singleton, List.not_mem_nil, or_false] at hx
    rcases hx with rfl | rfl
    · exact ha
    · exact hb
  unfold calculixBlock at hr
  rcases List.mem_append.1 hr with h | h
  · rcases List.mem_append.1 h with h | h
    · rcases List.mem_append.1 h with h | h
      · rcases List.mem_append.1 h with h | h
        · rcases List.mem_append.1 h with h | h
          · exact (htext _ _ h rfl rfl).elim
          · exact (hnone _ (nodeLoop_elemPos _ _ _) h).elim
        · exact (htext _ _ h rfl rfl).elim
      · exact Or.inl (keys_elemPos Rt _ [] ht.1 ht.2 r h j hj)
    · exact (htext _ _ h rfl rfl).elim
  · by_cases hc : FeaPartCap st (i : Int) = true
    · rw [if_pos hc] at h
      rcases List.mem_append.1 h with h | h
      · rcases List.mem_append.1 h with h | h
        · rcases List.mem_append.1 h with h | h
          · rcases List.mem_append.1 h with h | h
            · exact (htext _ _ h rfl rfl).elim
            · exact Or.inr ⟨hc, keys_elemPos Rb _ [] hb.1 hb.2 r h j hj⟩
          · simp only [List.mem_cons, List.mem_singleton, List.not_mem_nil, or_false] at h
            rcases h with rfl | rfl | rfl | rfl <;> cases hj
        · obtain ⟨k, hk, rfl⟩ := List.mem_map.1 h
          have : k = j := Option.some.inj hj
          rw [← this]
          exact Or.inr ⟨hc, hk⟩
      · simp only [List.mem_singleton] at h
        rw [h] at hj
        cases hj
    · rw [if_neg hc] at h
      cases h

/-- C20. Format B element sets.  The file of `WriteCalculix` is, part by part
in part order, the block of the part, followed by the intersection and material
blocks.  The shell element set of part `i` holds exactly the triangles owned by
part `i`, in element order.  The block holds the line element set with exactly
the beams owned by part `i`, followed (after the property block) by one normal
record per such beam in the same order, exactly when the part has the
intersection-cap flag.  A beam owned by a part without the flag, or by no part,
is written by no element record and no normal record of the file.  The part
count and the part indices are machine integers. -/
theorem C20_calculix_element_sets (S : StructureMgr) (m : FeaMeshMgr)
    (hN : 0 ≤ m.m_NumFeaParts ∧ m.m_NumFeaParts < 2 ^ 31)
    (hE : ∀ e ∈ m.m_FeaElementVec, -2 ^ 31 ≤ e.m_FeaPartIndex ∧ e.m_FeaPartIndex < 2 ^ 31) :
    ∃ tri beam : Nat → List Rec,
      WriteCalculix S true m
        = some ((List.range m.m_NumFeaParts.toNat).flatMap
              (fun i => calculixBlock m.m_FeaMeshStruct m.m_FeaNodeVec m.m_PntShift
                m.m_FeaElementVec (tri i) (beam i) i)
            ++ calculixTail S m.m_FeaNodeVec m.m_PntShift)
      ∧ (∀ i, i < m.m_NumFeaParts.toNat →
          ((tri i).filterMap Rec.elemKey
              = (partPositions m.m_FeaElementVec i ElementType.FEA_TRI_6).map (fun j => (j, []))
            ∧ (tri i).length = (partPositions m.m_FeaElementVec i ElementType.FEA_TRI_6).length)
          ∧ ((beam i).filterMap Rec.elemKey
              = (partPositions m.m_FeaElementVec i ElementType.FEA_BEAM).map (fun j => (j, []))
            ∧ (beam i).length
              = (partPositions m.m_FeaElementVec i ElementType.FEA_BEAM).length))
      ∧ (∀ out, WriteCalculix S true m = some out →
          ∀ j e, m.m_FeaElementVec.get? j = some e →
            e.m_ElementType = ElementType.FEA_BEAM →
            FeaPartCap m.m_FeaMeshStruct e.m_FeaPartIndex = false →
            ∀ r ∈ out, r.elemPos ≠ some j) := by
  obtain ⟨tri, beam, h1, h2⟩ := calculix_fold m.m_FeaMeshStruct m.m_FeaNodeVec m.m_PntShift
    m.m_FeaElementVec hE ([], 0) m.m_NumFeaParts.toNat (by omega)
  have hout : WriteCalculix S true m
      = some ((List.range m.m_NumFeaParts.toNat).flatMap
            (fun i => calculixBlock m.m_FeaMeshStruct m.m_FeaNodeVec m.m_PntShift
              m.m_FeaElementVec (tri i) (beam i) i)
          ++ calculixTail S m.m_FeaNodeVec m.m_PntShift) := by
    unfold WriteCalculix
    rw [if_pos rfl]
    simp only []
    rw [toUnsigned_nonneg _ hN, h1, List.nil_append]
  refine ⟨tri, beam, hout, h2, ?_⟩
  intro out ho j e hje hty hcap r hr hpos
  rw [hout] at ho
  have ho2 := Option.some.inj ho
  rw [← ho2] at hr
  rcases List.mem_append.1 hr with h | h
  · obtain ⟨i, hi, hri⟩ := List.mem_flatMap.1 h
    have hi2 := h2 i (List.mem_range.1 hi)
    rcases calculixBlock_elemPos _ _ _ _ _ _ i hi2.1 hi2.2 r hri j hpos with h3 | ⟨hc, h3⟩
    · obtain ⟨e2, he2, _, hty2⟩ := (mem_partPositions _ _ _ _).1 h3
      rw [hje] at he2
      rw [← Option.some.inj he2, hty] at hty2
      cases hty2
    · obtain ⟨e2, he2, hidx, _⟩ := (mem_partPositions _ _ _ _).1 h3
      rw [hje] at he2
      rw [← Option.some.inj he2] at hidx
      rw [hidx, hc] at hcap
      cases hcap
  · rw [calculixTail_elemPos S _ _ r h] at hpos
    cases hpos

/-- C20 at the manager holding the junction elements: one skin triangle and one
beam of the cap-flagged rib. -/
theorem C20_calculix_element_sets_witness :
    (0 ≤ junctionMgr.m_NumFeaParts ∧ junctionMgr.m_NumFeaParts < 2 ^ 31)
    ∧ (∀ e ∈ junctionMgr.m_FeaElementVec,
        -2 ^ 31 ≤ e.m_FeaPartIndex ∧ e.m_FeaPartIndex < 2 ^ 31)
    ∧ ∃ tri beam : Nat → List Rec,
      WriteCalculix {} true junctionMgr
        = some ((List.range junctionMgr.m_NumFeaParts.toNat).flatMap
              (fun i => calculixBlock junctionMgr.m_FeaMeshStruct junctionMgr.m_FeaNodeVec
                junctionMgr.m_PntShift junctionMgr.m_FeaElementVec (tri i) (beam i) i)
            ++ calculixTail {} junctionMgr.m_FeaNodeVec junctionMgr.m_PntShift)
      ∧ (∀ i, i < junctionMgr.m_NumFeaParts.toNat →
          ((tri i).filterMap Rec.elemKey
              = (partPositions junctionMgr.m_FeaElementVec i ElementType.FEA_TRI_6).map
                  (fun j => (j, []))
            ∧ (tri i).length
              = (partPositions junctionMgr.m_FeaElementVec i ElementType.FEA_TRI_6).length)
          ∧ ((beam i).filterMap Rec.elemKey
              = (partPositions junctionMgr.m_FeaElementVec i ElementType.FEA_BEAM).map
                  (fun j => (j, []))
            ∧ (beam i).length
              = (partPositions junctionMgr.m_FeaElementVec i ElementType.FEA_BEAM).length))
      ∧ (∀ out, WriteCalculix {} true junctionMgr = some out →
          ∀ j e, junctionMgr.m_FeaElementVec.get? j = some e →
            e.m_ElementType = ElementType.FEA_BEAM →
            FeaPartCap junctionMgr.m_FeaMeshStruct e.m_FeaPartIndex = false →
            ∀ r ∈ out, r.elemPos ≠ some j) :=
  ⟨by decide, by decide, C20_calculix_element_sets {} junctionMgr (by decide) (by decide)⟩

theorem nodeLoop_nodeIdx (nodes : List FeaNode) (shift : List Int) (cond : FeaNode → Bool) :
    (nodeLoop nodes shift cond).filterMap Rec.nodeIdx = writtenNodes nodes shift cond := by
  rw [nodeLoop_eq, List.filterMap_map]
  exact List.filterMap_some _

theorem nodeLoop_mem (nodes : List FeaNode) (shift : List Int) (cond : FeaNode → Bool) (j : Nat) :
    Rec.node j ∈ nodeLoop nodes shift cond ↔ j ∈ writtenNodes nodes shift cond := by
  rw [nodeLoop_eq, List.mem_map]
  constructor
  · rintro ⟨k, hk, heq⟩
    have : k = j := by injection heq
    rw [← this]
    exact hk
  · intro h
    exact ⟨j, h, rfl⟩

theorem mem_writtenNodes (nodes : List FeaNode) (shift : List Int) (cond : FeaNode → Bool)
    (j : Nat) :
    j ∈ writtenNodes nodes shift cond
      ↔ ∃ n, nodes.get? j = some n ∧ 0 ≤ shift.getD j 0 ∧ cond n = true := by
  unfold writtenNodes
  rw [List.mem_filter, List.mem_range]
  constructor
  · rintro ⟨_, h⟩
    cases he : nodes.get? j with
    | none => rw [he] at h; simp at h
    | some n =>
      rw [he] at h
      simp only [Option.map_some', Option.getD_some, Bool.and_eq_true, decide_eq_true_eq] at h
      exact ⟨n, rfl, h.1, h.2⟩
  · rintro ⟨n, he, h1, h2⟩
    refine ⟨?_, ?_⟩
    · by_contra hlt
      rw [List.get?_eq_none.2 (by omega)] at he
      cases he
    · rw [he]
      simp only [Option.map_some', Option.getD_some, Bool.and_eq_true, decide_eq_true_eq]
      exact ⟨h1, h2⟩

theorem writtenNodes_nodup (nodes : List FeaNode) (shift : List Int) (cond : FeaNode → Bool) :
    (writtenNodes nodes shift cond).Nodup :=
  List.Nodup.filter _ (List.nodup_range _)

theorem toSigned_inj (a b : Nat) (ha : a < 2 ^ 32) (hb : b < 2 ^ 32)
    (h : toSigned a = toSigned b) : a = b := by
  unfold toSigned at h
  have h1 : a % 2 ^ 32 = a := Nat.mod_eq_of_lt ha
  have h2 : b % 2 ^ 32 = b := Nat.mod_eq_of_lt hb
  rw [h1, h2] at h
  split_ifs at h <;> omega

theorem toUnsigned_lt (x : Int) : toUnsigned x < 2 ^ 32 := by
  unfold toUnsigned
  omega

theorem node_sections (nodes : List FeaNode) (shift : List Int) (N : Nat) (hN : N ≤ 2 ^ 32)
    (htags : ∀ j n, nodes.get? j = some n → ∀ t ∈ n.m_Tags, ∃ i, i < N ∧ t = toSigned i) :
    ((List.range N).flatMap
          (fun i => writtenNodes nodes shift (fun n => n.HasOnlyIndex (toSigned i)))
        ++ writtenNodes nodes shift (fun n => decide (n.m_Tags.length > 1))
        ++ writtenNodes nodes shift (fun n => decide (n.m_Tags.length = 0))).Nodup
    ∧ ∀ j, j ∈ ((List.range N).flatMap
          (fun i => writtenNodes nodes shift (fun n => n.HasOnlyIndex (toSigned i)))
        ++ writtenNodes nodes shift (fun n => decide (n.m_Tags.length > 1))
        ++ writtenNodes nodes shift (fun n => decide (n.m_Tags.length = 0)))
      ↔ (j < nodes.length ∧ 0 ≤ shift.getD j 0) := by
  have hsec : ∀ i j, j ∈ writtenNodes nodes shift (fun n => n.HasOnlyIndex (toSigned i))
      → ∃ n, nodes.get? j = some n ∧ n.m_Tags = [toSigned i] := by
    intro i j hj
    obtain ⟨n, hn, _, hc⟩ := (mem_writtenNodes _ _ _ j).1 hj
    exact ⟨n, hn, of_decide_eq_true hc⟩
  constructor
  · rw [List.nodup_append, List.nodup_append, List.nodup_flatMap]
    refine ⟨⟨⟨fun i _ => writtenNodes_nodup _ _ _, ?_⟩, writtenNodes_nodup _ _ _, ?_⟩,
      writtenNodes_nodup _ _ _, ?_⟩
    · apply List.Pairwise.imp_of_mem _ (List.nodup_range N)
      intro a b ha hb hab j hja hjb
      obtain ⟨n, hn, hta⟩ := hsec a j hja
      obtain ⟨n2, hn2, htb⟩ := hsec b j hjb
      rw [hn] at hn2
      rw [← Option.some.inj hn2, hta] at htb
      have hab2 : toSigned a = toSigned b := by injection htb
      exact hab (toSigned_inj a b (by have := List.mem_range.1 ha; omega)
        (by have := List.mem_range.1 hb; omega) hab2)
    · intro j hj1 hj2
      obtain ⟨i, _, hji⟩ := List.mem_flatMap.1 hj1
      obtain ⟨n, hn, hta⟩ := hsec i j hji
      obtain ⟨n2, hn2, _, hc⟩ := (mem_writtenNodes _ _ _ j).1 hj2
      rw [hn] at hn2
      rw [← Option.some.inj hn2, hta] at hc
      simp at hc
    · intro j hj1 hj2
      obtain ⟨n2, hn2, _, hc2⟩ := (mem_writtenNodes _ _ _ j).1 hj2
      have hc3 : n2.m_Tags.length = 0 := of_decide_eq_true hc2
      rcases List.mem_append.1 hj1 with h | h
      · obtain ⟨i, _, hji⟩ := List.mem_flatMap.1 h
        obtain ⟨n, hn, hta⟩ := hsec i j hji
        rw [hn] at hn2
        rw [← Option.some.inj hn2, hta] at hc3
        simp at hc3
      · obtain ⟨n, hn, _, hc⟩ := (mem_writtenNodes _ _ _ j).1 h
        have hc4 : n.m_Tags.length > 1 := of_decide_eq_true hc
        rw [hn] at hn2
        rw [← Option.some.inj hn2] at hc3
        omega
  · intro j
    constructor
    · intro hj
      have hw : ∀ cond, j ∈ writtenNodes nodes shift cond
          → j < nodes.length ∧ 0 ≤ shift.getD j 0 := by
        intro cond h
        unfold writtenNodes at h
        rw [List.mem_filter, List.mem_range] at h
        refine ⟨h.1, ?_⟩
        have h2 := h.2
        simp only [Bool.and_eq_true, decide_eq_true_eq] at h2
        exact h2.1
      rcases List.mem_append.1 hj with h | h
      · rcases List.mem_append.1 h with h | h
        · obtain ⟨i, _, hji⟩ := List.mem_flatMap.1 h
          exact hw _ hji
        · exact hw _ h
      · exact hw _ h
    · rintro ⟨hlt, hs⟩
      obtain ⟨n, hn⟩ : ∃ n, nodes.get? j = some n := ⟨_, List.get?_eq_get hlt⟩
      cases htg : n.m_Tags with
      | nil =>
        apply List.mem_append_right
        exact (mem_writtenNodes _ _ _ j).2 ⟨n, hn, hs, decide_eq_true (by rw [htg]; rfl)⟩
      | cons t rest =>
        cases rest with
        | nil =>
          obtain ⟨i, hi, hti⟩ := htags j n hn t (by rw [htg]; exact List.mem_singleton_self t)
          apply List.mem_append_left
          apply List.mem_append_left
          refine List.mem_flatMap.2 ⟨i, List.mem_range.2 hi, ?_⟩
          exact (mem_writtenNodes _ _ _ j).2 ⟨n, hn, hs, decide_eq_true (by rw [htg, hti])⟩
        | cons t2 rest2 =>
          apply List.mem_append_left
          apply List.mem_append_right
          exact (mem_writtenNodes _ _ _ j).2 ⟨n, hn, hs, decide_eq_true (by
            rw [htg]; simp only [List.length_cons]; omega)⟩

theorem nastranPartElems_nodeIdx (st : FeaStructure) (elems : List FeaElement)
    (acc : List Rec × Int) (i : Nat) (h : ∀ r ∈ acc.1, r.nodeIdx = none) :
    ∀ r ∈ (nastranPartElems st elems acc i).1, r.nodeIdx = none := by
  unfold nastranPartElems
  simp only []
  obtain ⟨R, h1, h2, h3, _⟩ := elemIdLoop_keys elems
    (fun e => decide (toUnsigned e.m_FeaPartIndex = i))
    (fun e => if e.m_ElementType ≠ ElementType.FEA_BEAM then [st.GetFeaPropertyIndex i]
      else [st.GetCapFeaPropertyIndex i])
    (acc.1 ++ [Rec.text "\n", Rec.text ("$" ++ st.GetFeaPartName i ++ "\n")], acc.2)
  rw [h1]
  intro r hr
  rcases List.mem_append.1 hr with hr | hr
  · rcases List.mem_append.1 hr with hr | hr
    · exact h r hr
    · simp only [List.mem_cons, List.mem_singleton, List.not_mem_nil, or_false] at hr
      rcases hr with rfl | rfl <;> rfl
  · have hall := filterMap_length_all Rec.elemKey R (by rw [h2, List.length_map, h3]) r hr
    cases r with
    | element k id args => rfl
    | text s => rfl
    | node k => cases hall
    | normal k => rfl
    | propertyNASTRAN k id => rfl
    | propertyCalculix id s => rfl
    | material k id => rfl

theorem nastranTail_nodeIdx (S : StructureMgr) : ∀ x ∈ nastranTail S, x.nodeIdx = none := by
  intro x hx
  simp only [nastranTail, List.mem_append, List.mem_cons, List.mem_singleton, List.not_mem_nil,
    or_false, List.mem_map] at hx
  rcases hx with ((((rfl | rfl) | ⟨i, _, rfl⟩) | (rfl | rfl)) | ⟨i, _, rfl⟩) | rfl
  all_goals rfl

theorem nastranPartNodes_nodeIdx (st : FeaStructure) (nodes : List FeaNode) (shift : List Int)
    (i : Nat) :
    (nastranPartNodes st nodes shift i).filterMap Rec.nodeIdx
      = writtenNodes nodes shift (fun n => n.HasOnlyIndex (toSigned i)) := by
  unfold nastranPartNodes
  rw [List.filterMap_append, nodeLoop_nodeIdx]
  rfl

theorem nastranIntersections_nodeIdx (nodes : List FeaNode) (shift : List Int) :
    (nastranIntersections nodes shift).filterMap Rec.nodeIdx
      = writtenNodes nodes shift (fun n => decide (n.m_Tags.length > 1)) := by
  unfold nastranIntersections
  rw [List.filterMap_append, nodeLoop_nodeIdx]
  rfl

theorem nastranRemaining_nodeIdx (nodes : List FeaNode) (shift : List Int) :
    (nastranRemaining nodes shift).filterMap Rec.nodeIdx
      = writtenNodes nodes shift (fun n => decide (n.m_Tags.length = 0)) := by
  unfold nastranRemaining
  rw [List.filterMap_append, nodeLoop_nodeIdx]
  rfl

/-- C18. Format A node partition.  For a manager whose node list was tagged by
`TagFeaNodes`, the file of `WriteNASTRAN` is the element blocks, then the
grid-point sections of the parts in part order, then the intersections section,
then the remaining-nodes section, then the property and material blocks; the
element blocks and the closing blocks hold no node record.  The node records of
the file name no node twice, and they name exactly the nodes with non-negative
shift.  A node with non-negative shift and exactly one tag is written in the
grid-point section of the part whose loop counter converts to that tag, a node
with more than one tag in the intersections section, and a node with no tag in
the remaining-nodes section. -/
theorem C18_nastran_node_partition (S : StructureMgr) (E : Stages) (m : FeaMeshMgr) :
    WriteNASTRAN S true (TagFeaNodes E m)
        = some (((List.range (toUnsigned (TagFeaNodes E m).m_NumFeaParts)).foldl
              (nastranPartElems (TagFeaNodes E m).m_FeaMeshStruct
                (TagFeaNodes E m).m_FeaElementVec) ([Rec.text "BEGIN BULK\n"], 0)).1
            ++ (List.range (toUnsigned (TagFeaNodes E m).m_NumFeaParts)).flatMap
                (fun i => nastranPartNodes (TagFeaNodes E m).m_FeaMeshStruct
                  (TagFeaNodes E m).m_FeaNodeVec (TagFeaNodes E m).m_PntShift i)
            ++ nastranIntersections (TagFeaNodes E m).m_FeaNodeVec (TagFeaNodes E m).m_PntShift
            ++ nastranRemaining (TagFeaNodes E m).m_FeaNodeVec (TagFeaNodes E m).m_PntShift
            ++ nastranTail S)
    ∧ (∀ r ∈ ((List.range (toUnsigned (TagFeaNodes E m).m_NumFeaParts)).foldl
              (nastranPartElems (TagFeaNodes E m).m_FeaMeshStruct
                (TagFeaNodes E m).m_FeaElementVec) ([Rec.text "BEGIN BULK\n"], 0)).1,
        r.nodeIdx = none)
    ∧ (∀ r ∈ nastranTail S, r.nodeIdx = none)
    ∧ (∀ out, WriteNASTRAN S true (TagFeaNodes E m) = some out →
        (out.filterMap Rec.nodeIdx).Nodup
        ∧ ∀ j, j ∈ out.filterMap Rec.nodeIdx
          ↔ (j < (TagFeaNodes E m).m_FeaNodeVec.length
              ∧ 0 ≤ (TagFeaNodes E m).m_PntShift.getD j 0))
    ∧ (∀ j n, (TagFeaNodes E m).m_FeaNodeVec.get? j = some n →
        0 ≤ (TagFeaNodes E m).m_PntShift.getD j 0 →
        (∀ t, n.m_Tags = [t] →
          ∃ i, i < toUnsigned (TagFeaNodes E m).m_NumFeaParts ∧ toSigned i = t
            ∧ Rec.node j ∈ nastranPartNodes (TagFeaNodes E m).m_FeaMeshStruct
                (TagFeaNodes E m).m_FeaNodeVec (TagFeaNodes E m).m_PntShift i)
        ∧ (n.m_Tags.length > 1 →
          Rec.node j ∈ nastranIntersections (TagFeaNodes E m).m_FeaNodeVec
            (TagFeaNodes E m).m_PntShift)
        ∧ (n.m_Tags = [] →
          Rec.node j ∈ nastranRemaining (TagFeaNodes E m).m_FeaNodeVec
            (TagFeaNodes E m).m_PntShift)) := by
  have htags : ∀ j n, (TagFeaNodes E m).m_FeaNodeVec.get? j = some n →
      ∀ t ∈ n.m_Tags, ∃ i, i < toUnsigned (TagFeaNodes E m).m_NumFeaParts ∧ t = toSigned i := by
    intro j n hn t ht
    have hn2 : (tagFeaNodes E.X m.m_NumFeaParts m.m_FeaElementVec).m_FeaNodeVec[j]? = some n := by
      rw [← List.get?_eq_getElem?]
      exact hn
    obtain ⟨i, hi, hti, _⟩ := ((tagFeaNodes_tags E.X m.m_NumFeaParts m.m_FeaElementVec j n hn2).2 t).1 ht
    exact ⟨i, hi, hti⟩
  have hout : WriteNASTRAN S true (TagFeaNodes E m)
        = some (((List.range (toUnsigned (TagFeaNodes E m).m_NumFeaParts)).foldl
              (nastranPartElems (TagFeaNodes E m).m_FeaMeshStruct
                (TagFeaNodes E m).m_FeaElementVec) ([Rec.text "BEGIN BULK\n"], 0)).1
            ++ (List.range (toUnsigned (TagFeaNodes E m).m_NumFeaParts)).flatMap
                (fun i => nastranPartNodes (TagFeaNodes E m).m_FeaMeshStruct
                  (TagFeaNodes E m).m_FeaNodeVec (TagFeaNodes E m).m_PntShift i)
            ++ nastranIntersections (TagFeaNodes E m).m_FeaNodeVec (TagFeaNodes E m).m_PntShift
            ++ nastranRemaining (TagFeaNodes E m).m_FeaNodeVec (TagFeaNodes E m).m_PntShift
            ++ nastranTail S) := by
    unfold WriteNASTRAN
    rw [if_pos rfl]
    simp only []
    rw [foldl_append_flatMap]
  have helems : ∀ r ∈ ((List.range (toUnsigned (TagFeaNodes E m).m_NumFeaParts)).foldl
              (nastranPartElems (TagFeaNodes E m).m_FeaMeshStruct
                (TagFeaNodes E m).m_FeaElementVec) ([Rec.text "BEGIN BULK\n"], 0)).1,
        r.nodeIdx = none := by
    apply foldl_invariant (fun acc : List Rec × Int => ∀ r ∈ acc.1, r.nodeIdx = none)
    · intro r hr
      simp only [List.mem_singleton] at hr
      rw [hr]
      rfl
    · intro a i ha
      exact nastranPartElems_nodeIdx _ _ a i ha
  have hsec := node_sections (TagFeaNodes E m).m_FeaNodeVec (TagFeaNodes E m).m_PntShift
    (toUnsigned (TagFeaNodes E m).m_NumFeaParts) (Nat.le_of_lt (toUnsigned_lt _)) htags
  refine ⟨hout, helems, nastranTail_nodeIdx S, ?_, ?_⟩
  · intro out ho
    rw [hout] at ho
    have hidx : out.filterMap Rec.nodeIdx
        = (List.range (toUnsigned (TagFeaNodes E m).m_NumFeaParts)).flatMap
            (fun i => writtenNodes (TagFeaNodes E m).m_FeaNodeVec (TagFeaNodes E m).m_PntShift
              (fun n => n.HasOnlyIndex (toSigned i)))
          ++ writtenNodes (TagFeaNodes E m).m_FeaNodeVec (TagFeaNodes E m).m_PntShift
              (fun n => decide (n.m_Tags.length > 1))
          ++ writtenNodes (TagFeaNodes E m).m_FeaNodeVec (TagFeaNodes E m).m_PntShift
              (fun n => decide (n.m_Tags.length = 0)) := by
      rw [← Option.some.inj ho]
      rw [List.filterMap_append, List.filterMap_append, List.filterMap_append,
        List.filterMap_append, List.filterMap_eq_nil_iff.2 helems,
        List.filterMap_eq_nil_iff.2 (nastranTail_nodeIdx S), List.nil_append, List.append_nil,
        List.filterMap_flatMap, nastranIntersections_nodeIdx, nastranRemaining_nodeIdx]
      congr 2
      apply List.flatMap_congr
      intro i _
      exact nastranPartNodes_nodeIdx _ _ _ i
    rw [hidx]
    exact hsec
  · intro j n hn hs
    refine ⟨?_, ?_, ?_⟩
    · intro t ht
      obtain ⟨i, hi, hti⟩ := htags j n hn t (by rw [ht]; exact List.mem_singleton_self t)
      refine ⟨i, hi, hti.symm, ?_⟩
      unfold nastranPartNodes
      apply List.mem_append_right
      rw [nodeLoop_mem]
      exact (mem_writtenNodes _ _ _ j).2 ⟨n, hn, hs, decide_eq_true (by rw [ht, hti])⟩
    · intro hlen
      unfold nastranIntersections
      apply List.mem_append_right
      rw [nodeLoop_mem]
      exact (mem_writtenNodes _ _ _ j).2 ⟨n, hn, hs, decide_eq_true hlen⟩
    · intro hnil
      unfold nastranRemaining
      apply List.mem_append_right
      rw [nodeLoop_mem]
      exact (mem_writtenNodes _ _ _ j).2 ⟨n, hn, hs, decide_eq_true (by rw [hnil]; rfl)⟩

theorem writeFile_eq (m : FeaMeshMgr) (format : String) (out : Option (List String)) :
    writeFile m format out = { m with m_Files := m.m_Files ++ optFile format out } := by
  cases out with
  | none => simp [writeFile, optFile]
  | some lines => rfl

theorem ComputeWriteMass_eq (E : Stages) (m : FeaMeshMgr) :
    ComputeWriteMass E m
      = { m with
          m_TotalMass := (computeWriteMass E.ComputeMass m.m_FeaMeshStruct m.m_NumFeaParts
            m.m_FeaElementVec E.MassFileOpens).1
          m_Files := m.m_Files ++ massFile E m } := by
  unfold ComputeWriteMass massFile
  simp only []
  cases (computeWriteMass E.ComputeMass m.m_FeaMeshStruct m.m_NumFeaParts m.m_FeaElementVec
      E.MassFileOpens).2 with
  | none => simp
  | some report => rfl

theorem ExportFeaMesh_eq (E : Stages) (m : FeaMeshMgr)
    (hC : ∀ fs, E.WriteCalculix { m with m_Files := fs } = E.WriteCalculix m)
    (hS : ∀ fs, E.WriteSTL { m with m_Files := fs } = E.WriteSTL m)
    (hG : ∀ fs, E.WriteGmsh { m with m_Files := fs } = E.WriteGmsh m) :
    (ExportFeaMesh E m).m_Files
        = m.m_Files ++ optFile "NASTRAN" (E.WriteNASTRAN m)
          ++ optFile "CALCULIX" (E.WriteCalculix m) ++ optFile "STL" (E.WriteSTL m)
          ++ optFile "GMSH" (E.WriteGmsh m) ++ massFile E m
    ∧ (ExportFeaMesh E m).m_FeaElementVec = m.m_FeaElementVec
    ∧ (ExportFeaMesh E m).m_FeaNodeVec = m.m_FeaNodeVec
    ∧ (ExportFeaMesh E m).m_PntShift = m.m_PntShift
    ∧ (ExportFeaMesh E m).m_TotalMass
        = (computeWriteMass E.ComputeMass m.m_FeaMeshStruct m.m_NumFeaParts
            m.m_FeaElementVec E.MassFileOpens).1 := by
  unfold ExportFeaMesh
  simp only [writeFile_eq, ComputeWriteMass_eq, addOutputText, hC, hS, hG, massFile, and_self]

/-- C21. File-open failure is a per-format no-op.  A writer of this file whose
output file does not open makes no output call, and recording its (missing)
file leaves the manager as it is.  For every combination of the three files
opening or not, `ExportFeaMesh` leaves the element list, the node list and the
shift table unchanged, sets the same total mass as when all three files open,
and leaves exactly the files of the run in which all three files open, in the
same order and with the same content, without the files of the formats that
did not open; with its file open each of the three writers does write a file.
The writer of the base class (`WriteSTL`) is assumed not to read the files
written so far. -/
theorem C21_file_open_failure_per_format (E : Stages)
    (render : List FeaElement → List FeaNode → Rec → String) (a b c : Bool) (m : FeaMeshMgr)
    (hS : ∀ fs, E.WriteSTL { m with m_Files := fs } = E.WriteSTL m) :
    (WriteNASTRAN E.StructMgr false m = none ∧ WriteCalculix E.StructMgr false m = none
      ∧ WriteGmsh false m = none)
    ∧ (∀ format, writeFile m format none = m)
    ∧ (ExportFeaMesh (writerStages E render a b c) m).m_FeaElementVec = m.m_FeaElementVec
    ∧ (ExportFeaMesh (writerStages E render a b c) m).m_FeaNodeVec = m.m_FeaNodeVec
    ∧ (ExportFeaMesh (writerStages E render a b c) m).m_PntShift = m.m_PntShift
    ∧ (ExportFeaMesh (writerStages E render a b c) m).m_TotalMass
        = (ExportFeaMesh (writerStages E render true true true) m).m_TotalMass
    ∧ (ExportFeaMesh (writerStages E render a b c) m).m_Files
        = m.m_Files
          ++ (if a then
                optFile "NASTRAN" ((writerStages E render true true true).WriteNASTRAN m)
              else [])
          ++ (if b then
                optFile "CALCULIX" ((writerStages E render true true true).WriteCalculix m)
              else [])
          ++ optFile "STL" (E.WriteSTL m)
          ++ (if c then
                optFile "GMSH" ((writerStages E render true true true).WriteGmsh m)
              else [])
          ++ massFile E m
    ∧ (∃ n k g, (writerStages E render true true true).WriteNASTRAN m = some n
        ∧ (writerStages E render true true true).WriteCalculix m = some k
        ∧ (writerStages E render true true true).WriteGmsh m = some g) := by
  have hx := ExportFeaMesh_eq (writerStages E render a b c) m (fun _ => rfl) hS (fun _ => rfl)
  have hy := ExportFeaMesh_eq (writerStages E render true true true) m (fun _ => rfl) hS
    (fun _ => rfl)
  have hn : optFile "NASTRAN" ((writerStages E render a b c).WriteNASTRAN m)
      = if a then optFile "NASTRAN" ((writerStages E render true true true).WriteNASTRAN m)
        else [] := by
    cases a <;> rfl
  have hc : optFile "CALCULIX" ((writerStages E render a b c).WriteCalculix m)
      = if b then optFile "CALCULIX" ((writerStages E render true true true).WriteCalculix m)
        else [] := by
    cases b <;> rfl
  have hg : optFile "GMSH" ((writerStages E render a b c).WriteGmsh m)
      = if c then optFile "GMSH" ((writerStages E render true true true).WriteGmsh m)
        else [] := by
    cases c <;> rfl
  refine ⟨⟨rfl, rfl, rfl⟩, fun _ => rfl, hx.2.1, hx.2.2.1, hx.2.2.2.1, ?_, ?_, ⟨_, _, _, rfl, rfl, rfl⟩⟩
  · rw [hx.2.2.2.2, hy.2.2.2.2]
    rfl
  · rw [hx.1, hn, hc, hg]
    rfl

/-- C21 at the manager holding the junction elements, with only the file of
`WriteCalculix` failing to open. -/
theorem C21_file_open_failure_per_format_witness :
    (∀ fs, flatStages.WriteSTL { junctionMgr with m_Files := fs } = flatStages.WriteSTL junctionMgr)
    ∧ (ExportFeaMesh (writerStages flatStages (fun _ _ _ => "") true false true)
          junctionMgr).m_Files
        = junctionMgr.m_Files
          ++ (if true then
                optFile "NASTRAN"
                  ((writerStages flatStages (fun _ _ _ => "") true true true).WriteNASTRAN
                    junctionMgr)
              else [])
          ++ (if false then
                optFile "CALCULIX"
                  ((writerStages flatStages (fun _ _ _ => "") true true true).WriteCalculix
                    junctionMgr)
              else [])
          ++ optFile "STL" (flatStages.WriteSTL junctionMgr)
          ++ (if true then
                optFile "GMSH"
                  ((writerStages flatStages (fun _ _ _ => "") true true true).WriteGmsh
                    junctionMgr)
              else [])
          ++ massFile flatStages junctionMgr :=
  ⟨fun _ => rfl,
    (C21_file_open_failure_per_format flatStages (fun _ _ _ => "") true false true junctionMgr
      (fun _ => rfl)).2.2.2.2.2.2.1⟩

theorem chainBeams_junction (K : Kernel) (st : FeaStructure) (c : ISegChain)
    (hb : c.m_BorderFlag = false) (hq : caseA st c) :
    chainBeams K st c = junctionBeams K (partSurf c).m_BBoxCenter c := by
  rcases hq with ⟨hA, hB, hcap⟩ | ⟨hB, hA, hcap⟩
  · have hB' : ¬ c.m_SurfB.m_CompID < 0 := not_lt.mpr hB
    have hA' : ¬ 0 ≤ c.m_SurfA.m_CompID := not_le.mpr hA
    simp only [chainBeams, junctionBeams, junctionSeq, chainTheta, resolvedPartIndex, partSurf,
      skinSurf]
    simp only [hb, hA, hB, hcap, hA', hB', Bool.not_false, if_true, decide_True, decide_False,
      Bool.true_and, Bool.and_true, Bool.or_true, Bool.true_or, Bool.or_false, Bool.and_self,
      ge_iff_le, if_false, decide_eq_true_eq]
    split_ifs <;> simp only [List.map_reverse]
  · have hB' : ¬ 0 ≤ c.m_SurfB.m_CompID := not_le.mpr hB
    have hA' : ¬ c.m_SurfA.m_CompID < 0 := not_lt.mpr hA
    simp only [chainBeams, junctionBeams, junctionSeq, chainTheta, resolvedPartIndex, partSurf,
      skinSurf]
    simp only [hb, hA, hB, hcap, hA', hB', Bool.not_false, if_true, decide_True, decide_False,
      Bool.true_and, Bool.and_true, Bool.or_true, Bool.true_or, Bool.or_false, Bool.and_self,
      Bool.false_and, Bool.false_or, Bool.and_false,
      ge_iff_le, if_false, decide_eq_true_eq]
    split_ifs <;> first | contradiction | simp only [List.map_reverse]

/-- C22 as stated fails.  At the junction chain `offsetChain` (case a, rib
cap-flagged) the beams of `BuildFeaMesh` are not the beams obtained with the
centre of the skin surface as the centre point: with the skin centre
`(0, 0, -1)` the signed angle is not negative and the chain order is kept,
while the code, which takes the centre `(0, 0, 1)` of the rib surface, finds a
negative angle and reverses the order. -/
theorem C22_skin_centre_not_used :
    offsetChain.m_BorderFlag = false
    ∧ caseA ribCapStruct offsetChain
    ∧ (skinSurf offsetChain).m_BBoxCenter = ⟨0, 0, -1⟩
    ∧ chainBeams crossKernel ribCapStruct offsetChain
        ≠ junctionBeams crossKernel (skinSurf offsetChain).m_BBoxCenter offsetChain
    ∧ (chainBeams crossKernel ribCapStruct offsetChain).map (fun b => b.m_Corners)
        = [[⟨0, -1, 1⟩, ⟨1, 0, 1⟩]]
    ∧ (junctionBeams crossKernel (skinSurf offsetChain).m_BBoxCenter offsetChain).map
        (fun b => b.m_Corners) = [[⟨1, 0, 1⟩, ⟨0, -1, 1⟩]] := by
  have ha : caseA ribCapStruct offsetChain := Or.inr ⟨by decide, by decide, by decide⟩
  have h1 : (chainBeams crossKernel ribCapStruct offsetChain).map (fun b => b.m_Corners)
      = [[⟨0, -1, 1⟩, ⟨1, 0, 1⟩]] := by
    rw [chainBeams_junction crossKernel ribCapStruct offsetChain rfl ha]
    simp [junctionBeams, junctionSeq, chainTheta, crossKernel, partSurf, skinSurf, offsetChain,
      defineBeams, vec3d.sub, vec3d.cross, vec3d.dot, vec3d.zero, List.getLastD, List.range']
  have h2 : (junctionBeams crossKernel (skinSurf offsetChain).m_BBoxCenter offsetChain).map
      (fun b => b.m_Corners) = [[⟨1, 0, 1⟩, ⟨0, -1, 1⟩]] := by
    simp [junctionBeams, junctionSeq, chainTheta, crossKernel, partSurf, skinSurf, offsetChain,
      defineBeams, vec3d.sub, vec3d.cross, vec3d.dot, vec3d.zero, List.getLastD, List.range']
    norm_num
  refine ⟨rfl, ha, by decide, ?_, h1, h2⟩
  intro h
  rw [h, h2] at h1
  exact absurd h1 (by decide)

/-- C22 (amended). In a part/skin junction chain (case a) the centre point used
as the reference of the signed angle that decides the traversal direction is
the centre of the bounding box of the structural-part surface (the adjoining
surface with negative component id, whose part is cap-flagged); the skin
surface (the adjoining surface with non-negative component id) supplies the
normals only. -/
theorem C22_centre_of_part_surface (K : Kernel) (st : FeaStructure) (c : ISegChain)
    (hb : c.m_BorderFlag = false) (hq : caseA st c) :
    chainBeams K st c = junctionBeams K (partSurf c).m_BBoxCenter c
    ∧ (partSurf c).m_CompID < 0
    ∧ FeaPartCap st (partSurf c).m_FeaPartIndex = true
    ∧ 0 ≤ (skinSurf c).m_CompID := by
  refine ⟨chainBeams_junction K st c hb hq, ?_⟩
  rcases hq with ⟨hA, hB, hcap⟩ | ⟨hB, hA, hcap⟩
  · have hA' : ¬ c.m_SurfA.m_CompID ≥ 0 := not_le.mpr hA
    simp only [partSurf, skinSurf, hA, hA', if_true, if_false]
    exact ⟨trivial, hcap, hB⟩
  · have hA' : ¬ c.m_SurfA.m_CompID < 0 := not_lt.mpr hA
    have hA2 : c.m_SurfA.m_CompID ≥ 0 := hA
    simp only [partSurf, skinSurf, hA', hA2, if_true, if_false]
    exact ⟨hB, hcap, trivial⟩

/-- C22 (amended) at the junction chain `offsetChain`, whose rib surface is
centred at `(0, 0, 1)`. -/
theorem C22_centre_of_part_surface_witness :
    offsetChain.m_BorderFlag = false
    ∧ caseA ribCapStruct offsetChain
    ∧ (partSurf offsetChain).m_BBoxCenter = ⟨0, 0, 1⟩
    ∧ chainBeams crossKernel ribCapStruct offsetChain
        = junctionBeams crossKernel (partSurf offsetChain).m_BBoxCenter offsetChain :=
  ⟨rfl, Or.inr ⟨by decide, by decide, by decide⟩, by decide,
    (C22_centre_of_part_surface crossKernel ribCapStruct offsetChain rfl
      (Or.inr ⟨by decide, by decide, by decide⟩)).1⟩

theorem computeWriteMass_total (ComputeMass : FeaElement → Int → ℚ) (st : FeaStructure) (N : Int)
    (elems : List FeaElement) (fp : Bool) :
    (computeWriteMass ComputeMass st N elems fp).1
      = if fp then ((List.range (toUnsigned N)).map (partMass ComputeMass st elems)).sum
        else 0 := by
  unfold computeWriteMass
  cases fp with
  | false => rfl
  | true =>
    simp only [if_true]
    rw [massLoop_eq (fun i => st.GetFeaPartName i) (partMass ComputeMass st elems)]
    simp only [zero_add]

theorem ExportFeaMesh_total (E : Stages) (m : FeaMeshMgr) :
    (ExportFeaMesh E m).m_TotalMass = (ComputeWriteMass E m).m_TotalMass
    ∧ (ExportFeaMesh E m).m_OutStream
        = m.m_OutStream ++ ["Total Mass = " ++ E.to_string (ComputeWriteMass E m).m_TotalMass
            ++ "\n"] := by
  unfold ExportFeaMesh
  simp only [writeFile_eq, ComputeWriteMass_eq, addOutputText, and_self]

/-- C23 as stated fails.  For the same element list (a triangle of part 0 and
a beam of part 1, each of mass 1) the total mass set by `ComputeWriteMass` is 2
when the mass report file opens and 0 when it does not. -/
theorem C23_total_mass_zero_without_file :
    (ComputeWriteMass flatStages junctionMgr).m_TotalMass = 2
    ∧ (ComputeWriteMass noMassFileStages junctionMgr).m_TotalMass = 0
    ∧ (ComputeWriteMass noMassFileStages junctionMgr).m_TotalMass
        ≠ (ComputeWriteMass flatStages junctionMgr).m_TotalMass := by
  have h1 : (ComputeWriteMass flatStages junctionMgr).m_TotalMass = 2 := by
    rw [ComputeWriteMass_eq]
    simp only []
    rw [computeWriteMass_total]
    simp [flatStages, junctionMgr, junctionElems, ribCapStruct, partMass, toUnsigned,
      FeaStructure.GetFeaPropertyIndex, List.range_succ]
    norm_num
  have h2 : (ComputeWriteMass noMassFileStages junctionMgr).m_TotalMass = 0 := by
    rw [ComputeWriteMass_eq]
    simp only []
    rw [computeWriteMass_total]
    rfl
  refine ⟨h1, h2, ?_⟩
  rw [h1, h2]
  norm_num

/-- C23 (amended). The total mass set by `ComputeWriteMass`, and then held and
reported by `ExportFeaMesh`, is the sum of the part masses when the mass report
file opens; when the file does not open no part mass is computed and the total
mass is 0. -/
theorem C23_total_mass_by_file (E : Stages) (m : FeaMeshMgr) :
    (ComputeWriteMass E m).m_TotalMass
        = (if E.MassFileOpens then
            ((List.range (toUnsigned m.m_NumFeaParts)).map
              (partMass E.ComputeMass m.m_FeaMeshStruct m.m_FeaElementVec)).sum
          else 0)
    ∧ (ExportFeaMesh E m).m_TotalMass = (ComputeWriteMass E m).m_TotalMass
    ∧ (ExportFeaMesh E m).m_OutStream
        = m.m_OutStream ++ ["Total Mass = " ++ E.to_string (ComputeWriteMass E m).m_TotalMass
            ++ "\n"] := by
  refine ⟨?_, (ExportFeaMesh_total E m).1, (ExportFeaMesh_total E m).2⟩
  rw [ComputeWriteMass_eq]
  exact computeWriteMass_total _ _ _ _ _

theorem getD_map_of_getElem? {α : Type} (l : List α) (f : α → vec3d) (k : Nat) (a : α)
    (h : l[k]? = some a) : (l.map f).getD k vec3d.zero = f a := by
  rw [List.getD_eq_getElem?_getD, List.getElem?_map, h]
  rfl

theorem defineBeams_of_seq (K : Kernel) (NormSurf : Surf) (idx : Int) (seq : List IPnt)
    (ss : List Int) (k : Nat) (p q : IPnt) (hp : seq[k]? = some p) (hq : seq[k + 1]? = some q) :
    ∃ b, (defineBeams idx (seq.map (fun p => p.m_Pnt)) (seq.map (chainNorm K NormSurf)) ss)[k]?
        = some b
      ∧ b.m_ElementType = ElementType.FEA_BEAM
      ∧ b.m_Corners = [p.m_Pnt, q.m_Pnt]
      ∧ b.m_Vec = (if NormSurf.m_FlipFlag then (K.CompNorm NormSurf p).neg
          else K.CompNorm NormSurf p) := by
  have hlt : k + 1 < seq.length := by
    by_contra hge
    rw [List.getElem?_eq_none (by omega)] at hq
    cases hq
  have hk : k < (seq.map (fun p => p.m_Pnt)).length - 1 := by
    rw [List.length_map]; omega
  refine ⟨_, defineBeams_getElem? idx _ _ ss k hk, rfl, ?_, ?_⟩
  · simp only []
    rw [getD_map_of_getElem? seq _ k p hp, getD_map_of_getElem? seq _ (k + 1) q hq]
  · simp only []
    rw [getD_map_of_getElem? seq _ k p hp]
    rfl

/-- C24. Beam orientation.  At a part/skin junction chain (case a) the beams
are built from the reversed point sequence when the signed angle between
(first point - centre) and (last point - centre) is negative, and from the
chain order otherwise; at a sub-surface boundary chain (case b) they are built
from the chain order.  In every case there are as many beams as pairs of
consecutive points, beam `k` joins points `k` and `k + 1` of the sequence used,
and its normal vector is the normal of the skin surface (of the surface, in
case b) evaluated at its own first point, negated exactly when the flip flag
of that surface is set. -/
theorem C24_beam_orientation (K : Kernel) (st : FeaStructure) (c : ISegChain)
    (hb : c.m_BorderFlag = false) :
    (caseA st c →
      (chainTheta K (partSurf c).m_BBoxCenter c < 0 →
        junctionSeq K (partSurf c).m_BBoxCenter c = c.m_TessVec.reverse)
      ∧ (¬ chainTheta K (partSurf c).m_BBoxCenter c < 0 →
        junctionSeq K (partSurf c).m_BBoxCenter c = c.m_TessVec)
      ∧ (chainBeams K st c).length = c.m_TessVec.length - 1
      ∧ ∀ k p q, (junctionSeq K (partSurf c).m_BBoxCenter c)[k]? = some p →
          (junctionSeq K (partSurf c).m_BBoxCenter c)[k + 1]? = some q →
          ∃ b, (chainBeams K st c)[k]? = some b
            ∧ b.m_ElementType = ElementType.FEA_BEAM
            ∧ b.m_Corners = [p.m_Pnt, q.m_Pnt]
            ∧ b.m_Vec = (if (skinSurf c).m_FlipFlag then (K.CompNorm (skinSurf c) p).neg
                else K.CompNorm (skinSurf c) p))
    ∧ (caseB c →
      (chainBeams K st c).length = c.m_TessVec.length - 1
      ∧ ∀ k p q, c.m_TessVec[k]? = some p → c.m_TessVec[k + 1]? = some q →
          ∃ b, (chainBeams K st c)[k]? = some b
            ∧ b.m_ElementType = ElementType.FEA_BEAM
            ∧ b.m_Corners = [p.m_Pnt, q.m_Pnt]
            ∧ b.m_Vec = (if c.m_SurfA.m_FlipFlag then (K.CompNorm c.m_SurfA p).neg
                else K.CompNorm c.m_SurfA p)) := by
  constructor
  · intro hq
    have hj := chainBeams_junction K st c hb hq
    refine ⟨fun h => by simp only [junctionSeq, h, if_true],
      fun h => by simp only [junctionSeq, h, if_false], ?_, ?_⟩
    · rw [hj]
      unfold junctionBeams
      rw [defineBeams_length, List.length_map]
      unfold junctionSeq
      split_ifs <;> simp
    · intro k p q hp hq2
      rw [hj]
      exact defineBeams_of_seq K (skinSurf c) _ _ _ k p q hp hq2
  · intro hq
    rw [chainBeams_caseB K st c hb hq]
    refine ⟨by rw [defineBeams_length, List.length_map], ?_⟩
    intro k p q hp hq2
    exact defineBeams_of_seq K c.m_SurfA _ _ _ k p q hp hq2

/-- C24 at the junction chain `offsetChain`, where the signed angle is negative
and the only beam runs from the last chain point to the first. -/
theorem C24_beam_orientation_witness :
    offsetChain.m_BorderFlag = false
    ∧ caseA ribCapStruct offsetChain
    ∧ (junctionSeq crossKernel (partSurf offsetChain).m_BBoxCenter offsetChain)[0]?
        = some { m_Pnt := ⟨0, -1, 1⟩ }
    ∧ (junctionSeq crossKernel (partSurf offsetChain).m_BBoxCenter offsetChain)[0 + 1]?
        = some { m_Pnt := ⟨1, 0, 1⟩ }
    ∧ ∃ b, (chainBeams crossKernel ribCapStruct offsetChain)[0]? = some b
        ∧ b.m_ElementType = ElementType.FEA_BEAM
        ∧ b.m_Corners = [(⟨0, -1, 1⟩ : vec3d), ⟨1, 0, 1⟩]
        ∧ b.m_Vec = (if (skinSurf offsetChain).m_FlipFlag then
              (crossKernel.CompNorm (skinSurf offsetChain) { m_Pnt := ⟨0, -1, 1⟩ }).neg
            else crossKernel.CompNorm (skinSurf offsetChain) { m_Pnt := ⟨0, -1, 1⟩ }) := by
  have ha : caseA ribCapStruct offsetChain := Or.inr ⟨by decide, by decide, by decide⟩
  have h0 : (junctionSeq crossKernel (partSurf offsetChain).m_BBoxCenter offsetChain)
      = [{ m_Pnt := ⟨0, -1, 1⟩ }, { m_Pnt := ⟨1, 0, 1⟩ }] := by
    simp [junctionSeq, chainTheta, crossKernel, partSurf, offsetChain,
      vec3d.sub, vec3d.cross, vec3d.dot, vec3d.zero, List.getLastD]
  have hp : (junctionSeq crossKernel (partSurf offsetChain).m_BBoxCenter offsetChain)[0]?
      = some { m_Pnt := ⟨0, -1, 1⟩ } := by rw [h0]; rfl
  have hq : (junctionSeq crossKernel (partSurf offsetChain).m_BBoxCenter offsetChain)[0 + 1]?
      = some { m_Pnt := ⟨1, 0, 1⟩ } := by rw [h0]; rfl
  exact ⟨rfl, ha, hp, hq,
    ((C24_beam_orientation crossKernel ribCapStruct offsetChain rfl).1 ha).2.2.2 0 _ _ hp hq⟩

theorem curChain_valid (surf : Surf) (cur : List SSLineSeg) :
    (curChain surf cur).Valid = !cur.isEmpty := by
  cases cur with
  | nil => rfl
  | cons a t =>
    simp [curChain, ISegChain.Valid, List.flatMap_cons, subSegs_length]
    omega

theorem finishChain_loopState (surf : Surf) (cap : Bool) (ss : Nat) (nc : Bool)
    (cur : List SSLineSeg) (L : List ISegChain) :
    (finishChain cap ss (loopState surf nc cur L)).m_ISegChainList
        = L ++ (if cur.isEmpty then [] else [runChain surf cap ss cur])
    ∧ (finishChain cap ss (loopState surf nc cur L)).new_chain = nc := by
  unfold finishChain loopState
  simp only [curChain_valid]
  cases cur with
  | nil => simp
  | cons a t =>
    simp only [List.isEmpty_cons, Bool.not_false, if_true, Bool.false_eq_true, if_false, and_true]
    cases cap <;> rfl

theorem segStep_eq (surf : Surf) (is_poly cap : Bool) (ss : Nat) (st : ChainLoop)
    (l_seg : SSLineSeg) :
    segStep surf is_poly cap ss st l_seg
      = (let st1 := if st.new_chain && st.chain.isSome then finishChain cap ss st else st
         let st2 :=
           if st1.new_chain then
             { st1 with chain := some (newChain surf)
                        new_chain := if !is_poly then false else st1.new_chain }
           else st1
         if retained surf is_poly l_seg then
           { st2 with chain := st2.chain.map fun c =>
               { c with m_ISegDeque := c.m_ISegDeque ++ subSegs l_seg } }
         else { st2 with new_chain := true }) := by
  unfold segStep retained
  simp only []
  cases belowMin surf l_seg <;> cases aboveMax surf l_seg <;>
    cases (onSameEdge surf l_seg && is_poly) <;> rfl

/-- One pass of the segment loop from a state with a chain under
construction.  With `new_chain` set the chain under construction is closed
(appended when it holds a segment) and a new chain is begun; a retained segment
is added to the chain then under construction, a skipped one sets
`new_chain`. -/
theorem segStep_loopState (surf : Surf) (is_poly cap : Bool) (ss : Nat) (nc : Bool)
    (cur : List SSLineSeg) (L : List ISegChain) (l_seg : SSLineSeg) :
    segStep surf is_poly cap ss (loopState surf nc cur L) l_seg
      = if nc then
          loopState surf (if retained surf is_poly l_seg then is_poly else true)
            (if retained surf is_poly l_seg then [l_seg] else [])
            (L ++ (if cur.isEmpty then [] else [runChain surf cap ss cur]))
        else
          loopState surf (!retained surf is_poly l_seg)
            (if retained surf is_poly l_seg then cur ++ [l_seg] else cur) L := by
  rw [segStep_eq]
  cases nc with
  | false =>
    simp only [loopState, Bool.false_and, Bool.false_eq_true, if_false]
    cases retained surf is_poly l_seg with
    | false => rfl
    | true =>
      simp only [if_true, Option.map_some', Bool.not_true, curChain, List.flatMap_append,
        List.flatMap_cons, List.flatMap_nil, List.append_nil]
  | true =>
    obtain ⟨h1, h2⟩ := finishChain_loopState surf cap ss true cur L
    have hsome : ((loopState surf true cur L).new_chain && (loopState surf true cur L).chain.isSome)
        = true := rfl
    simp only [hsome, if_true, h1, h2]
    cases retained surf is_poly l_seg with
    | false => rfl
    | true =>
      cases is_poly <;>
        simp [loopState, curChain, newChain]

theorem segStep_init (surf : Surf) (is_poly cap : Bool) (ss : Nat) (L : List ISegChain)
    (l_seg : SSLineSeg) :
    segStep surf is_poly cap ss { chain := none, new_chain := true, m_ISegChainList := L } l_seg
      = segStep surf is_poly cap ss (loopState surf true [] L) l_seg := by
  rw [segStep_eq, segStep_eq]
  rfl

theorem map_runChain_cons (surf : Surf) (cap : Bool) (ss : Nat) (cur : List SSLineSeg)
    (rest : List (List SSLineSeg)) :
    ((if cur.isEmpty then [] else [cur]) ++ rest).map (runChain surf cap ss)
      = (if cur.isEmpty then [] else [runChain surf cap ss cur])
        ++ rest.map (runChain surf cap ss) := by
  cases cur <;> simp

/-- Segment loop of an open sub-surface: the chains appended are the chains of
the maximal runs of consecutive retained segments. -/
theorem openLoop_chains (surf : Surf) (cap : Bool) (ss : Nat) (segs : List SSLineSeg) :
    ∀ (nc : Bool) (cur : List SSLineSeg) (L : List ISegChain),
      (finishChain cap ss
          (segs.foldl (segStep surf false cap ss) (loopState surf nc cur L))).m_ISegChainList
        = if nc then
            L ++ (if cur.isEmpty then [] else [runChain surf cap ss cur])
              ++ (runsAux (retained surf false) segs []).map (runChain surf cap ss)
          else L ++ (runsAux (retained surf false) segs cur).map (runChain surf cap ss) := by
  induction segs with
  | nil =>
    intro nc cur L
    rw [List.foldl_nil, (finishChain_loopState surf cap ss nc cur L).1]
    cases nc <;> cases cur <;> simp [runsAux]
  | cons seg rest ih =>
    intro nc cur L
    rw [List.foldl_cons, segStep_loopState]
    cases nc with
    | false =>
      simp only [Bool.false_eq_true, if_false]
      cases hr : retained surf false seg with
      | false =>
        simp only [Bool.not_false, Bool.false_eq_true, if_false]
        rw [ih true cur L]
        simp only [if_true, runsAux, hr, Bool.false_eq_true, if_false, map_runChain_cons,
          List.append_assoc]
      | true =>
        simp only [Bool.not_true, if_true]
        rw [ih false (cur ++ [seg]) L]
        simp only [Bool.false_eq_true, if_false, runsAux, hr, if_true]
    | true =>
      simp only [if_true]
      cases hr : retained surf false seg with
      | false =>
        simp only [Bool.false_eq_true, if_false]
        rw [ih true [] _]
        simp only [if_true, runsAux, hr, Bool.false_eq_true, if_false, List.isEmpty_nil,
          List.append_nil, List.nil_append]
      | true =>
        simp only [if_true]
        rw [ih false [seg] _]
        simp only [Bool.false_eq_true, if_false, runsAux, hr, if_true, List.nil_append]

/-- Segment loop of a polygonal sub-surface: every retained segment is
appended as a chain of its own. -/
theorem polyLoop_runs (surf : Surf) (cap : Bool) (ss : Nat) (segs : List SSLineSeg) :
    ∀ (cur : List SSLineSeg) (L : List ISegChain),
      (finishChain cap ss
          (segs.foldl (segStep surf true cap ss) (loopState surf true cur L))).m_ISegChainList
        = L ++ (if cur.isEmpty then [] else [runChain surf cap ss cur])
            ++ ((segs.filter (retained surf true)).map (fun s => [s])).map
                (runChain surf cap ss) := by
  induction segs with
  | nil =>
    intro cur L
    rw [List.foldl_nil, (finishChain_loopState surf cap ss true cur L).1]
    simp
  | cons seg rest ih =>
    intro cur L
    rw [List.foldl_cons, segStep_loopState]
    simp only [if_true]
    cases hr : retained surf true seg with
    | false =>
      simp only [Bool.false_eq_true, if_false]
      rw [ih [] _]
      simp [List.filter_cons, hr]
    | true =>
      simp only [if_true]
      rw [ih [seg] _]
      simp [List.filter_cons, hr]

/-- The chains `BuildSubSurfIntChains` appends for one sub-surface on one
surface: one chain per run of `chainRuns`, in order. -/
theorem buildSubSurfChains_runs (surf : Surf) (is_poly cap : Bool) (ss : Nat)
    (segs : List SSLineSeg) (L : List ISegChain) :
    buildSubSurfChains surf is_poly cap ss segs L
      = L ++ (chainRuns surf is_poly segs).map (runChain surf cap ss) := by
  unfold buildSubSurfChains chainRuns maxRuns
  simp only []
  cases segs with
  | nil => cases is_poly <;> simp [finishChain, runsAux]
  | cons seg rest =>
    rw [List.foldl_cons, segStep_init, ← List.foldl_cons]
    cases is_poly with
    | false =>
      rw [openLoop_chains surf cap ss (seg :: rest) true [] L]
      simp
    | true =>
      rw [polyLoop_runs surf cap ss (seg :: rest) [] L]
      simp

theorem runsAux_flatten {α : Type} (p : α → Bool) (l : List α) :
    ∀ cur, (runsAux p l cur).flatten = cur ++ l.filter p := by
  induction l with
  | nil => intro cur; cases cur <;> simp [runsAux]
  | cons x xs ih =>
    intro cur
    cases hp : p x with
    | false =>
      simp only [runsAux, hp, Bool.false_eq_true, if_false, List.flatten_append, ih,
        List.filter_cons, List.nil_append]
      cases cur <;> simp
    | true =>
      simp only [runsAux, hp, if_true, ih, List.filter_cons, List.append_assoc,
        List.singleton_append]

theorem runsAux_ne_nil {α : Type} (p : α → Bool) (l : List α) :
    ∀ cur, ∀ run ∈ runsAux p l cur, run ≠ [] := by
  induction l with
  | nil =>
    intro cur run hrun
    cases cur with
    | nil => simp [runsAux] at hrun
    | cons a t =>
      simp only [runsAux, List.isEmpty_cons, Bool.false_eq_true, if_false,
        List.mem_singleton] at hrun
      rw [hrun]
      exact List.cons_ne_nil _ _
  | cons x xs ih =>
    intro cur run hrun
    cases hp : p x with
    | false =>
      simp only [runsAux, hp, Bool.false_eq_true, if_false, List.mem_append] at hrun
      rcases hrun with h | h
      · cases cur with
        | nil => simp at h
        | cons a t =>
          simp only [List.isEmpty_cons, Bool.false_eq_true, if_false, List.mem_singleton] at h
          rw [h]
          exact List.cons_ne_nil _ _
      · exact ih [] run h
    | true =>
      simp only [runsAux, hp, if_true] at hrun
      exact ih _ run hrun

theorem runsAux_all {α : Type} (p : α → Bool) (l : List α) (h : ∀ x ∈ l, p x = true) :
    ∀ cur, runsAux p l cur = if (cur ++ l).isEmpty then [] else [cur ++ l] := by
  induction l with
  | nil => intro cur; simp only [runsAux, List.append_nil]
  | cons x xs ih =>
    intro cur
    have hx : p x = true := h x (List.mem_cons_self _ _)
    simp only [runsAux, hx, if_true]
    rw [ih (fun y hy => h y (List.mem_cons_of_mem _ hy))]
    simp

theorem runsAux_split {α : Type} (p : α → Bool) (l1 : List α) (x : α) (l2 : List α)
    (hx : p x = false) :
    ∀ cur, runsAux p (l1 ++ x :: l2) cur = runsAux p l1 cur ++ runsAux p l2 [] := by
  induction l1 with
  | nil =>
    intro cur
    simp only [List.nil_append, runsAux, hx, Bool.false_eq_true, if_false]
  | cons y ys ih =>
    intro cur
    cases hp : p y with
    | false =>
      rw [List.cons_append]
      simp only [runsAux, hp, Bool.false_eq_true, if_false]
      rw [ih, List.append_assoc]
    | true =>
      rw [List.cons_append]
      simp only [runsAux, hp, if_true]
      rw [ih]

theorem chainRuns_flatten (surf : Surf) (is_poly : Bool) (segs : List SSLineSeg) :
    (chainRuns surf is_poly segs).flatten = segs.filter (retained surf is_poly) := by
  unfold chainRuns maxRuns
  cases is_poly with
  | false =>
    simp only [Bool.false_eq_true, if_false]
    rw [runsAux_flatten, List.nil_append]
  | true =>
    simp only [if_true]
    induction segs.filter (retained surf true) with
    | nil => rfl
    | cons a t ih => simp [List.flatten_cons, ih]

theorem chainRuns_ne_nil (surf : Surf) (is_poly : Bool) (segs : List SSLineSeg) :
    ∀ run ∈ chainRuns surf is_poly segs, run ≠ [] := by
  unfold chainRuns maxRuns
  cases is_poly with
  | false =>
    simp only [Bool.false_eq_true, if_false]
    exact runsAux_ne_nil _ _ []
  | true =>
    simp only [if_true]
    intro run hrun
    obtain ⟨s, _, rfl⟩ := List.mem_map.1 hrun
    exact List.cons_ne_nil _ _

theorem flatMap_subSegs_length (run : List SSLineSeg) :
    (run.flatMap subSegs).length = 100 * run.length := by
  induction run with
  | nil => rfl
  | cons a t ih =>
    rw [List.flatMap_cons, List.length_append, subSegs_length, ih, List.length_cons]
    ring

theorem runChains_segments (surf : Surf) (cap : Bool) (ss : Nat) (runs : List (List SSLineSeg)) :
    ((runs.map (runChain surf cap ss)).map (fun c => c.m_ISegDeque.length)).sum
      = 100 * runs.flatten.length := by
  induction runs with
  | nil => rfl
  | cons r rs ih =>
    rw [List.map_cons, List.map_cons, List.sum_cons, ih, List.flatten_cons, List.length_append]
    have : (runChain surf cap ss r).m_ISegDeque.length = 100 * r.length :=
      flatMap_subSegs_length r
    rw [this]
    ring

/-- C26. Chain bookkeeping in `BuildSubSurfIntChains`.  The chains appended for
a sub-surface on a surface are one chain per run of `chainRuns`, in order; the
runs are non-empty and, put end to end, are the retained segments in order, so
every appended chain is valid, and the segments of the appended chains number
100 times the retained boundary segments.  For an open sub-surface the runs are
the maximal runs of consecutive retained segments: a non-empty list of retained
segments is one run, and a skipped segment separates the runs before it from
the runs after it. -/
theorem C26_chain_bookkeeping (surf : Surf) (is_poly cap : Bool) (ss : Nat)
    (segs : List SSLineSeg) (L : List ISegChain) :
    buildSubSurfChains surf is_poly cap ss segs L
        = L ++ (chainRuns surf is_poly segs).map (runChain surf cap ss)
    ∧ (∀ run ∈ chainRuns surf is_poly segs, run ≠ [])
    ∧ (chainRuns surf is_poly segs).flatten = segs.filter (retained surf is_poly)
    ∧ (∀ c ∈ (chainRuns surf is_poly segs).map (runChain surf cap ss),
        c.Valid = true ∧ 1 ≤ c.m_ISegDeque.length)
    ∧ (((chainRuns surf is_poly segs).map (runChain surf cap ss)).map
          (fun c => c.m_ISegDeque.length)).sum
        = 100 * (segs.filter (retained surf is_poly)).length
    ∧ (∀ run : List SSLineSeg, run ≠ [] → (∀ s ∈ run, retained surf false s = true) →
        chainRuns surf false run = [run])
    ∧ (∀ (l1 : List SSLineSeg) (x : SSLineSeg) (l2 : List SSLineSeg),
        retained surf false x = false →
        chainRuns surf false (l1 ++ x :: l2)
          = chainRuns surf false l1 ++ chainRuns surf false l2) := by
  refine ⟨buildSubSurfChains_runs surf is_poly cap ss segs L,
    chainRuns_ne_nil surf is_poly segs, chainRuns_flatten surf is_poly segs, ?_, ?_, ?_, ?_⟩
  · intro c hc
    obtain ⟨run, hrun, rfl⟩ := List.mem_map.1 hc
    have hne := chainRuns_ne_nil surf is_poly segs run hrun
    have hlen : (runChain surf cap ss run).m_ISegDeque.length = 100 * run.length :=
      flatMap_subSegs_length run
    have hpos : 0 < run.length := List.length_pos.2 hne
    have h1 : 1 ≤ (runChain surf cap ss run).m_ISegDeque.length := by omega
    exact ⟨decide_eq_true h1, h1⟩
  · rw [runChains_segments, chainRuns_flatten]
  · intro run hne hall
    unfold chainRuns maxRuns
    simp only [Bool.false_eq_true, if_false]
    rw [runsAux_all _ _ hall, List.nil_append]
    cases run with
    | nil => exact absurd rfl hne
    | cons a t => rfl
  · intro l1 x l2 hx
    unfold chainRuns maxRuns
    simp only [Bool.false_eq_true, if_false]
    exact runsAux_split _ l1 x l2 hx []

theorem sum_range_single (x : Int) (g : Nat → ℚ) (n : Nat) :
    ((List.range n).map (fun (i : Nat) => if x = (i : Int) then g i else 0)).sum
      = if 0 ≤ x ∧ x < (n : Int) then g x.toNat else 0 := by
  induction n with
  | zero =>
    rw [List.range_zero, List.map_nil, List.sum_nil, if_neg]
    push_cast
    omega
  | succ n ih =>
    rw [List.range_succ, List.map_append, List.sum_append, ih, List.map_singleton,
      List.sum_singleton]
    by_cases hx : x = (n : Int)
    · have h1 : ¬ (0 ≤ x ∧ x < (n : Int)) := by omega
      have h2 : 0 ≤ x ∧ x < ((n + 1 : Nat) : Int) := by push_cast; omega
      have h3 : x.toNat = n := by omega
      rw [if_neg h1, if_pos hx, if_pos h2, h3, zero_add]
    · rw [if_neg hx, add_zero]
      by_cases h1 : 0 ≤ x ∧ x < (n : Int)
      · have h2 : 0 ≤ x ∧ x < ((n + 1 : Nat) : Int) := by push_cast; omega
        rw [if_pos h1, if_pos h2]
      · have h2 : ¬ (0 ≤ x ∧ x < ((n + 1 : Nat) : Int)) := by push_cast; omega
        rw [if_neg h1, if_neg h2]

theorem specPartMass_cons (ComputeMass : FeaElement → Int → ℚ) (st : FeaStructure)
    (e : FeaElement) (es : List FeaElement) (i : Nat) :
    specPartMass ComputeMass st (e :: es) i
      = (if e.m_FeaPartIndex = (i : Int) then ComputeMass e (st.GetFeaPropertyIndex i) else 0)
        + specPartMass ComputeMass st es i := by
  unfold specPartMass
  by_cases h : e.m_FeaPartIndex = (i : Int)
  · simp [List.filter_cons, h]
  · simp [List.filter_cons, h]

theorem sum_specPartMass (ComputeMass : FeaElement → Int → ℚ) (st : FeaStructure) (n : Nat)
    (elems : List FeaElement) :
    ((List.range n).map (specPartMass ComputeMass st elems)).sum
      = specElementMass ComputeMass st (n : Int) elems := by
  induction elems with
  | nil =>
    have h0 : (List.range n).map (specPartMass ComputeMass st []) = (List.range n).map (fun _ => 0) :=
      List.map_congr_left (fun i _ => rfl)
    rw [h0]
    simp [specElementMass]
  | cons e es ih =>
    have h1 : (List.range n).map (specPartMass ComputeMass st (e :: es))
        = (List.range n).map (fun (i : Nat) =>
            (if e.m_FeaPartIndex = (i : Int) then ComputeMass e (st.GetFeaPropertyIndex i)
              else 0)
            + specPartMass ComputeMass st es i) := by
      apply List.map_congr_left
      intro i _
      exact specPartMass_cons ComputeMass st e es i
    rw [h1, List.sum_map_add, ih,
      sum_range_single e.m_FeaPartIndex (fun i => ComputeMass e (st.GetFeaPropertyIndex i)) n]
    unfold specElementMass
    rw [List.map_cons, List.sum_cons]

/-- C27 as stated fails.  At the manager holding a triangle of part 0 and a
beam of part 1 (both part indices in `[0, NumFeaParts)`, each element of mass
1) the mass of the element list is 2, while the total mass set by
`ComputeWriteMass` is 0 when the mass report file does not open. -/
theorem C27_total_mass_not_element_sum :
    (∀ e ∈ junctionMgr.m_FeaElementVec,
      0 ≤ e.m_FeaPartIndex ∧ e.m_FeaPartIndex < junctionMgr.m_NumFeaParts)
    ∧ specElementMass noMassFileStages.ComputeMass junctionMgr.m_FeaMeshStruct
        junctionMgr.m_NumFeaParts junctionMgr.m_FeaElementVec = 2
    ∧ (ComputeWriteMass noMassFileStages junctionMgr).m_TotalMass
        ≠ specElementMass noMassFileStages.ComputeMass junctionMgr.m_FeaMeshStruct
            junctionMgr.m_NumFeaParts junctionMgr.m_FeaElementVec := by
  have h1 : specElementMass noMassFileStages.ComputeMass junctionMgr.m_FeaMeshStruct
      junctionMgr.m_NumFeaParts junctionMgr.m_FeaElementVec = 2 := by
    simp [specElementMass, noMassFileStages, flatStages, junctionMgr, junctionElems,
      ribCapStruct, FeaStructure.GetFeaPropertyIndex]
    norm_num
  have h2 : (ComputeWriteMass noMassFileStages junctionMgr).m_TotalMass = 0 := by
    rw [ComputeWriteMass_eq]
    simp only []
    rw [computeWriteMass_total]
    rfl
  refine ⟨by decide, h1, ?_⟩
  rw [h1, h2]
  norm_num

/-- C27 (amended). Mass conservation over the element list, when the mass
report file opens: the total mass set by `ComputeWriteMass` is the sum, over
the elements whose part index lies in `[0, NumFeaParts)`, of the mass of the
element under the property of its owning part; an element whose part index is
-1 or otherwise out of range counts for nothing, in no part mass and not in the
total; so when every part index is in range the total is the sum over every
element.  The part count and the part indices are machine integers. -/
theorem C27_mass_conservation (E : Stages) (m : FeaMeshMgr) (hfp : E.MassFileOpens = true)
    (hN : 0 ≤ m.m_NumFeaParts ∧ m.m_NumFeaParts < 2 ^ 31)
    (hE : ∀ e ∈ m.m_FeaElementVec, -2 ^ 31 ≤ e.m_FeaPartIndex ∧ e.m_FeaPartIndex < 2 ^ 31) :
    (ComputeWriteMass E m).m_TotalMass
        = specElementMass E.ComputeMass m.m_FeaMeshStruct m.m_NumFeaParts m.m_FeaElementVec
    ∧ (∀ i, i < m.m_NumFeaParts.toNat →
        partMass E.ComputeMass m.m_FeaMeshStruct m.m_FeaElementVec i
          = ((m.m_FeaElementVec.filter (fun e => decide (e.m_FeaPartIndex = (i : Int)))).map
              (fun e => E.ComputeMass e (m.m_FeaMeshStruct.GetFeaPropertyIndex i))).sum)
    ∧ ((∀ e ∈ m.m_FeaElementVec, 0 ≤ e.m_FeaPartIndex ∧ e.m_FeaPartIndex < m.m_NumFeaParts) →
        (ComputeWriteMass E m).m_TotalMass
          = (m.m_FeaElementVec.map (fun e =>
              E.ComputeMass e
                (m.m_FeaMeshStruct.GetFeaPropertyIndex e.m_FeaPartIndex.toNat))).sum) := by
  have h := computeWriteMass_open E.ComputeMass m.m_FeaMeshStruct m.m_NumFeaParts
    m.m_FeaElementVec hN hE
  have hcast : ((m.m_NumFeaParts.toNat : Nat) : Int) = m.m_NumFeaParts := Int.toNat_of_nonneg hN.1
  have htot : (ComputeWriteMass E m).m_TotalMass
      = specElementMass E.ComputeMass m.m_FeaMeshStruct m.m_NumFeaParts m.m_FeaElementVec := by
    rw [ComputeWriteMass_eq]
    simp only [hfp, h]
    rw [sum_specPartMass, hcast]
  refine ⟨htot, ?_, ?_⟩
  · intro i hi
    exact partMass_eq_spec E.ComputeMass m.m_FeaMeshStruct m.m_FeaElementVec hE i (by omega)
  · intro hall
    rw [htot]
    unfold specElementMass
    congr 1
    apply List.map_congr_left
    intro e he
    rw [if_pos (hall e he)]

/-- C27 (amended) at the manager holding a triangle of part 0 and a beam of
part 1. -/
theorem C27_mass_conservation_witness :
    flatStages.MassFileOpens = true
    ∧ (0 ≤ junctionMgr.m_NumFeaParts ∧ junctionMgr.m_NumFeaParts < 2 ^ 31)
    ∧ (∀ e ∈ junctionMgr.m_FeaElementVec, -2 ^ 31 ≤ e.m_FeaPartIndex ∧ e.m_FeaPartIndex < 2 ^ 31)
    ∧ (ComputeWriteMass flatStages junctionMgr).m_TotalMass
        = specElementMass flatStages.ComputeMass junctionMgr.m_FeaMeshStruct
            junctionMgr.m_NumFeaParts junctionMgr.m_FeaElementVec :=
  ⟨rfl, by decide, by decide,
    (C27_mass_conservation flatStages junctionMgr rfl (by decide) (by decide)).1⟩

/-- C28 fails on the code.  For the mesh state that `BuildFeaMesh` and
`TagFeaNodes` produce from the junction chain of a cap-flagged skin and a rib
without the flag, the element list holds one beam, whose part index is -1;
`WriteGmsh` declares 1 element in the header of the element block and writes no
element record. -/
theorem C28_gmsh_count_mismatch :
    (TagFeaNodes flatStages (BuildFeaMesh flatStages skinCapMgr)).m_FeaElementVec.map
        (fun e => e.m_FeaPartIndex) = [-1]
    ∧ ∃ out, WriteGmsh true (TagFeaNodes flatStages (BuildFeaMesh flatStages skinCapMgr))
        = some out
      ∧ out.drop (out.length - 3)
          = [Rec.text "$Elements\n", Rec.text "1\n", Rec.text "$EndElements\n"]
      ∧ out.filterMap Rec.elemId = [] := by
  refine ⟨by decide, _, rfl, by decide, by decide⟩

theorem mapFind_mapSet {κ ν : Type} [DecidableEq κ] (m : List (κ × ν)) (k : κ) (v : ν) (x : κ) :
    mapFind (mapSet m k v) x = if x = k then some v else mapFind m x := by
  induction m with
  | nil =>
    by_cases hxk : x = k
    · simp [mapSet, mapFind, hxk]
    · have hkx : ¬ k = x := fun h => hxk h.symm
      simp [mapSet, mapFind, hxk, hkx]
  | cons p t ih =>
    obtain ⟨a, b⟩ := p
    by_cases hak : a = k
    · by_cases hxk : x = k
      · simp [mapSet, mapFind, hak, hxk]
      · have hkx : ¬ k = x := fun h => hxk h.symm
        simp [mapSet, mapFind, hak, hxk, hkx]
    · by_cases hax : a = x
      · have hxk : ¬ x = k := fun h => hak (hax.trans h)
        simp [mapSet, mapFind, hak, hax, hxk]
      · simp [mapSet, mapFind, hak, hax, ih]

theorem firstSeenAux_cons {α : Type} [DecidableEq α] (acc : List α) (x : α) (l : List α) :
    firstSeenAux acc (x :: l) = firstSeenAux (if x ∈ acc then acc else acc ++ [x]) l := rfl

theorem firstSeenAux_prefix {α : Type} [DecidableEq α] (l : List α) :
    ∀ acc : List α, ∃ t, firstSeenAux acc l = acc ++ t := by
  induction l with
  | nil => intro acc; exact ⟨[], (List.append_nil _).symm⟩
  | cons x xs ih =>
    intro acc
    rw [firstSeenAux_cons]
    obtain ⟨t, ht⟩ := ih (if x ∈ acc then acc else acc ++ [x])
    by_cases hx : x ∈ acc
    · rw [if_pos hx] at ht ⊢
      exact ⟨t, ht⟩
    · rw [if_neg hx] at ht ⊢
      exact ⟨[x] ++ t, by rw [ht, List.append_assoc]⟩

theorem firstSeenAux_nodup {α : Type} [DecidableEq α] (l : List α) :
    ∀ acc : List α, acc.Nodup → (firstSeenAux acc l).Nodup := by
  induction l with
  | nil => intro acc h; exact h
  | cons x xs ih =>
    intro acc h
    rw [firstSeenAux_cons]
    apply ih
    by_cases hx : x ∈ acc
    · rw [if_pos hx]; exact h
    · rw [if_neg hx]
      exact List.nodup_append.2 ⟨h, List.nodup_singleton x, by
        intro a ha hb
        rw [List.mem_singleton] at hb
        exact hx (hb ▸ ha)⟩

theorem firstSeenAux_mem {α : Type} [DecidableEq α] (l : List α) :
    ∀ (acc : List α) (a : α), a ∈ firstSeenAux acc l ↔ a ∈ acc ∨ a ∈ l := by
  induction l with
  | nil => intro acc a; simp [firstSeenAux]
  | cons x xs ih =>
    intro acc a
    rw [firstSeenAux_cons, ih]
    by_cases hx : x ∈ acc
    · rw [if_pos hx, List.mem_cons]
      constructor
      · rintro (h | h)
        · exact Or.inl h
        · exact Or.inr (Or.inr h)
      · rintro (h | h | h)
        · exact Or.inl h
        · exact Or.inl (h ▸ hx)
        · exact Or.inr h
    · rw [if_neg hx, List.mem_append, List.mem_singleton, List.mem_cons]
      tauto

/-- One pass of the surface loop of `SubTagTris`, relative to the distinct ids
`F` seen so far in order of first appearance: a new id gets the next tag
number and one component name; the surface gets the rank of its id. -/
theorem subTagSurfStep_spec (G : String → Option String) (st : SubTagLoop) (F : List String)
    (names0 : List String) (surf : Surf)
    (hmap : ∀ x, mapFind st.tag_map x
      = if x ∈ F then some ((F.indexOf x : Int) + 1) else none)
    (hnum : st.tag_number = (F.length : Int))
    (hnames : ∃ new, st.m_CompNames = names0 ++ new ∧ new.length = F.length) :
    (∀ x, mapFind (subTagSurfStep G st surf).tag_map x
      = if x ∈ firstSeenAux F [surfId surf] then
          some (((firstSeenAux F [surfId surf]).indexOf x : Int) + 1)
        else none)
    ∧ (subTagSurfStep G st surf).tag_number = ((firstSeenAux F [surfId surf]).length : Int)
    ∧ (∃ new, (subTagSurfStep G st surf).m_CompNames = names0 ++ new
        ∧ new.length = (firstSeenAux F [surfId surf]).length)
    ∧ (subTagSurfStep G st surf).m_SurfVec
        = st.m_SurfVec
          ++ [{ surf with
                m_BaseTag := ((firstSeenAux F [surfId surf]).indexOf (surfId surf) : Int) + 1 }] := by
  have hid : surf.m_GeomID ++ toString surf.m_UnmergedCompID = surfId surf := rfl
  obtain ⟨new, hnew, hlen⟩ := hnames
  by_cases hin : surfId surf ∈ F
  · have hF : firstSeenAux F [surfId surf] = F := by
      simp [firstSeenAux, hin]
    have hfind : mapFind st.tag_map (surfId surf)
        = some ((F.indexOf (surfId surf) : Int) + 1) := by
      rw [hmap, if_pos hin]
    rw [hF]
    unfold subTagSurfStep
    simp only [hid, hfind, Option.getD_some]
    exact ⟨hmap, hnum, ⟨new, hnew, hlen⟩, trivial⟩
  · have hF : firstSeenAux F [surfId surf] = F ++ [surfId surf] := by
      simp [firstSeenAux, hin]
    have hfind : mapFind st.tag_map (surfId surf) = none := by
      rw [hmap, if_neg hin]
    have hidx : (F ++ [surfId surf]).indexOf (surfId surf) = F.length := by
      rw [List.indexOf_append_of_not_mem hin, List.indexOf_cons_self, Nat.add_zero]
    rw [hF]
    unfold subTagSurfStep
    simp only [hid, hfind, mapFind_mapSet, if_true, Option.getD_some, hidx, hnum]
    refine ⟨?_, ?_, ⟨new ++ [_], by rw [hnew, List.append_assoc], ?_⟩, trivial⟩
    · intro x
      by_cases hx : x = surfId surf
      · subst hx
        simp [hidx]
      · by_cases hxF : x ∈ F
        · simp only [hx, if_false, hmap, hxF, if_true, List.mem_append, List.mem_singleton,
            or_false, List.indexOf_append_of_mem hxF]
        · simp only [hx, if_false, hmap, hxF, List.mem_append, List.mem_singleton, or_self]
    · simp
    · simp [hlen]

theorem subTagLoop_ids (G : String → Option String) (names0 : List String) (l : List Surf) :
    ∀ (st : SubTagLoop) (F : List String),
      (∀ x, mapFind st.tag_map x = if x ∈ F then some ((F.indexOf x : Int) + 1) else none) →
      st.tag_number = (F.length : Int) →
      (∃ new, st.m_CompNames = names0 ++ new ∧ new.length = F.length) →
      (l.foldl (subTagSurfStep G) st).tag_number
          = ((firstSeenAux F (l.map surfId)).length : Int)
      ∧ (∃ new, (l.foldl (subTagSurfStep G) st).m_CompNames = names0 ++ new
          ∧ new.length = (firstSeenAux F (l.map surfId)).length)
      ∧ (l.foldl (subTagSurfStep G) st).m_SurfVec
          = st.m_SurfVec ++ l.map (fun s =>
              { s with m_BaseTag :=
                  ((firstSeenAux F (l.map surfId)).indexOf (surfId s) : Int) + 1 }) := by
  induction l with
  | nil =>
    intro st F _ hnum hnames
    exact ⟨hnum, hnames, by simp⟩
  | cons s rest ih =>
    intro st F hmap hnum hnames
    obtain ⟨h1, h2, h3, h4⟩ := subTagSurfStep_spec G st F names0 s hmap hnum hnames
    obtain ⟨k1, k2, k3⟩ := ih (subTagSurfStep G st s) (firstSeenAux F [surfId s]) h1 h2 h3
    have hF : firstSeenAux (firstSeenAux F [surfId s]) (rest.map surfId)
        = firstSeenAux F (surfId s :: rest.map surfId) := rfl
    have hmc : (s :: rest).map surfId = surfId s :: rest.map surfId := rfl
    rw [hF] at k1 k2 k3
    rw [List.foldl_cons, hmc]
    refine ⟨k1, k2, ?_⟩
    rw [k3, h4, List.map_cons, List.append_assoc, List.singleton_append]
    congr 2
    obtain ⟨t, ht⟩ := firstSeenAux_prefix (rest.map surfId) (firstSeenAux F [surfId s])
    rw [hF] at ht
    have hmem : surfId s ∈ firstSeenAux F [surfId s] :=
      (firstSeenAux_mem _ _ _).2 (Or.inr (List.mem_singleton_self _))
    rw [ht, List.indexOf_append_of_mem hmem]

theorem firstSeenAux_map {α β : Type} [DecidableEq α] [DecidableEq β] (h : α → β) (U : List α)
    (hinj : ∀ a ∈ U, ∀ b ∈ U, h a = h b → a = b) (l : List α) :
    ∀ acc : List α, (∀ a ∈ acc, a ∈ U) → (∀ a ∈ l, a ∈ U) →
      firstSeenAux (acc.map h) (l.map h) = (firstSeenAux acc l).map h := by
  induction l with
  | nil => intro acc _ _; rfl
  | cons x xs ih =>
    intro acc hacc hl
    have hxU : x ∈ U := hl x (List.mem_cons_self _ _)
    have hmem : h x ∈ acc.map h ↔ x ∈ acc := by
      constructor
      · intro hm
        obtain ⟨a, ha, hax⟩ := List.mem_map.1 hm
        rw [← hinj a (hacc a ha) x hxU hax]
        exact ha
      · exact fun hm => List.mem_map_of_mem h hm
    rw [List.map_cons, firstSeenAux_cons, firstSeenAux_cons]
    by_cases hx : x ∈ acc
    · rw [if_pos hx, if_pos (hmem.2 hx)]
      exact ih acc hacc (fun a ha => hl a (List.mem_cons_of_mem _ ha))
    · rw [if_neg hx, if_neg (fun hm => hx (hmem.1 hm))]
      have := ih (acc ++ [x])
        (fun a ha => by
          rcases List.mem_append.1 ha with h1 | h1
          · exact hacc a h1
          · rw [List.mem_singleton] at h1
            rw [h1]
            exact hxU)
        (fun a ha => hl a (List.mem_cons_of_mem _ ha))
      rw [List.map_append, List.map_singleton] at this
      exact this

theorem indexOf_map_inj {α β : Type} [DecidableEq α] [DecidableEq β] (h : α → β) (U : List α)
    (hinj : ∀ a ∈ U, ∀ b ∈ U, h a = h b → a = b) (k : α) (hk : k ∈ U) (F : List α) :
    (∀ a ∈ F, a ∈ U) → (F.map h).indexOf (h k) = F.indexOf k := by
  induction F with
  | nil => intro _; rfl
  | cons a t ih =>
    intro hF
    by_cases hak : a = k
    · rw [hak, List.map_cons, List.indexOf_cons_self, List.indexOf_cons_self]
    · have hne : h a ≠ h k := fun hh => hak (hinj a (hF a (List.mem_cons_self _ _)) k hk hh)
      rw [List.map_cons, List.indexOf_cons_ne _ hne, List.indexOf_cons_ne _ hak,
        ih (fun b hb => hF b (List.mem_cons_of_mem _ hb))]

theorem firstSeen_card {α : Type} [DecidableEq α] (l : List α) :
    (firstSeen l).length = l.toFinset.card := by
  have hnd : (firstSeen l).Nodup := firstSeenAux_nodup l [] List.nodup_nil
  rw [← List.toFinset_card_of_nodup hnd]
  congr 1
  ext a
  simp [firstSeen, firstSeenAux_mem]

/-- `SubTagTris` in terms of the keys of the surfaces, given that the id
strings of the surfaces tell their keys apart. -/
theorem SubTagTris_keys (G : String → Option String) (surfs : List Surf)
    (ss_vec : List SubSurface) (n : Int) (names0 : List String)
    (hkey : ∀ a ∈ surfs.map surfKey, ∀ b ∈ surfs.map surfKey, keyId a = keyId b → a = b) :
    (SubTagTris G surfs ss_vec n names0).tag_number
        = ((firstSeen (surfs.map surfKey)).length : Int)
    ∧ (∃ new, (SubTagTris G surfs ss_vec n names0).m_CompNames = names0 ++ new
        ∧ new.length = (firstSeen (surfs.map surfKey)).length)
    ∧ (SubTagTris G surfs ss_vec n names0).m_SurfVec
        = surfs.map (fun s =>
            { s with m_BaseTag :=
                ((firstSeen (surfs.map surfKey)).indexOf (surfKey s) : Int) + 1 }) := by
  have hids : surfs.map surfId = (surfs.map surfKey).map keyId := by
    rw [List.map_map]
    rfl
  have hFS : firstSeenAux [] (surfs.map surfId) = (firstSeen (surfs.map surfKey)).map keyId := by
    rw [hids]
    exact firstSeenAux_map keyId (surfs.map surfKey) hkey (surfs.map surfKey) []
      (fun a ha => absurd ha (List.not_mem_nil a)) (fun a ha => ha)
  obtain ⟨k1, k2, k3⟩ := subTagLoop_ids G names0 surfs
    { tag_map := [], geom_comp_map := [], comp_num_map := [], tag_number := 0
      m_CompNames := names0, m_SurfVec := [] } []
    (fun x => by simp [mapFind]) rfl ⟨[], by simp, rfl⟩
  rw [hFS, List.length_map] at k1 k2
  rw [hFS] at k3
  refine ⟨k1, k2, ?_⟩
  unfold SubTagTris
  simp only []
  rw [k3, List.nil_append]
  apply List.map_congr_left
  intro s hs
  have hsU : surfKey s ∈ surfs.map surfKey := List.mem_map_of_mem surfKey hs
  have hidx : ((firstSeen (surfs.map surfKey)).map keyId).indexOf (surfId s)
      = (firstSeen (surfs.map surfKey)).indexOf (surfKey s) :=
    indexOf_map_inj keyId (surfs.map surfKey) hkey (surfKey s) hsU _
      (fun a ha => by
        rcases (firstSeenAux_mem _ _ _).1 ha with h1 | h1
        · exact absurd h1 (List.not_mem_nil a)
        · exact h1)
  rw [hidx]

/-- C29. Tag numbering in `SubTagTris`.  With `K` the number of distinct keys
(geometry id, unmerged component id) of the surface list: every surface gets
as base tag the rank (from 1) of its key among the distinct keys in order of
first appearance, and is otherwise unchanged; the base tags in use are exactly
`1 .. K`; two surfaces get the same base tag if and only if they have the same
key; the component-name list receives exactly `K` entries; sub-surface `i`
(`i < NumFeaSubSurfs`) gets the tag `K + i + 1`, so the tags of two different
sub-surfaces differ and every sub-surface tag exceeds every base tag.  The id
strings under which the code files the surfaces are assumed to tell the keys
of the surface list apart. -/
theorem C29_tag_numbering (G : String → Option String) (surfs : List Surf)
    (ss_vec : List SubSurface) (n : Int) (names0 : List String)
    (hkey : ∀ a ∈ surfs.map surfKey, ∀ b ∈ surfs.map surfKey, keyId a = keyId b → a = b) :
    (firstSeen (surfs.map surfKey)).length = (surfs.map surfKey).toFinset.card
    ∧ (SubTagTris G surfs ss_vec n names0).m_SurfVec
        = surfs.map (fun s =>
            { s with m_BaseTag :=
                ((firstSeen (surfs.map surfKey)).indexOf (surfKey s) : Int) + 1 })
    ∧ (∀ t : Int, (∃ s ∈ (SubTagTris G surfs ss_vec n names0).m_SurfVec, s.m_BaseTag = t)
        ↔ (1 ≤ t ∧ t ≤ ((firstSeen (surfs.map surfKey)).length : Int)))
    ∧ (∀ (i j : Nat) (s1 s2 t1 t2 : Surf), surfs[i]? = some s1 → surfs[j]? = some s2 →
        (SubTagTris G surfs ss_vec n names0).m_SurfVec[i]? = some t1 →
        (SubTagTris G surfs ss_vec n names0).m_SurfVec[j]? = some t2 →
        (t1.m_BaseTag = t2.m_BaseTag ↔ surfKey s1 = surfKey s2))
    ∧ (∃ new, (SubTagTris G surfs ss_vec n names0).m_CompNames = names0 ++ new
        ∧ new.length = (firstSeen (surfs.map surfKey)).length)
    ∧ (∀ (i : Nat) (s : SubSurface), (i : Int) < n → ss_vec[i]? = some s →
        ∃ s2 : SubSurface, (SubTagTris G surfs ss_vec n names0).ss_vec[i]? = some s2
          ∧ s2.m_Tag = ((firstSeen (surfs.map surfKey)).length : Int) + (i : Int) + 1
          ∧ (∀ t ∈ (SubTagTris G surfs ss_vec n names0).m_SurfVec, t.m_BaseTag < s2.m_Tag)
          ∧ (∀ (j : Nat) (s3 : SubSurface), (j : Int) < n →
              (SubTagTris G surfs ss_vec n names0).ss_vec[j]? = some s3 →
              s3.m_Tag = s2.m_Tag → j = i)) := by
  obtain ⟨h1, h2, h3⟩ := SubTagTris_keys G surfs ss_vec n names0 hkey
  have hnd : (firstSeen (surfs.map surfKey)).Nodup := firstSeenAux_nodup _ [] List.nodup_nil
  have hmem : ∀ k, k ∈ firstSeen (surfs.map surfKey) ↔ k ∈ surfs.map surfKey := by
    intro k
    simp [firstSeen, firstSeenAux_mem]
  have hss : ∀ (i : Nat) (s : SubSurface), (i : Int) < n → ss_vec[i]? = some s →
      ∃ s2 : SubSurface, (SubTagTris G surfs ss_vec n names0).ss_vec[i]? = some s2
        ∧ s2.m_Tag = ((firstSeen (surfs.map surfKey)).length : Int) + (i : Int) + 1 := by
    intro i s hi hs
    have hnum := h1
    unfold SubTagTris at hnum ⊢
    simp only [] at hnum ⊢
    rw [List.getElem?_mapIdx, hs, Option.map_some', if_pos hi, hnum]
    exact ⟨_, rfl, rfl⟩
  have htags : ∀ t : Int,
      (∃ s ∈ (SubTagTris G surfs ss_vec n names0).m_SurfVec, s.m_BaseTag = t)
        ↔ (1 ≤ t ∧ t ≤ ((firstSeen (surfs.map surfKey)).length : Int)) := by
    intro t
    rw [h3]
    constructor
    · rintro ⟨s, hs, rfl⟩
      obtain ⟨s0, hs0, rfl⟩ := List.mem_map.1 hs
      have hlt : (firstSeen (surfs.map surfKey)).indexOf (surfKey s0)
          < (firstSeen (surfs.map surfKey)).length :=
        List.indexOf_lt_length.2 ((hmem _).2 (List.mem_map_of_mem surfKey hs0))
      simp only []
      omega
    · rintro ⟨ht1, ht2⟩
      have hlt : (t - 1).toNat < (firstSeen (surfs.map surfKey)).length := by omega
      have hk : (firstSeen (surfs.map surfKey))[(t - 1).toNat] ∈ surfs.map surfKey :=
        (hmem _).1 (List.getElem_mem _)
      obtain ⟨s0, hs0, hs0k⟩ := List.mem_map.1 hk
      refine ⟨_, List.mem_map_of_mem _ hs0, ?_⟩
      simp only []
      rw [hs0k, List.indexOf_getElem hnd _ hlt]
      omega
  refine ⟨firstSeen_card _, h3, htags, ?_, h2, ?_⟩
  · intro i j s1 s2 t1 t2 hi hj hti htj
    rw [h3, List.getElem?_map, hi, Option.map_some'] at hti
    rw [h3, List.getElem?_map, hj, Option.map_some'] at htj
    rw [← Option.some.inj hti, ← Option.some.inj htj]
    simp only []
    have m1 : surfKey s1 ∈ firstSeen (surfs.map surfKey) :=
      (hmem _).2 (List.mem_map_of_mem surfKey (List.mem_iff_getElem?.2 ⟨i, hi⟩))
    have m2 : surfKey s2 ∈ firstSeen (surfs.map surfKey) :=
      (hmem _).2 (List.mem_map_of_mem surfKey (List.mem_iff_getElem?.2 ⟨j, hj⟩))
    rw [← List.indexOf_inj m1 m2]
    omega
  · intro i s hi hs
    obtain ⟨s2, hs2, htag⟩ := hss i s hi hs
    refine ⟨s2, hs2, htag, ?_, ?_⟩
    · intro t ht
      have := (htags t.m_BaseTag).1 ⟨t, ht, rfl⟩
      omega
    · intro j s3 hj hs3 heq
      have hjlen : j < ss_vec.length := by
        by_contra hge
        have hlen : (SubTagTris G surfs ss_vec n names0).ss_vec.length = ss_vec.length := by
          unfold SubTagTris
          simp only [List.length_mapIdx]
        rw [List.getElem?_eq_none (by omega)] at hs3
        cases hs3
      obtain ⟨s4, hs4, htag4⟩ := hss j ss_vec[j] hj (List.getElem?_eq_getElem hjlen)
      rw [hs3] at hs4
      rw [← Option.some.inj hs4] at htag4
      omega

/-- C29 at three surfaces of one geometry with components 0, 1 and 0: two
distinct keys. -/
theorem C29_tag_numbering_witness :
    (∀ a ∈ threeSurfs.map surfKey, ∀ b ∈ threeSurfs.map surfKey, keyId a = keyId b → a = b)
    ∧ (firstSeen (threeSurfs.map surfKey)).length = 2
    ∧ (SubTagTris (fun _ => none) threeSurfs [] 0 []).m_SurfVec
        = threeSurfs.map (fun s =>
            { s with m_BaseTag :=
                ((firstSeen (threeSurfs.map surfKey)).indexOf (surfKey s) : Int) + 1 }) :=
  ⟨by decide, by decide,
    (C29_tag_numbering (fun _ => none) threeSurfs [] 0 [] (by decide)).2.1⟩

theorem Labels_Remove_split (labels : List Label) (ID : String)
    (h : ∃ l ∈ labels, l.m_ID = ID) :
    ∃ pre l post, labels = pre ++ l :: post ∧ l.m_ID = ID ∧ (∀ x ∈ pre, x.m_ID ≠ ID)
      ∧ Labels.Remove labels ID = pre ++ post := by
  induction labels with
  | nil =>
    obtain ⟨l, hl, _⟩ := h
    cases hl
  | cons a t ih =>
    by_cases ha : a.m_ID = ID
    · exact ⟨[], a, t, rfl, ha, fun x hx => absurd hx (List.not_mem_nil x), by
        simp [Labels.Remove, ha]⟩
    · obtain ⟨l, hl, hlid⟩ := h
      have hl2 : l ∈ t := by
        rcases List.mem_cons.1 hl with h1 | h1
        · exact absurd (h1 ▸ hlid) ha
        · exact h1
      obtain ⟨pre, l2, post, h1, h2, h3, h4⟩ := ih ⟨l, hl2, hlid⟩
      refine ⟨a :: pre, l2, post, by rw [h1]; rfl, h2, ?_, by
        simp [Labels.Remove, ha, h4]⟩
      intro x hx
      rcases List.mem_cons.1 hx with h5 | h5
      · rw [h5]; exact ha
      · exact h3 x h5

theorem Labels_Remove_absent (labels : List Label) (ID : String)
    (h : ∀ l ∈ labels, l.m_ID ≠ ID) : Labels.Remove labels ID = labels := by
  induction labels with
  | nil => rfl
  | cons a t ih =>
    have ha : a.m_ID ≠ ID := h a (List.mem_cons_self _ _)
    simp only [Labels.Remove, ha, if_false]
    rw [ih (fun l hl => h l (List.mem_cons_of_mem _ hl))]

theorem Labels_Get_eq_find (labels : List Label) (ID : String) :
    Labels.Get labels ID = labels.find? (fun l => decide (l.m_ID = ID)) := by
  induction labels with
  | nil => rfl
  | cons a t ih =>
    by_cases ha : a.m_ID = ID
    · simp [Labels.Get, ha]
    · simp [Labels.Get, ha, ih]

theorem Labels_Get_none (labels : List Label) (ID : String) :
    Labels.Get labels ID = none ↔ ∀ l ∈ labels, l.m_ID ≠ ID := by
  rw [Labels_Get_eq_find, List.find?_eq_none]
  simp

theorem Labels_Get_Remove_other (labels : List Label) (ID other : String) (h : other ≠ ID) :
    Labels.Get (Labels.Remove labels ID) other = Labels.Get labels other := by
  induction labels with
  | nil => rfl
  | cons a t ih =>
    by_cases ha : a.m_ID = ID
    · have hao : ¬ a.m_ID = other := fun h2 => h (h2.symm.trans ha)
      simp only [Labels.Remove, Labels.Get, if_pos ha, if_neg hao]
    · by_cases hao : a.m_ID = other
      · simp only [Labels.Remove, Labels.Get, if_neg ha, if_pos hao]
      · simp only [Labels.Remove, Labels.Get, if_neg ha, if_neg hao, ih]

theorem Labels_Get_split (pre : List Label) (l : Label) (post : List Label) (ID : String)
    (hl : l.m_ID = ID) (hpre : ∀ x ∈ pre, x.m_ID ≠ ID) :
    Labels.Get (pre ++ l :: post) ID = some l := by
  induction pre with
  | nil => simp only [List.nil_append, Labels.Get, if_pos hl]
  | cons a t ih =>
    have ha : ¬ a.m_ID = ID := hpre a (List.mem_cons_self _ _)
    simp only [List.cons_append, Labels.Get, if_neg ha]
    exact ih (fun x hx => hpre x (List.mem_cons_of_mem _ hx))

/-- C30. Labels container.  When some label has the id `ID`, `Remove( ID )`
erases exactly the first such label and keeps the other labels in their order,
so the length decreases by one, and `Get( ID )` returns that first label; when
no label has the id, `Remove( ID )` leaves the list unchanged and `Get( ID )`
is `NULL`.  With pairwise distinct ids `Get( ID )` is `NULL` after
`Remove( ID )`; `Get` of every other id is the same before and after
`Remove( ID )`. -/
theorem C30_labels_remove_get (labels : List Label) (ID : String) :
    ((∃ l ∈ labels, l.m_ID = ID) →
      ∃ pre l post, labels = pre ++ l :: post ∧ l.m_ID = ID ∧ (∀ x ∈ pre, x.m_ID ≠ ID)
        ∧ Labels.Remove labels ID = pre ++ post
        ∧ (Labels.Remove labels ID).length + 1 = labels.length
        ∧ Labels.Get labels ID = some l)
    ∧ ((∀ l ∈ labels, l.m_ID ≠ ID) →
        Labels.Remove labels ID = labels ∧ Labels.Get labels ID = none)
    ∧ Labels.Get labels ID = labels.find? (fun l => decide (l.m_ID = ID))
    ∧ ((labels.map (fun l => l.m_ID)).Nodup →
        Labels.Get (Labels.Remove labels ID) ID = none)
    ∧ (∀ other, other ≠ ID →
        Labels.Get (Labels.Remove labels ID) other = Labels.Get labels other) := by
  refine ⟨?_, ?_, Labels_Get_eq_find labels ID, ?_, fun other h =>
    Labels_Get_Remove_other labels ID other h⟩
  · intro h
    obtain ⟨pre, l, post, h1, h2, h3, h4⟩ := Labels_Remove_split labels ID h
    refine ⟨pre, l, post, h1, h2, h3, h4, ?_, ?_⟩
    · rw [h4, h1]
      simp only [List.length_append, List.length_cons]
      omega
    · rw [h1]
      exact Labels_Get_split pre l post ID h2 h3
  · intro h
    exact ⟨Labels_Remove_absent labels ID h, (Labels_Get_none labels ID).2 h⟩
  · intro hnd
    by_cases h : ∃ l ∈ labels, l.m_ID = ID
    · obtain ⟨pre, l, post, h1, h2, h3, h4⟩ := Labels_Remove_split labels ID h
      rw [h4, Labels_Get_none]
      intro x hx
      rcases List.mem_append.1 hx with hx1 | hx1
      · exact h3 x hx1
      · intro hxid
        rw [h1, List.map_append, List.map_cons] at hnd
        have hnd2 := (List.nodup_append.1 hnd).2.1
        rw [List.nodup_cons] at hnd2
        apply hnd2.1
        rw [h2, ← hxid]
        exact List.mem_map_of_mem (fun l => l.m_ID) hx1
    · have h2 : ∀ l ∈ labels, l.m_ID ≠ ID := fun l hl hid => h ⟨l, hl, hid⟩
      rw [Labels_Remove_absent labels ID h2]
      exact (Labels_Get_none labels ID).2 h2

/-- C30 at three labels with the ids A, B and C: removing B leaves A and C in
order, after which `Get` finds no B. -/
theorem C30_labels_remove_get_witness :
    (threeLabels.map (fun l => l.m_ID)).Nodup
    ∧ Labels.Remove threeLabels "B"
        = [{ m_ID := "A", m_Name := "a" }, { m_ID := "C", m_Name := "c" }]
    ∧ Labels.Get (Labels.Remove threeLabels "B") "B" = none :=
  ⟨by decide, by decide, (C30_labels_remove_get threeLabels "B").2.2.2.1 (by decide)⟩

/-- C29 as stated fails.  The surfaces of `collidingSurfs` have the two
distinct keys ("A", 12) and ("A1", 2), but `SubTagTris` files both under the
string "A12": both get the base tag 1, one component name is pushed instead
of two, and the last base tag is 1. -/
theorem C29_colliding_ids_share_a_tag :
    collidingSurfs.map surfKey
        = [{ m_GeomID := "A", m_UnmergedCompID := 12 }, { m_GeomID := "A1", m_UnmergedCompID := 2 }]
    ∧ (firstSeen (collidingSurfs.map surfKey)).length = 2
    ∧ collidingSurfs.map surfId = ["A12", "A12"]
    ∧ (SubTagTris (fun _ => none) collidingSurfs [] 0 []).m_SurfVec.map (fun s => s.m_BaseTag)
        = [1, 1]
    ∧ (SubTagTris (fun _ => none) collidingSurfs [] 0 []).m_CompNames.length = 1
    ∧ (SubTagTris (fun _ => none) collidingSurfs [] 0 []).tag_number = 1
    ∧ ¬ (∀ (i j : Nat) (s1 s2 t1 t2 : Surf),
          collidingSurfs[i]? = some s1 → collidingSurfs[j]? = some s2 →
          (SubTagTris (fun _ => none) collidingSurfs [] 0 []).m_SurfVec[i]? = some t1 →
          (SubTagTris (fun _ => none) collidingSurfs [] 0 []).m_SurfVec[j]? = some t2 →
          (t1.m_BaseTag = t2.m_BaseTag ↔ surfKey s1 = surfKey s2)) := by
  refine ⟨by decide, by decide, by decide, by decide, by decide, by decide, ?_⟩
  intro h
  have h1 := h 0 1 _ _ _ _ rfl rfl rfl rfl
  revert h1
  decide

theorem triangleSegs_runs :
    chainRuns hostSurf true triangleSegs = triangleSegs.map (fun s => [s]) := by
  unfold chainRuns
  rw [if_pos rfl, List.filter_eq_self.2]
  intro seg hs
  obtain ⟨h1, h2, h3⟩ := triangleSegs_retained seg hs
  simp [retained, h1, h2, h3]

theorem chainRuns_nonempty (surf : Surf) (is_poly : Bool) (segs : List SSLineSeg)
    (h : ∃ seg ∈ segs, retained surf is_poly seg = true) : chainRuns surf is_poly segs ≠ [] := by
  intro hnil
  have hf := chainRuns_flatten surf is_poly segs
  rw [hnil, List.flatten_nil] at hf
  obtain ⟨seg, hs, hr⟩ := h
  have : seg ∈ segs.filter (retained surf is_poly) := List.mem_filter.2 ⟨hs, hr⟩
  rw [← hf] at this
  cases this

/-- The chains `BuildSubSurfIntChains` appends: surface by surface and, for a
surface, sub-surface by sub-surface, the chains of that pair, built with the
poly flag and the intersection-cap flag of the sub-surface and its index. -/
theorem BuildSubSurfIntChains_eq (st : FeaStructure) (n : Int) (surfs : List Surf)
    (L : List ISegChain) :
    BuildSubSurfIntChains st n surfs L
      = L ++ (List.range surfs.length).flatMap (fun s =>
          (List.range n.toNat).flatMap (fun ss =>
            match surfs.get? s, st.m_FeaSubSurfVec.get? ss with
            | some surf, some sub =>
              buildSubSurfChains surf sub.m_PolyFlag sub.m_IntersectionCapFlag ss
                (sub.m_SplitSegs s) []
            | _, _ => [])) := by
  unfold BuildSubSurfIntChains
  have hin : ∀ (s : Nat) (l : List Nat) (acc : List ISegChain),
      l.foldl (fun acc2 ss =>
          match surfs.get? s, st.m_FeaSubSurfVec.get? ss with
          | some surf, some sub =>
            buildSubSurfChains surf sub.m_PolyFlag sub.m_IntersectionCapFlag ss
              (sub.m_SplitSegs s) acc2
          | _, _ => acc2) acc
        = acc ++ l.flatMap (fun ss =>
            match surfs.get? s, st.m_FeaSubSurfVec.get? ss with
            | some surf, some sub =>
              buildSubSurfChains surf sub.m_PolyFlag sub.m_IntersectionCapFlag ss
                (sub.m_SplitSegs s) []
            | _, _ => []) := by
    intro s l
    induction l with
    | nil => intro acc; simp
    | cons ss t ih =>
      intro acc
      rw [List.foldl_cons, ih, List.flatMap_cons]
      cases surfs.get? s <;> cases st.m_FeaSubSurfVec.get? ss <;>
        simp [buildSubSurfChains_runs]
  have hout : ∀ (l : List Nat) (acc : List ISegChain),
      l.foldl (fun acc s =>
          (List.range n.toNat).foldl (fun acc2 ss =>
            match surfs.get? s, st.m_FeaSubSurfVec.get? ss with
            | some surf, some sub =>
              buildSubSurfChains surf sub.m_PolyFlag sub.m_IntersectionCapFlag ss
                (sub.m_SplitSegs s) acc2
            | _, _ => acc2) acc) acc
        = acc ++ l.flatMap (fun s =>
            (List.range n.toNat).flatMap (fun ss =>
              match surfs.get? s, st.m_FeaSubSurfVec.get? ss with
              | some surf, some sub =>
                buildSubSurfChains surf sub.m_PolyFlag sub.m_IntersectionCapFlag ss
                  (sub.m_SplitSegs s) []
              | _, _ => [])) := by
    intro l
    induction l with
    | nil => intro acc; simp
    | cons s t ih =>
      intro acc
      rw [List.foldl_cons, ih, hin, List.flatMap_cons, List.append_assoc]
  exact hout _ L

/-- C16. `BuildSubSurfIntChains` appends, surface by surface and sub-surface
by sub-surface, the chains of each pair, built with the intersection-cap flag
and the index of the sub-surface.  The chains appended for sub-surface `ss` on
a host surface are, in order, one chain per run of retained boundary segments,
holding the sub-segments of the run; at least one chain is appended when a
segment is retained.  Every appended chain has the host surface on both sides,
and its sub-surface-intersection index equals `ss` if and only if the
sub-surface has its intersection-cap flag set; otherwise the index keeps the
default -1, and then the chain (whatever its tessellation and border flag)
yields no beam in `BuildFeaMesh`. -/
theorem C16_subsurface_chain_marking (st : FeaStructure) (n : Int) (surfs : List Surf)
    (L : List ISegChain) (surf : Surf) (is_poly cap : Bool) (ss : Nat)
    (segs : List SSLineSeg) (chains : List ISegChain) :
    BuildSubSurfIntChains st n surfs L
        = L ++ (List.range surfs.length).flatMap (fun s =>
            (List.range n.toNat).flatMap (fun ss =>
              match surfs.get? s, st.m_FeaSubSurfVec.get? ss with
              | some surf, some sub =>
                buildSubSurfChains surf sub.m_PolyFlag sub.m_IntersectionCapFlag ss
                  (sub.m_SplitSegs s) []
              | _, _ => []))
    ∧ ∃ added, buildSubSurfChains surf is_poly cap ss segs chains = chains ++ added
      ∧ added = (chainRuns surf is_poly segs).map (fun run =>
          ({ m_BorderFlag := false, m_SurfA := surf, m_SurfB := surf
             m_SSIntersectIndex := if cap then (ss : Int) else -1
             m_ISegDeque := run.flatMap subSegs, m_TessVec := [] } : ISegChain))
      ∧ ((∃ seg ∈ segs, retained surf is_poly seg = true) → added ≠ [])
      ∧ ∀ c ∈ added, c.m_SurfA = surf ∧ c.m_SurfB = surf
          ∧ (c.m_SSIntersectIndex = (ss : Int) ↔ cap = true)
          ∧ (cap = false → c.m_SSIntersectIndex = -1
              ∧ ∀ (K : Kernel) (st2 : FeaStructure) (c2 : ISegChain),
                  c2.m_SurfA = c.m_SurfA → c2.m_SurfB = c.m_SurfB →
                  c2.m_SSIntersectIndex = c.m_SSIntersectIndex → chainBeams K st2 c2 = []) := by
  refine ⟨BuildSubSurfIntChains_eq st n surfs L,
    (chainRuns surf is_poly segs).map (runChain surf cap ss),
    buildSubSurfChains_runs surf is_poly cap ss segs chains, rfl, ?_, ?_⟩
  · intro h hnil
    exact chainRuns_nonempty surf is_poly segs h (List.map_eq_nil_iff.1 hnil)
  · intro c hc
    obtain ⟨run, _, rfl⟩ := List.mem_map.1 hc
    have hI : (runChain surf cap ss run).m_SSIntersectIndex = (if cap then (ss : Int) else -1) :=
      rfl
    refine ⟨rfl, rfl, ?_, ?_⟩
    · cases cap
      · simp only [Bool.false_eq_true, if_false] at hI
        rw [hI]
        simp only [Bool.false_eq_true, iff_false]
        omega
      · simp only [if_true] at hI
        simp [hI]
    · intro hcap
      subst hcap
      simp only [Bool.false_eq_true, if_false] at hI
      refine ⟨hI, fun K st c2 h1 h2 h3 => ?_⟩
      apply chainBeams_same_surf_unmarked
      · rw [h1, h2]; rfl
      · rw [h3, hI]; decide

/-- C16 at the host surface and the two sub-surfaces of `twoTriangleStruct`,
both with the triangular boundary.  Six chains are appended, three per
sub-surface, all with the host surface on both sides: those of sub-surface 0,
which has no intersection-cap flag, keep the index -1 and yield no beam; those
of sub-surface 1, which has the flag, are marked with the index 1. -/
theorem C16_subsurface_chain_marking_witness :
    (BuildSubSurfIntChains twoTriangleStruct 2 [hostSurf] []).map
        (fun c => (c.m_SurfA, c.m_SurfB, c.m_SSIntersectIndex))
        = [(hostSurf, hostSurf, -1), (hostSurf, hostSurf, -1), (hostSurf, hostSurf, -1),
           (hostSurf, hostSurf, 1), (hostSurf, hostSurf, 1), (hostSurf, hostSurf, 1)]
    ∧ (buildSubSurfChains hostSurf true true 1 triangleSegs []).length = 3
    ∧ (buildSubSurfChains hostSurf true true 1 triangleSegs []).map (fun c => c.m_ISegDeque)
        = triangleSegs.map subSegs
    ∧ (buildSubSurfChains hostSurf true false 0 triangleSegs []).flatMap
        (chainBeams flatKernel ribCapStruct) = [] := by
  obtain ⟨htop, a1, h1, ha1, _, _⟩ :=
    C16_subsurface_chain_marking twoTriangleStruct 2 [hostSurf] [] hostSurf true true 1
      triangleSegs []
  obtain ⟨_, a2, h2, ha2, _, hP⟩ :=
    C16_subsurface_chain_marking twoTriangleStruct 2 [hostSurf] [] hostSurf true false 0
      triangleSegs []
  have hb : a2.flatMap (chainBeams flatKernel ribCapStruct) = [] := by
    rw [List.flatMap_eq_nil_iff]
    intro c hc
    exact ((hP c hc).2.2.2 rfl).2 flatKernel ribCapStruct c rfl rfl rfl
  have hflat : (List.range [hostSurf].length).flatMap (fun s =>
      (List.range (2 : Int).toNat).flatMap (fun ss =>
        match [hostSurf].get? s, twoTriangleStruct.m_FeaSubSurfVec.get? ss with
        | some surf, some sub =>
          buildSubSurfChains surf sub.m_PolyFlag sub.m_IntersectionCapFlag ss
            (sub.m_SplitSegs s) []
        | _, _ => []))
      = buildSubSurfChains hostSurf true false 0 triangleSegs []
        ++ buildSubSurfChains hostSurf true true 1 triangleSegs [] := by
    simp [twoTriangleStruct, List.range_succ]
  rw [htop, hflat, h1, h2, List.nil_append, List.nil_append, List.nil_append]
  refine ⟨?_, ?_, ?_, hb⟩
  · rw [ha1, ha2, triangleSegs_runs]; rfl
  · rw [ha1, triangleSegs_runs]; rfl
  · rw [ha1, triangleSegs_runs]; simp [triangleSegs]

theorem numberFrom_append (c : Int) (L1 L2 : List Nat) :
    numberFrom c (L1 ++ L2) = numberFrom c L1 ++ numberFrom (c + (L1.length : Int)) L2 := by
  induction L1 generalizing c with
  | nil => simp [numberFrom]
  | cons a t ih =>
    have e : c + ((a :: t).length : Int) = c + 1 + (t.length : Int) := by
      simp only [List.length_cons]
      push_cast
      ring
    rw [e]
    show (a, c) :: numberFrom (c + 1) (t ++ L2)
      = (a, c) :: numberFrom (c + 1) t ++ numberFrom (c + 1 + (t.length : Int)) L2
    rw [ih]
    rfl

theorem numberFrom_eq_zip (c : Int) (L : List Nat) :
    numberFrom c L = L.zip ((List.range L.length).map (fun (k : Nat) => (k : Int) + c)) := by
  induction L generalizing c with
  | nil => rfl
  | cons a t ih =>
    rw [numberFrom, ih, List.length_cons, List.range_succ_eq_map, List.map_cons, List.zip_cons_cons,
      List.map_map]
    congr 2
    · simp
    · apply List.map_congr_left
      intro k _
      simp only [Function.comp_apply]
      push_cast
      ring

theorem numberFrom_ids (c : Int) (L : List Nat) :
    (numberFrom c L).map Prod.snd
      = (List.range L.length).map (fun (k : Nat) => (k : Int) + c) := by
  rw [numberFrom_eq_zip]
  apply List.map_snd_zip
  simp

theorem filterMap_elemId_posId (R : List Rec) :
    R.filterMap Rec.elemId = (R.filterMap Rec.elemPosId).map Prod.snd := by
  induction R with
  | nil => rfl
  | cons r t ih => cases r <;> simp [Rec.elemId, Rec.elemPosId, ih]

theorem elemPosId_of_elemId_none (r : Rec) (h : r.elemId = none) : r.elemPosId = none := by
  cases r <;> first | rfl | cases h

theorem filterMap_elemPosId_none (extra : List Rec) (h : ∀ x ∈ extra, x.elemId = none) :
    extra.filterMap Rec.elemPosId = [] :=
  List.filterMap_eq_nil_iff.2 (fun x hx => elemPosId_of_elemId_none x (h x hx))

theorem filterMap_elemPosId_append_none (r extra : List Rec)
    (h : ∀ x ∈ extra, x.elemId = none) :
    (r ++ extra).filterMap Rec.elemPosId = r.filterMap Rec.elemPosId := by
  rw [List.filterMap_append, filterMap_elemPosId_none extra h, List.append_nil]

/-- Element loop with the running element id: the records appended are those
of the selected positions, in element order, numbered from `elem_id + 1`. -/
theorem elemIdLoop_posId (elems : List FeaElement) (sel : FeaElement → Bool)
    (args : FeaElement → List Int) (acc : List Rec × Int) :
    (elemIdLoop elems sel args acc).1.filterMap Rec.elemPosId
        = acc.1.filterMap Rec.elemPosId ++ numberFrom (acc.2 + 1) (selPositions elems sel)
    ∧ (elemIdLoop elems sel args acc).2 = acc.2 + ((selPositions elems sel).length : Int) := by
  unfold elemIdLoop selPositions
  generalize List.range elems.length = l
  induction l generalizing acc with
  | nil => simp [numberFrom]
  | cons j t ih =>
    rw [List.foldl_cons, List.filter_cons]
    cases hj : elems.get? j with
    | none =>
      simp only [Option.map_none', Option.getD_none, Bool.false_eq_true, if_false]
      exact ih acc
    | some e =>
      simp only [Option.map_some', Option.getD_some]
      by_cases hs : sel e = true
      · simp only [hs, if_true]
        obtain ⟨h1, h2⟩ := ih (acc.1 ++ [Rec.element j (acc.2 + 1) (args e)], acc.2 + 1)
        refine ⟨?_, ?_⟩
        · rw [h1]
          simp [Rec.elemPosId, numberFrom]
        · rw [h2]
          simp only [List.length_cons]
          push_cast
          ring
      · simp only [hs, if_false, Bool.false_eq_true]
        exact ih acc

/-- Element loop of a part in `WriteGmsh`: the records appended are those of
the positions of the part, in element order, numbered from `ele_cnt`. -/
theorem gmshPartElems_posId (elems : List FeaElement) (acc : List Rec × Int) (i : Nat) :
    (gmshPartElems elems acc i).1.filterMap Rec.elemPosId
        = acc.1.filterMap Rec.elemPosId
          ++ numberFrom acc.2
              (selPositions elems (fun e => decide (toUnsigned e.m_FeaPartIndex = i)))
    ∧ (gmshPartElems elems acc i).2
        = acc.2 + ((selPositions elems
            (fun e => decide (toUnsigned e.m_FeaPartIndex = i))).length : Int) := by
  unfold gmshPartElems selPositions
  generalize List.range elems.length = l
  induction l generalizing acc with
  | nil => simp [numberFrom]
  | cons j t ih =>
    rw [List.foldl_cons, List.filter_cons]
    cases hj : elems.get? j with
    | none =>
      simp only [Option.map_none', Option.getD_none, Bool.false_eq_true, if_false]
      exact ih acc
    | some e =>
      simp only [Option.map_some', Option.getD_some]
      by_cases hs : toUnsigned e.m_FeaPartIndex = i
      · simp only [hs, if_true, decide_True]
        obtain ⟨h1, h2⟩ := ih (acc.1 ++ [Rec.element j acc.2 [toSigned (i + 1)]], acc.2 + 1)
        refine ⟨?_, ?_⟩
        · rw [h1]
          simp [Rec.elemPosId, numberFrom]
        · rw [h2]
          simp only [List.length_cons]
          push_cast
          ring
      · simp only [hs, if_false, decide_False, Bool.false_eq_true]
        exact ih acc

theorem selPositions_owned (elems : List FeaElement) (i : Nat) (hi : i < 2 ^ 31)
    (hE : ∀ e ∈ elems, -2 ^ 31 ≤ e.m_FeaPartIndex ∧ e.m_FeaPartIndex < 2 ^ 31) :
    selPositions elems (fun e => decide (toUnsigned e.m_FeaPartIndex = i))
      = ownedPositions elems i := by
  unfold selPositions ownedPositions
  apply List.filter_congr
  intro j _
  cases he : elems.get? j with
  | none => rfl
  | some e =>
    have hmem : e ∈ elems := List.mem_iff_get?.2 ⟨j, he⟩
    have : decide (toUnsigned e.m_FeaPartIndex = i) = decide (e.m_FeaPartIndex = (i : Int)) := by
      rw [decide_eq_decide]
      exact toUnsigned_eq_iff _ i (hE e hmem) hi
    simp only [Option.map_some', Option.getD_some, this]

theorem numberedSoFar_fold (c0 : Int) (f : List Rec × Int → Nat → List Rec × Int)
    (g : Nat → List Nat) (N : Nat)
    (hstep : ∀ acc L i, i < N → numberedSoFar c0 acc L → numberedSoFar c0 (f acc i) (L ++ g i))
    (acc0 : List Rec × Int) (h0 : numberedSoFar c0 acc0 []) :
    ∀ n, n ≤ N → numberedSoFar c0 ((List.range n).foldl f acc0) ((List.range n).flatMap g) := by
  intro n
  induction n with
  | zero => intro _; exact h0
  | succ n ih =>
    intro hn
    rw [List.range_succ, List.foldl_append, List.flatMap_append]
    simp only [List.foldl_cons, List.foldl_nil, List.flatMap_cons, List.flatMap_nil,
      List.append_nil]
    exact hstep _ _ n (by omega) (ih (by omega))

theorem nastranPartElems_posId (st : FeaStructure) (elems : List FeaElement)
    (hE : ∀ e ∈ elems, -2 ^ 31 ≤ e.m_FeaPartIndex ∧ e.m_FeaPartIndex < 2 ^ 31)
    (acc : List Rec × Int) (L : List Nat) (i : Nat) (hi : i < 2 ^ 31)
    (h : numberedSoFar 0 acc L) :
    numberedSoFar 0 (nastranPartElems st elems acc i) (L ++ ownedPositions elems i) := by
  obtain ⟨h1, h2⟩ := h
  unfold nastranPartElems
  simp only []
  obtain ⟨k1, k2⟩ := elemIdLoop_posId elems (fun e => decide (toUnsigned e.m_FeaPartIndex = i))
    (fun e => if e.m_ElementType ≠ ElementType.FEA_BEAM then [st.GetFeaPropertyIndex i]
      else [st.GetCapFeaPropertyIndex i])
    (acc.1 ++ [Rec.text "\n", Rec.text ("$" ++ st.GetFeaPartName i ++ "\n")], acc.2)
  rw [selPositions_owned elems i hi hE] at k1 k2
  refine ⟨?_, ?_⟩
  · rw [k1, numberFrom_append]
    simp only [List.filterMap_append, h1, h2]
    simp [Rec.elemPosId, add_comm]
  · rw [k2]
    simp only [h2, List.length_append]
    push_cast
    ring

theorem calculixPart_posId (st : FeaStructure) (nodes : List FeaNode) (shift : List Int)
    (elems : List FeaElement)
    (hE : ∀ e ∈ elems, -2 ^ 31 ≤ e.m_FeaPartIndex ∧ e.m_FeaPartIndex < 2 ^ 31)
    (acc : List Rec × Int) (L : List Nat) (i : Nat) (hi : i < 2 ^ 31)
    (h : numberedSoFar 0 acc L) :
    numberedSoFar 0 (calculixPart st nodes shift elems acc i)
      (L ++ (partPositions elems i ElementType.FEA_TRI_6
        ++ if FeaPartCap st (i : Int) then partPositions elems i ElementType.FEA_BEAM else [])) := by
  obtain ⟨h1, h2⟩ := h
  have hnode := filterMap_elemPosId_none _
    (nodeLoop_elemId nodes shift (fun n => n.HasOnlyIndex (toSigned i)))
  have hnorm := filterMap_elemPosId_none _ (normalLoop_elemId elems i)
  have hT := partFilter_eq elems i ElementType.FEA_TRI_6 hi hE
  have hB := partFilter_eq elems i ElementType.FEA_BEAM hi hE
  rw [toSigned_small i hi] at hnode
  unfold calculixPart
  simp only [toSigned_small i hi]
  obtain ⟨k1, k2⟩ := elemIdLoop_posId elems
    (fun e => decide (toUnsigned e.m_FeaPartIndex = i)
      && decide (e.m_ElementType = ElementType.FEA_TRI_6))
    (fun _ => [])
    (acc.1 ++ [Rec.text ("**" ++ st.GetFeaPartName i ++ "\n"),
        Rec.text ("*NODE, NSET=N" ++ st.GetFeaPartName i ++ "\n")]
      ++ nodeLoop nodes shift (fun n => n.HasOnlyIndex (i : Int))
      ++ [Rec.text "\n", Rec.text ("*ELEMENT, TYPE=S6, ELSET=E" ++ st.GetFeaPartName i ++ "\n")],
      acc.2)
  unfold selPositions at k1 k2
  rw [hT] at k1 k2
  have k1b : (elemIdLoop elems
      (fun e => decide (toUnsigned e.m_FeaPartIndex = i)
        && decide (e.m_ElementType = ElementType.FEA_TRI_6))
      (fun _ => [])
      (acc.1 ++ [Rec.text ("**" ++ st.GetFeaPartName i ++ "\n"),
          Rec.text ("*NODE, NSET=N" ++ st.GetFeaPartName i ++ "\n")]
        ++ nodeLoop nodes shift (fun n => n.HasOnlyIndex (i : Int))
        ++ [Rec.text "\n", Rec.text ("*ELEMENT, TYPE=S6, ELSET=E" ++ st.GetFeaPartName i ++ "\n")],
        acc.2)).1.filterMap Rec.elemPosId
      = numberFrom 1 (L ++ partPositions elems i ElementType.FEA_TRI_6) := by
    rw [k1, numberFrom_append]
    simp only [List.filterMap_append, h1, h2, hnode]
    simp [Rec.elemPosId, add_comm]
  simp only [] at k2
  generalize elemIdLoop elems
      (fun e => decide (toUnsigned e.m_FeaPartIndex = i)
        && decide (e.m_ElementType = ElementType.FEA_TRI_6))
      (fun _ => [])
      (acc.1 ++ [Rec.text ("**" ++ st.GetFeaPartName i ++ "\n"),
          Rec.text ("*NODE, NSET=N" ++ st.GetFeaPartName i ++ "\n")]
        ++ nodeLoop nodes shift (fun n => n.HasOnlyIndex (i : Int))
        ++ [Rec.text "\n", Rec.text ("*ELEMENT, TYPE=S6, ELSET=E" ++ st.GetFeaPartName i ++ "\n")],
        acc.2) = X at k1b k2 ⊢
  clear k1
  cases hcap : FeaPartCap st (i : Int) with
  | false =>
    simp only [Bool.false_eq_true, if_false, List.append_nil]
    refine ⟨?_, ?_⟩
    · simp only [List.filterMap_append, k1b]
      simp [Rec.elemPosId]
    · rw [k2]
      simp only [h2, List.length_append]
      push_cast
      ring
  | true =>
    simp only [if_true]
    obtain ⟨k3, k4⟩ := elemIdLoop_posId elems
      (fun e => decide (toUnsigned e.m_FeaPartIndex = i)
        && decide (e.m_ElementType = ElementType.FEA_BEAM))
      (fun _ => [])
      (X.1 ++ [Rec.text "\n",
            Rec.propertyCalculix (st.GetFeaPropertyIndex i) ("E" ++ st.GetFeaPartName i)]
          ++ [Rec.text "\n",
              Rec.text ("*ELEMENT, TYPE=B31, ELSET=E" ++ st.GetFeaPartName i ++ "_CAP\n")],
        X.2)
    unfold selPositions at k3 k4
    rw [hB] at k3 k4
    simp only [] at k3 k4
    have k3b : (elemIdLoop elems
        (fun e => decide (toUnsigned e.m_FeaPartIndex = i)
          && decide (e.m_ElementType = ElementType.FEA_BEAM))
        (fun _ => [])
        (X.1 ++ [Rec.text "\n",
              Rec.propertyCalculix (st.GetFeaPropertyIndex i) ("E" ++ st.GetFeaPartName i)]
            ++ [Rec.text "\n",
                Rec.text ("*ELEMENT, TYPE=B31, ELSET=E" ++ st.GetFeaPartName i ++ "_CAP\n")],
          X.2)).1.filterMap Rec.elemPosId
        = numberFrom 1 (L ++ (partPositions elems i ElementType.FEA_TRI_6
            ++ partPositions elems i ElementType.FEA_BEAM)) := by
      rw [k3, ← List.append_assoc L, numberFrom_append 1 (L ++ _) _]
      simp only [List.filterMap_append, k1b, k2, h2]
      simp [Rec.elemPosId, add_comm, add_left_comm, add_assoc]
    refine ⟨?_, ?_⟩
    · simp only [List.filterMap_append, hnorm, k3b]
      simp [Rec.elemPosId]
    · rw [k4, k2]
      simp only [h2, List.length_append]
      push_cast
      ring

theorem gmshPartElems_numbered (elems : List FeaElement)
    (hE : ∀ e ∈ elems, -2 ^ 31 ≤ e.m_FeaPartIndex ∧ e.m_FeaPartIndex < 2 ^ 31)
    (acc : List Rec × Int) (L : List Nat) (i : Nat) (hi : i < 2 ^ 31)
    (h : numberedSoFar 1 acc L) :
    numberedSoFar 1 (gmshPartElems elems acc i) (L ++ ownedPositions elems i) := by
  obtain ⟨h1, h2⟩ := h
  obtain ⟨k1, k2⟩ := gmshPartElems_posId elems acc i
  rw [selPositions_owned elems i hi hE] at k1 k2
  refine ⟨?_, ?_⟩
  · rw [k1, numberFrom_append, h1, h2]
  · rw [k2]
    simp only [h2, List.length_append]
    push_cast
    ring
theorem WriteNASTRAN_posId (S : StructureMgr) (m : FeaMeshMgr)
    (hN : 0 ≤ m.m_NumFeaParts ∧ m.m_NumFeaParts < 2 ^ 31)
    (hE : ∀ e ∈ m.m_FeaElementVec, -2 ^ 31 ≤ e.m_FeaPartIndex ∧ e.m_FeaPartIndex < 2 ^ 31) :
    (WriteNASTRAN S true m).map (fun out => out.filterMap Rec.elemPosId)
      = some (numberFrom 1 (nastranOrder m)) := by
  have hfold := numberedSoFar_fold 0 (nastranPartElems m.m_FeaMeshStruct m.m_FeaElementVec)
    (ownedPositions m.m_FeaElementVec) m.m_NumFeaParts.toNat
    (fun acc L i hi h => nastranPartElems_posId _ _ hE acc L i (by omega) h)
    ([Rec.text "BEGIN BULK\n"], 0) ⟨rfl, rfl⟩ m.m_NumFeaParts.toNat (le_refl _)
  simp only [WriteNASTRAN, if_true, Option.map_some', Option.some.injEq,
    toUnsigned_nonneg m.m_NumFeaParts hN]
  rw [filterMap_elemPosId_append_none _ _ (nastranTail_elemId S),
    filterMap_elemPosId_append_none _ _ (nastranRemaining_elemId _ _),
    filterMap_elemPosId_append_none _ _ (nastranIntersections_elemId _ _),
    foldl_append_flatMap, filterMap_elemPosId_append_none _ _ ?_]
  · exact hfold.1
  · intro x hx
    rw [List.mem_flatMap] at hx
    obtain ⟨i, _, hi⟩ := hx
    exact nastranPartNodes_elemId _ _ _ i x hi

theorem WriteCalculix_posId (S : StructureMgr) (m : FeaMeshMgr)
    (hN : 0 ≤ m.m_NumFeaParts ∧ m.m_NumFeaParts < 2 ^ 31)
    (hE : ∀ e ∈ m.m_FeaElementVec, -2 ^ 31 ≤ e.m_FeaPartIndex ∧ e.m_FeaPartIndex < 2 ^ 31) :
    (WriteCalculix S true m).map (fun out => out.filterMap Rec.elemPosId)
      = some (numberFrom 1 (calculixOrder m)) := by
  have hfold := numberedSoFar_fold 0
    (calculixPart m.m_FeaMeshStruct m.m_FeaNodeVec m.m_PntShift m.m_FeaElementVec)
    (fun (i : Nat) =>
      partPositions m.m_FeaElementVec i ElementType.FEA_TRI_6
        ++ if FeaPartCap m.m_FeaMeshStruct (i : Int) then
            partPositions m.m_FeaElementVec i ElementType.FEA_BEAM
          else [])
    m.m_NumFeaParts.toNat
    (fun acc L i hi h => calculixPart_posId _ _ _ _ hE acc L i (by omega) h)
    ([], 0) ⟨rfl, rfl⟩ m.m_NumFeaParts.toNat (le_refl _)
  simp only [WriteCalculix, if_true, Option.map_some', Option.some.injEq,
    toUnsigned_nonneg m.m_NumFeaParts hN]
  rw [filterMap_elemPosId_append_none _ _ (calculixTail_elemId S _ _)]
  exact hfold.1

theorem WriteGmsh_posId (m : FeaMeshMgr)
    (hP : m.m_FeaMeshStruct.m_FeaPartVec.length < 2 ^ 31)
    (hE : ∀ e ∈ m.m_FeaElementVec, -2 ^ 31 ≤ e.m_FeaPartIndex ∧ e.m_FeaPartIndex < 2 ^ 31) :
    (WriteGmsh true m).map (fun out => out.filterMap Rec.elemPosId)
      = some (numberFrom 1 (gmshOrder m)) := by
  have hfold := numberedSoFar_fold 1 (gmshPartElems m.m_FeaElementVec)
    (ownedPositions m.m_FeaElementVec) m.m_FeaMeshStruct.m_FeaPartVec.length
    (fun acc L i hi h => gmshPartElems_numbered _ hE acc L i (by omega) h)
    (gmshHead m, 1) ⟨filterMap_elemPosId_none _ (gmshHead_elemId m), rfl⟩
    m.m_FeaMeshStruct.m_FeaPartVec.length (le_refl _)
  have hU : toUnsigned m.m_FeaMeshStruct.NumFeaParts = m.m_FeaMeshStruct.m_FeaPartVec.length := by
    unfold FeaStructure.NumFeaParts
    rw [toUnsigned_nonneg _ ⟨by omega, by omega⟩]
    simp
  simp only [WriteGmsh, if_true, Option.map_some', Option.some.injEq, hU]
  rw [filterMap_elemPosId_append_none _ _ ?_]
  · exact hfold.1
  · intro x hx
    simp only [List.mem_singleton] at hx
    subst hx
    rfl

theorem option_map_ids (o : Option (List Rec)) (L : List Nat)
    (h : o.map (fun out => out.filterMap Rec.elemPosId) = some (numberFrom 1 L)) :
    o.map (fun out => out.filterMap Rec.elemPosId) = some (L.zip (idsFromOne L.length))
    ∧ o.map (fun out => out.filterMap Rec.elemId) = some (idsFromOne L.length) := by
  cases o with
  | none => cases h
  | some out =>
    simp only [Option.map_some', Option.some.injEq] at h ⊢
    refine ⟨?_, ?_⟩
    · rw [h, numberFrom_eq_zip]
      rfl
    · rw [filterMap_elemId_posId, h, numberFrom_ids]
      rfl

/-- C17. Element id numbering.  In each of `WriteNASTRAN`, `WriteCalculix` and
`WriteGmsh` the element records, in write order, are those of the write order
of the exporter (part by part in increasing part order, within a part in
element order; in `WriteCalculix` the triangles of the part and then, for a
cap-flagged part, its beams), and the `k`-th record written carries the id
`k`: the ids are `1, 2, ..., M` with `M` the number of elements written, one
counter running through the whole part loop without reset.  The part count and
the part indices are taken in the range of `int`. -/
theorem C17_element_ids_consecutive (S : StructureMgr) (m : FeaMeshMgr)
    (hN : 0 ≤ m.m_NumFeaParts ∧ m.m_NumFeaParts < 2 ^ 31)
    (hP : m.m_FeaMeshStruct.m_FeaPartVec.length < 2 ^ 31)
    (hE : ∀ e ∈ m.m_FeaElementVec, -2 ^ 31 ≤ e.m_FeaPartIndex ∧ e.m_FeaPartIndex < 2 ^ 31) :
    ((WriteNASTRAN S true m).map (fun out => out.filterMap Rec.elemPosId)
        = some ((nastranOrder m).zip (idsFromOne (nastranOrder m).length))
      ∧ (WriteNASTRAN S true m).map (fun out => out.filterMap Rec.elemId)
        = some (idsFromOne (nastranOrder m).length))
    ∧ ((WriteCalculix S true m).map (fun out => out.filterMap Rec.elemPosId)
        = some ((calculixOrder m).zip (idsFromOne (calculixOrder m).length))
      ∧ (WriteCalculix S true m).map (fun out => out.filterMap Rec.elemId)
        = some (idsFromOne (calculixOrder m).length))
    ∧ ((WriteGmsh true m).map (fun out => out.filterMap Rec.elemPosId)
        = some ((gmshOrder m).zip (idsFromOne (gmshOrder m).length))
      ∧ (WriteGmsh true m).map (fun out => out.filterMap Rec.elemId)
        = some (idsFromOne (gmshOrder m).length)) :=
  ⟨option_map_ids _ _ (WriteNASTRAN_posId S m hN hE),
    option_map_ids _ _ (WriteCalculix_posId S m hN hE),
    option_map_ids _ _ (WriteGmsh_posId m hP hE)⟩

/-- C17 at a triangle of part 1, a triangle of part 0 and a beam of part 1
(cap-flagged), in that order in the element list: each exporter writes the
triangle of part 0 first with id 1, then the two elements of part 1 with ids 2
and 3. -/
theorem C17_element_ids_consecutive_witness :
    (0 ≤ mixedMgr.m_NumFeaParts ∧ mixedMgr.m_NumFeaParts < 2 ^ 31)
    ∧ mixedMgr.m_FeaMeshStruct.m_FeaPartVec.length < 2 ^ 31
    ∧ (∀ e ∈ mixedMgr.m_FeaElementVec,
        -2 ^ 31 ≤ e.m_FeaPartIndex ∧ e.m_FeaPartIndex < 2 ^ 31)
    ∧ (WriteNASTRAN flatStages.StructMgr true mixedMgr).map
        (fun out => out.filterMap Rec.elemPosId) = some [(1, 1), (0, 2), (2, 3)]
    ∧ (WriteCalculix flatStages.StructMgr true mixedMgr).map
        (fun out => out.filterMap Rec.elemPosId) = some [(1, 1), (0, 2), (2, 3)]
    ∧ (WriteGmsh true mixedMgr).map
        (fun out => out.filterMap Rec.elemPosId) = some [(1, 1), (0, 2), (2, 3)] :=
  ⟨by decide, by decide, by decide,
    (C17_element_ids_consecutive flatStages.StructMgr mixedMgr (by decide) (by decide)
      (by decide)).1.1.trans (by decide),
    (C17_element_ids_consecutive flatStages.StructMgr mixedMgr (by decide) (by decide)
      (by decide)).2.1.1.trans (by decide),
    (C17_element_ids_consecutive flatStages.StructMgr mixedMgr (by decide) (by decide)
      (by decide)).2.2.1.trans (by decide)⟩

theorem roundDouble_zero : roundDouble 0 = 0 := by
  simp [roundDouble]

theorem roundDouble_tol : roundDouble tol = tol := by
  rw [roundDouble_eq tol (-20) 4722366482869645 (by norm_num [tol, abs_of_pos])
    (by norm_num [tol, abs_of_pos]) (by norm_num) (by norm_num [tol, abs_lt])]
  norm_num [tol]

theorem roundDouble_tol_sub_four :
    roundDouble (tol - 4) = -9007197002941178 * (2 : ℚ) ^ (-51 : Int) := by
  rw [roundDouble_eq (tol - 4) 1 (-9007197002941178) (by norm_num [tol, abs_of_neg])
    (by norm_num [tol, abs_of_neg]) (by norm_num) (by norm_num [tol, abs_lt])]
  norm_num

theorem roundDouble_fiftieth :
    roundDouble (2 / 100) = 5764607523034235 * (2 : ℚ) ^ (-58 : Int) := by
  rw [roundDouble_eq (2 / 100) (-6) 5764607523034235 (by norm_num [abs_of_pos])
    (by norm_num [abs_of_pos]) (by norm_num) (by norm_num [abs_lt])]
  norm_num

theorem roundDouble_delta :
    roundDouble (5764607523034235 * (2 : ℚ) ^ (-58 : Int) * 1)
      = 5764607523034235 * (2 : ℚ) ^ (-58 : Int) := by
  rw [roundDouble_eq (5764607523034235 * (2 : ℚ) ^ (-58 : Int) * 1) (-6) 5764607523034235
    (by norm_num [abs_of_pos]) (by norm_num [abs_of_pos]) (by norm_num) (by norm_num [abs_lt])]
  norm_num

theorem roundDouble_one_plus_delta :
    roundDouble (1 + 5764607523034235 * (2 : ℚ) ^ (-58 : Int)) = 2296835809958953 / 2 ^ 51 := by
  rw [roundDouble_eq (1 + 5764607523034235 * (2 : ℚ) ^ (-58 : Int)) 0 4593671619917906
    (by norm_num [abs_of_pos]) (by norm_num [abs_of_pos]) (by norm_num) (by norm_num [abs_lt])]
  norm_num

theorem dblStep_baseSeg_u : dblStep 1 3 1 = 2296835809958953 / 2 ^ 51 := by
  unfold dblStep
  have h1 : (3 : ℚ) - 1 = 2 := by norm_num
  rw [h1, roundDouble_two, Nat.cast_one, roundDouble_fiftieth, roundDouble_delta,
    roundDouble_one_plus_delta]

theorem dblStep_baseSeg_w : dblStep 1 1 1 = 1 := by
  unfold dblStep
  have h1 : (1 : ℚ) - 1 = 0 := by norm_num
  have h2 : (0 : ℚ) / 100 = 0 := by norm_num
  have h3 : (0 : ℚ) * ((1 : Nat) : ℚ) = 0 := by norm_num
  have h4 : (1 : ℚ) + 0 = 1 := by norm_num
  rw [h1, roundDouble_zero, h2, roundDouble_zero, h3, roundDouble_zero, h4, roundDouble_one]

theorem belowMin_false_iff (surf : Surf) (l_seg : SSLineSeg) :
    belowMin surf l_seg = false
      ↔ (surf.m_MinU ≤ l_seg.m_P0.u ∧ surf.m_MinW ≤ l_seg.m_P0.w
          ∧ surf.m_MinU ≤ l_seg.m_P1.u ∧ surf.m_MinW ≤ l_seg.m_P1.w) := by
  simp only [belowMin, Bool.or_eq_false_iff, decide_eq_false_iff_not, not_lt, and_assoc]

theorem aboveMax_false_iff (surf : Surf) (l_seg : SSLineSeg) :
    aboveMax surf l_seg = false
      ↔ (l_seg.m_P0.u ≤ surf.m_MaxU ∧ l_seg.m_P0.w ≤ surf.m_MaxW
          ∧ l_seg.m_P1.u ≤ surf.m_MaxU ∧ l_seg.m_P1.w ≤ surf.m_MaxW) := by
  simp only [aboveMax, Bool.or_eq_false_iff, decide_eq_false_iff_not, not_lt, gt_iff_lt,
    and_assoc]

theorem onSameEdge_iff (surf : Surf) (l_seg : SSLineSeg) :
    onSameEdge surf l_seg = true ↔ nearSameEdge surf l_seg := by
  simp only [onSameEdge, nearSameEdge, Bool.or_eq_true, Bool.and_eq_true, decide_eq_true_eq,
    or_assoc]

theorem retained_iff (surf : Surf) (is_poly : Bool) (l_seg : SSLineSeg) :
    retained surf is_poly l_seg = true
      ↔ (inRect surf l_seg.m_P0 ∧ inRect surf l_seg.m_P1
          ∧ ¬ (is_poly = true ∧ nearSameEdge surf l_seg)) := by
  have h0 : retained surf is_poly l_seg = true
      ↔ (belowMin surf l_seg = false ∧ aboveMax surf l_seg = false
          ∧ ¬ (is_poly = true ∧ onSameEdge surf l_seg = true)) := by
    unfold retained
    cases belowMin surf l_seg <;> cases aboveMax surf l_seg <;>
      cases onSameEdge surf l_seg <;> cases is_poly <;> simp
  rw [h0, belowMin_false_iff, aboveMax_false_iff, onSameEdge_iff]
  unfold inRect
  tauto

theorem uwPnts_getD (l_seg : SSLineSeg) (k : Nat) (hk : k ≤ 100) :
    (uwPnts l_seg).getD k ⟨0, 0⟩ = dblPnt l_seg k := by
  unfold uwPnts dblPnt dblStep
  simp only [num_sects]
  rw [List.getD_eq_getElem?_getD, List.getElem?_map, List.getElem?_range (by omega)]
  simp only [Option.map_some', Option.getD_some]
  split_ifs
  · rfl
  · rfl
  · push_cast
    rfl

theorem subSegs_getElem? (l_seg : SSLineSeg) (k : Nat) (h1 : 1 ≤ k) (h2 : k ≤ 100) :
    (subSegs l_seg)[k - 1]?
      = some { m_UW0 := dblPnt l_seg (k - 1), m_UW1 := dblPnt l_seg k } := by
  have hlen : (uwPnts l_seg).length = 101 := by simp [uwPnts, num_sects]
  unfold subSegs
  simp only [hlen]
  rw [List.getElem?_map, List.getElem?_range' _ _ (by omega)]
  simp only [Option.map_some']
  have e1 : 1 + 1 * (k - 1) - 1 = k - 1 := by omega
  have e2 : 1 + 1 * (k - 1) = k := by omega
  rw [e1, e2, uwPnts_getD l_seg (k - 1) (by omega), uwPnts_getD l_seg k h2]

theorem baseSeg_retained : retained hostSurf true baseSeg = true := by
  obtain ⟨h1, h2, h3⟩ := triangleSegs_retained baseSeg (List.mem_cons_self _ _)
  simp [retained, h1, h2, h3]

theorem tolSeg_onSameEdge : onSameEdge hostSurf tolSeg = false := by
  have a1 : |roundDouble (tol - 4)| < tol ↔ False := by
    rw [roundDouble_tol_sub_four]
    norm_num [tol, abs_lt]
  have a2 : |roundDouble ((1 : ℚ) - 4)| < tol ↔ False := by
    have : (1 : ℚ) - 4 = -3 := by norm_num
    rw [this, roundDouble_neg_three]
    norm_num [tol, abs_lt]
  have a3 : |roundDouble (tol - 0)| < tol ↔ False := by
    rw [sub_zero, roundDouble_tol]
    norm_num [tol, abs_lt]
  have a4 : |roundDouble ((1 : ℚ) - 0)| < tol ↔ False := by
    rw [sub_zero, roundDouble_one]
    norm_num [tol, abs_lt]
  simp only [onSameEdge, tolSeg, hostSurf, a1, a2, a3, a4, decide_False, Bool.false_and,
    Bool.or_self]

/-- C25 as stated fails on the code, whose arithmetic is `double` arithmetic.
For the retained boundary segment from `(1,1)` to `(3,1)`, sub-segment 1 runs
from `(1,1)` to the point with `u = 2296835809958953 / 2 ^ 51`, the `double`
nearest to 1.02, and not to `p0 + 1 * (p1 - p0) / 100`, whose `u` is `51 / 50`.
The tolerance is the `double` `1e-6`, below `10⁻⁶`, and the test is strict:
the polygon segment `tolSeg`, whose end points lie in the closed rectangle at
the distance `tol` from the edge `u = 0`, hence within `10⁻⁶` of it, is
retained and gives a chain. -/
theorem C25_points_and_tolerance_are_rounded :
    retained hostSurf true baseSeg = true
    ∧ (subSegs baseSeg)[1 - 1]?
        = some { m_UW0 := ⟨1, 1⟩, m_UW1 := ⟨2296835809958953 / 2 ^ 51, 1⟩ }
    ∧ specPnt baseSeg 0 = ⟨1, 1⟩
    ∧ specPnt baseSeg 1 = ⟨51 / 50, 1⟩
    ∧ (subSegs baseSeg)[1 - 1]?
        ≠ some { m_UW0 := specPnt baseSeg 0, m_UW1 := specPnt baseSeg 1 }
    ∧ tol < 1 / 1000000
    ∧ inRect hostSurf tolSeg.m_P0 ∧ inRect hostSurf tolSeg.m_P1
    ∧ |tolSeg.m_P0.u - hostSurf.m_MinU| < 1 / 1000000
    ∧ |tolSeg.m_P1.u - hostSurf.m_MinU| < 1 / 1000000
    ∧ retained hostSurf true tolSeg = true
    ∧ (buildSubSurfChains hostSurf true false 0 [tolSeg] []).length = 1 := by
  have hsub : (subSegs baseSeg)[1 - 1]?
      = some { m_UW0 := ⟨1, 1⟩, m_UW1 := ⟨2296835809958953 / 2 ^ 51, 1⟩ } := by
    rw [subSegs_getElem? baseSeg 1 (le_refl _) (by omega)]
    have h0 : dblPnt baseSeg (1 - 1) = ⟨1, 1⟩ := rfl
    have h1 : dblPnt baseSeg 1 = ⟨dblStep 1 3 1, dblStep 1 1 1⟩ := rfl
    rw [h0, h1, dblStep_baseSeg_u, dblStep_baseSeg_w]
  have hs0 : specPnt baseSeg 0 = ⟨1, 1⟩ := rfl
  have hs1 : specPnt baseSeg 1 = ⟨51 / 50, 1⟩ := by
    simp [specPnt, baseSeg]
    norm_num
  have hin0 : inRect hostSurf tolSeg.m_P0 := by
    simp [inRect, hostSurf, tolSeg, tol]
    norm_num
  have hin1 : inRect hostSurf tolSeg.m_P1 := by
    simp [inRect, hostSurf, tolSeg, tol]
    norm_num
  have hret : retained hostSurf true tolSeg = true := by
    rw [retained_iff]
    refine ⟨hin0, hin1, ?_⟩
    rintro ⟨_, hn⟩
    have := (onSameEdge_iff hostSurf tolSeg).2 hn
    rw [tolSeg_onSameEdge] at this
    cases this
  refine ⟨baseSeg_retained, hsub, hs0, hs1, ?_, by norm_num [tol], hin0, hin1,
    by norm_num [tolSeg, hostSurf, tol, abs_lt], by norm_num [tolSeg, hostSurf, tol, abs_lt],
    hret, ?_⟩
  · rw [hsub, hs0, hs1]
    intro h
    have h2 := congrArg (fun o => o.map (fun s => s.m_UW1.u)) h
    simp only [Option.map_some'] at h2
    norm_num at h2
  · rw [buildSubSurfChains_runs]
    unfold chainRuns
    rw [if_pos rfl, List.filter_cons, if_pos hret]
    rfl

/-- C25. Subdivision in `BuildSubSurfIntChains`.  A boundary segment is
retained exactly when both end points lie in the closed parametric rectangle of
the host surface and it is not the case that the sub-surface is a polygon with
both end points near the same domain edge, that is with the `double` difference
to the edge below the `double` `1e-6` in absolute value.  A retained segment
from `p0` to `p1` yields 100 sub-segments; sub-segment `k` (`1 ≤ k ≤ 100`) runs
from point `k - 1` to point `k` of the sequence whose point 0 is `p0`, whose
point 100 is `p1` and whose other points are the `double` results of
`p0 + d * k` with `d = (p1 - p0) / 100`, each operation rounded to `double`.
The chains appended for a sub-surface on a surface hold, run by run, the
sub-segments of the retained segments, in segment order and nothing else. -/
theorem C25_segment_subdivision (surf : Surf) (is_poly cap : Bool) (ss : Nat)
    (segs : List SSLineSeg) (L : List ISegChain) (l_seg : SSLineSeg) :
    (retained surf is_poly l_seg = true
      ↔ (inRect surf l_seg.m_P0 ∧ inRect surf l_seg.m_P1
          ∧ ¬ (is_poly = true ∧ nearSameEdge surf l_seg)))
    ∧ (subSegs l_seg).length = 100
    ∧ (∀ k, 1 ≤ k → k ≤ 100 →
        (subSegs l_seg)[k - 1]?
          = some { m_UW0 := dblPnt l_seg (k - 1), m_UW1 := dblPnt l_seg k })
    ∧ dblPnt l_seg 0 = l_seg.m_P0
    ∧ dblPnt l_seg 100 = l_seg.m_P1
    ∧ (∀ k, 0 < k → k < 100 →
        dblPnt l_seg k
          = ⟨roundDouble (l_seg.m_P0.u
                + roundDouble (roundDouble (roundDouble (l_seg.m_P1.u - l_seg.m_P0.u) / 100)
                    * (k : ℚ))),
             roundDouble (l_seg.m_P0.w
                + roundDouble (roundDouble (roundDouble (l_seg.m_P1.w - l_seg.m_P0.w) / 100)
                    * (k : ℚ)))⟩)
    ∧ (∃ runs : List (List SSLineSeg),
        buildSubSurfChains surf is_poly cap ss segs L = L ++ runs.map (runChain surf cap ss)
        ∧ runs.flatten = segs.filter (retained surf is_poly)
        ∧ ∀ run ∈ runs, (runChain surf cap ss run).m_ISegDeque = run.flatMap subSegs) := by
  refine ⟨retained_iff surf is_poly l_seg, subSegs_length l_seg,
    fun k h1 h2 => subSegs_getElem? l_seg k h1 h2, rfl, rfl, ?_, ?_⟩
  · intro k h1 h2
    unfold dblPnt dblStep
    rw [if_neg (by omega), if_neg (by omega)]
  · exact ⟨chainRuns surf is_poly segs, buildSubSurfChains_runs surf is_poly cap ss segs L,
      chainRuns_flatten surf is_poly segs, fun _ _ => rfl⟩

end FeaMesh
